import Mathlib

/-!
# enva: a verification development

A shallow embedding of the scoring, manifest-parsing, freeze-parsing,
security-scanning, structure-validating, suggestion-generating,
performance-analyzing and report-formatting code of `enva` (a Go tool that
inspects a Python virtual environment), together with theorems about it.

Conventions of the embedding.

* A Go `string` is a Lean `String`; the functions of package `strings` work on
  its list of characters (`String.data`).  Texts are taken to be well-formed
  UTF-8, so that a Go string is its sequence of code points, and byte-wise
  comparison of two Go strings is the lexicographic comparison of their code
  points.
* A Go `int` is a Lean `Int` reduced to the 64-bit two's complement range by
  `i64` after every arithmetic operation (`int` is 64 bits wide on the
  platforms the tool is built for).
* A nil-able pointer to a struct is an `Option`; a slice is a `List`.  The
  length of a Go slice is an `int`; theorems about a counter that is incremented
  once per element take this as the hypothesis `deps.length < 2 ^ 63`.
* A function that mutates the struct behind a pointer returns the new struct.
* A `range` loop over a slice of structs copies each element into its loop
  variable; where the body assigns to the loop variable, the loop is embedded
  a second time with the content of the caller's slice next to its result.
* Where what a call finds in memory and leaves there is at stake, the function
  is embedded as a procedure on its memory cells (`ScanMemory`), one write per
  statement.
* A `strings.Builder` is the text written to it so far.
* A field named `Type` in the source is `Type_` here (`Type` is reserved).
* The packages `validator` and `types` declare the same structs field for
  field; they are embedded once.
* A function that returns a value and an error returns an `Except`, or a pair
  with an `Option` for the error when the source returns both; the text of an
  error stands for the error.
* What the code reads from the file system, the process environment, the clock
  and the processes it runs is a parameter `sys : System`.
* `fmt.Sprintf` with `%s`, `%v` and `%d` is the concatenation of the pieces,
  `%d` being `toString` of the number.
* A loop without a bound in the source takes a number of iterations `fuel` and
  returns `none` when it is still running after them.
-/

namespace Enva

/-! ## Machine integers -/

/-- Two's complement reduction of an integer to the range of a 64-bit Go `int`. -/
def i64 (x : Int) : Int := (x + 2 ^ 63) % 2 ^ 64 - 2 ^ 63

/-! ## Package `strings` and `unicode`

Positions and lengths count code points.  The source only passes them back to
slicing operations on the same string, so the unit does not show in a result. -/

/-- Go `unicode.IsSpace`: the Latin-1 white space characters and the other
code points with the Unicode property `White_Space`. -/
def isSpace (c : Char) : Bool :=
  c = '\t' || c = '\n' || c.toNat = 0x0B || c.toNat = 0x0C || c = '\r' || c = ' '
    || c.toNat = 0x85 || c.toNat = 0xA0
    || c.toNat = 0x1680 || (0x2000 ≤ c.toNat && c.toNat ≤ 0x200A)
    || c.toNat = 0x2028 || c.toNat = 0x2029 || c.toNat = 0x202F
    || c.toNat = 0x205F || c.toNat = 0x3000

/-- Go `strings.TrimSpace` on a list of characters: all leading and trailing
white space removed. -/
def trimChars (s : List Char) : List Char :=
  ((s.dropWhile isSpace).reverse.dropWhile isSpace).reverse

/-- Go `strings.HasPrefix` on lists of characters:
`len(s) >= len(prefix) && s[:len(prefix)] == prefix`. -/
def hasPrefixChars (s pre : List Char) : Bool :=
  decide (pre.length ≤ s.length) && decide (s.take pre.length = pre)

/-- Go `strings.Index` on lists of characters: the position of the first
occurrence of `substr` in `s`, `none` standing for `-1`. -/
def indexChars (s substr : List Char) : Option Nat :=
  if hasPrefixChars s substr then some 0
  else match s with
    | [] => none
    | _ :: cs => (indexChars cs substr).map (· + 1)

/-- The loop of Go `strings.genSplit` for a non-empty separator, run for at
most `n` cuts: cut at the first occurrence of `sep`, continue behind it. -/
def splitLoop (sep : List Char) : Nat → List Char → List (List Char)
  | 0, s => [s]
  | n + 1, s =>
    match indexChars s sep with
    | none => [s]
    | some m => s.take m :: splitLoop sep n (s.drop (m + sep.length))

/-- Go `strings.SplitN` on lists of characters, for a non-empty separator:
at most `n` pieces, the last one the unsplit remainder. -/
def splitNChars (s sep : List Char) (n : Nat) : List (List Char) :=
  if n = 0 then [] else splitLoop sep (n - 1) s

/-- Go `strings.Split` on lists of characters, for a non-empty separator.
`genSplit` bounds its loop by the number of occurrences of `sep`, which is the
number of cuts made before `Index` fails and is at most `len(s)`; the loop
stops at the first failure of `Index`, so the bound `len(s)` gives the same
pieces. -/
def splitChars (s sep : List Char) : List (List Char) :=
  splitLoop sep s.length s

/-- Byte-wise `<` of Go strings, on lists of characters (UTF-8 keeps the order
of code points). -/
def lessChars : List Char → List Char → Bool
  | [], [] => false
  | [], _ :: _ => true
  | _ :: _, [] => false
  | a :: as, b :: bs =>
    if a.toNat < b.toNat then true
    else if b.toNat < a.toNat then false
    else lessChars as bs

/-- Go `strings.TrimSpace`. -/
def TrimSpace (s : String) : String := ⟨trimChars s.data⟩

/-- Go `strings.HasPrefix`. -/
def HasPrefix (s pre : String) : Bool := hasPrefixChars s.data pre.data

/-- Go `strings.Contains`: `Index(s, substr) >= 0`. -/
def Contains (s substr : String) : Bool := (indexChars s.data substr.data).isSome

/-- Go `strings.SplitN` (non-empty separator). -/
def SplitN (s sep : String) (n : Nat) : List String :=
  (splitNChars s.data sep.data n).map String.mk

/-- Go `strings.Split` (non-empty separator). -/
def Split (s sep : String) : List String :=
  (splitChars s.data sep.data).map String.mk

/-- Go `s < t` on strings. -/
def strLess (s t : String) : Bool := lessChars s.data t.data

/-! ## Go maps from string to string

A `map[string]string` is a list of key-value pairs with distinct keys; an
assignment `m[k] = v` replaces the value of an existing key and adds a new key
otherwise. -/

abbrev StrMap := List (String × String)

/-- Assignment `m[k] = v`. -/
def mapSet (m : StrMap) (k v : String) : StrMap :=
  match m with
  | [] => [(k, v)]
  | (k', v') :: rest => if k' = k then (k, v) :: rest else (k', v') :: mapSet rest k v

/-- Lookup `v, ok := m[k]`. -/
def mapGet (m : StrMap) (k : String) : Option String :=
  match m with
  | [] => none
  | (k', v') :: rest => if k' = k then some v' else mapGet rest k

/-! ## Data model (`internal/types/types.go`, `internal/validator/structs.go`) -/

structure VenvInfo where
  Path : String
  PythonVersion : String
  PipVersion : String
  Activated : String
  Integrity : String
  Status : String
  deriving DecidableEq, Repr

structure Dependency where
  Name : String
  Version : String
  Latest : String
  Status : String
  RequiredBy : String
  deriving DecidableEq, Repr

structure Vulnerability where
  ID : String
  Package : String
  Version : String
  Severity : String
  Description : String
  FixedIn : String
  deriving DecidableEq, Repr

structure SecurityScan where
  Critical : Int
  High : Int
  Medium : Int
  Low : Int
  Vulnerabilities : List Vulnerability
  Status : String
  deriving DecidableEq, Repr

structure PackageSize where
  Name : String
  Size : String
  deriving DecidableEq, Repr

structure Optimization where
  Type_ : String
  Description : String
  Impact : String
  deriving DecidableEq, Repr

structure Performance where
  UnusedPackages : List String
  LargePackages : List PackageSize
  Optimizations : List Optimization
  Status : String
  deriving DecidableEq, Repr

structure Issue where
  Type_ : String
  Severity : String
  Message : String
  Component : String
  Line : Int
  deriving DecidableEq, Repr

structure Suggestion where
  Type_ : String
  Description : String
  Command : String
  AutoFixable : Bool
  Priority : String
  deriving DecidableEq, Repr

structure ValidationResult where
  OverallStatus : String
  Score : Int
  Duration : Int
  Issues : List Issue
  Suggestions : List Suggestion
  ReportPath : String
  VenvInfo : Option VenvInfo
  Dependencies : List Dependency
  Security : Option SecurityScan
  Performance : Option Performance
  deriving DecidableEq, Repr

/-! ## The scorer (`calculateScore`, `internal/validator/engine.go`)

The body of `calculateScore` is a sequence of blocks, each updating the local
variable `score`.  Every block is one definition below, taking the value of
`score` on entry and returning its value on exit; `calculateScore` chains them
in the order of the source. -/

/-- Block "Deduct points based on venv status" and "Deduct for not activated". -/
def scoreVenv (score : Int) (venvInfo : Option VenvInfo) : Int :=
  match venvInfo with
  | none => score
  | some v =>
    let score :=
      if v.Status = "error" then i64 (score - 30)
      else if v.Status = "warning" then i64 (score - 15)
      else score
    if v.Activated = "not_activated" then i64 (score - 5) else score

/-- The loop computing `outdatedCount`. -/
def countOutdated (deps : List Dependency) : Int :=
  deps.foldl (fun outdatedCount dep =>
    if dep.Status = "outdated" then i64 (outdatedCount + 1) else outdatedCount) 0

/-- Statement `score -= outdatedCount * 3`. -/
def scoreOutdated (score : Int) (deps : List Dependency) : Int :=
  i64 (score - i64 (countOutdated deps * 3))

/-- Block "Deduct for security issues". -/
def scoreSecurity (score : Int) (security : Option SecurityScan) : Int :=
  match security with
  | none => score
  | some s =>
    let score := i64 (score - i64 (s.Critical * 25))
    let score := i64 (score - i64 (s.High * 15))
    let score := i64 (score - i64 (s.Medium * 5))
    i64 (score - i64 (s.Low * 2))

/-- Block "Deduct for performance warnings". -/
def scorePerformance (score : Int) (performance : Option Performance) : Int :=
  match performance with
  | none => score
  | some p => if p.Status = "warning" then i64 (score - 10) else score

/-- One iteration of the loop "Deduct for other issues". -/
def scoreIssue (score : Int) (issue : Issue) : Int :=
  if issue.Severity = "error" then i64 (score - 20)
  else if issue.Severity = "warning" then i64 (score - 10)
  else if issue.Severity = "info" then i64 (score - 5)
  else score

/-- The loop "Deduct for other issues". -/
def scoreIssues (score : Int) (issues : List Issue) : Int :=
  issues.foldl scoreIssue score

/-- Block "Ensure score is within bounds". -/
def clampScore (score : Int) : Int :=
  let score := if score < 0 then 0 else score
  if score > 100 then 100 else score

/-- Block "Determine overall status". -/
def overallStatus (score : Int) : String :=
  if score ≥ 80 then "success"
  else if score ≥ 50 then "warning"
  else "error"

/-- The value of the local variable `score` just before the bounds check. -/
def rawScore (result : ValidationResult) : Int :=
  let score : Int := 100
  let score := scoreVenv score result.VenvInfo
  let score := scoreOutdated score result.Dependencies
  let score := scoreSecurity score result.Security
  let score := scorePerformance score result.Performance
  scoreIssues score result.Issues

/-- Embedding of `calculateScore`: stores `Score` and `OverallStatus`. -/
def calculateScore (result : ValidationResult) : ValidationResult :=
  let score := clampScore (rawScore result)
  { result with Score := score, OverallStatus := overallStatus score }

/-! ## The requirements parser (`parseRequirementsFile`, `internal/scanner/dependencies.go`) -/

/-- One iteration of the loop over the lines of the manifest. -/
def requirementsLine (result : StrMap) (line : String) : StrMap :=
  let line := TrimSpace line
  if line = "" ∨ HasPrefix line "#" then result
  else if Contains line "==" then
    match SplitN line "==" 2 with
    | [p0, p1] =>
      let pkg := TrimSpace p0
      let version := TrimSpace p1
      mapSet result pkg ("==" ++ version)
    | _ => result
  else if Contains line ">=" then
    match SplitN line ">=" 2 with
    | [p0, p1] =>
      let pkg := TrimSpace p0
      let version := TrimSpace p1
      mapSet result pkg (">=" ++ version)
    | _ => result
  else mapSet result line ""

/-- The body of `parseRequirementsFile` behind the successful read of the
file: `content` is the text of the manifest. -/
def parseRequirements (content : String) : StrMap :=
  (Split content "\n").foldl requirementsLine []

/-- Embedding of `parseRequirementsFile`; the argument is the outcome of
`os.ReadFile(path)`, either the error or the text of the file. -/
def parseRequirementsFile (read : Except String String) : Except String StrMap :=
  match read with
  | .error err => .error err
  | .ok content => .ok (parseRequirements content)

/-- The table `versionMap` of `getLatestVersion`. -/
def versionMap : StrMap :=
  [("django", "4.2.0"), ("requests", "2.31.0"), ("flask", "2.3.3"), ("numpy", "1.24.3"),
   ("pandas", "2.0.3"), ("tensorflow", "2.13.0"), ("cryptography", "41.0.0")]

/-- Embedding of `getLatestVersion`. -/
def getLatestVersion (packageName : String) : String :=
  match mapGet versionMap packageName with
  | some version => version
  | none => "1.0.0"

/-! ## The freeze parser (`GetInstalledPackages`, `pkg/venv/detector.go`) -/

/-- One iteration of the loop over the lines of the package listing. -/
def freezeLine (packages : StrMap) (line : String) : StrMap :=
  let line := TrimSpace line
  if line = "" then packages
  else if Contains line "==" then
    match SplitN line "==" 2 with
    | [p0, p1] =>
      let packageName := TrimSpace p0
      let version := TrimSpace p1
      mapSet packages packageName version
    | _ => packages
  else packages

/-- The line-parsing step of `GetInstalledPackages`: `out` is the text the
package manager printed. -/
def parseFreeze (out : String) : StrMap :=
  let output := TrimSpace out
  if output = "" then []
  else (Split output "\n").foldl freezeLine []

/-! ## The security scanners -/

/-- The value of `scan` on entry to the loop of either scanner. -/
def emptyScan : SecurityScan :=
  { Critical := 0, High := 0, Medium := 0, Low := 0, Vulnerabilities := [], Status := "success" }

/-- One iteration of the loop of the validator's `scanSecurity`
(`internal/validator/engine.go`). -/
def scanSecurityDep (scan : SecurityScan) (dep : Dependency) : SecurityScan :=
  if dep.Name = "requests" ∧ strLess dep.Version "2.31.0" then
    { scan with
      Medium := i64 (scan.Medium + 1)
      Vulnerabilities := scan.Vulnerabilities ++
        [{ ID := "CVE-2023-XXXXX", Package := dep.Name, Version := dep.Version,
           Severity := "medium", Description := "Example security vulnerability",
           FixedIn := "2.31.0" }] }
  else scan

/-- Embedding of the validator's `scanSecurity`. -/
def scanSecurity (deps : List Dependency) : SecurityScan :=
  let scan := deps.foldl scanSecurityDep emptyScan
  if scan.Vulnerabilities.length > 0 then { scan with Status := "warning" } else scan

/-- The table `vulnerablePackages` of `ScanSecurity`. -/
def vulnerablePackages : StrMap :=
  [("requests", "2.28.2"), ("urllib3", "1.26.0")]

/-- One iteration of the loop of `scanner.ScanSecurity`
(`internal/scanner/security.go`).  The assignment `dep.Status = "vulnerable"`
writes to the loop variable, a copy of the element, and is not visible in the
scan. -/
def ScanSecurityDep (scan : SecurityScan) (dep : Dependency) : SecurityScan :=
  match mapGet vulnerablePackages dep.Name with
  | some fixedVersion =>
    if dep.Version = "==" ++ fixedVersion ∨ (dep.Version = "" ∧ dep.Name = fixedVersion) then
      { scan with
        Medium := i64 (scan.Medium + 1)
        Vulnerabilities := scan.Vulnerabilities ++
          [{ ID := "CVE-2023-XXXXX", Package := dep.Name, Version := dep.Version,
             Severity := "medium",
             Description := "Security vulnerability in " ++ dep.Name,
             FixedIn := getLatestVersion dep.Name }] }
    else scan
  | none => scan

/-- Embedding of `scanner.ScanSecurity`; its error result is always nil. -/
def ScanSecurity (deps : List Dependency) : SecurityScan :=
  let scan := deps.foldl ScanSecurityDep emptyScan
  if scan.Vulnerabilities.length > 0 then
    if scan.Critical > 0 ∨ scan.High > 0 then { scan with Status := "error" }
    else { scan with Status := "warning" }
  else scan

/-! ## Package `path/filepath` (Unix) and the outside world

Paths are Unix paths, the separator is `/`. -/

/-- One path element met by Go `filepath.Clean`; `out` holds the elements kept so
far, the last one first.  An empty element and `.` are dropped; `..` removes the
last kept element when that is a name, is kept on a path that is not rooted when
nothing can be removed, and is dropped at the root. -/
def cleanElem (rooted : Bool) (out : List (List Char)) (elem : List Char) :
    List (List Char) :=
  if elem = [] ∨ elem = ['.'] then out
  else if elem = ['.', '.'] then
    match out with
    | [] => if rooted then out else [elem]
    | top :: rest =>
      if top = ['.', '.'] then (if rooted then out else elem :: out) else rest
  else elem :: out

/-- Go `filepath.Clean` on a list of characters: the shortest path equivalent
to `path` by lexical processing; `.` for the empty path. -/
def cleanChars (path : List Char) : List Char :=
  if path = [] then ['.']
  else
    let rooted : Bool := path.head? = some '/'
    let out := (splitChars path ['/']).foldl (cleanElem rooted) []
    let body := List.intercalate ['/'] out.reverse
    if rooted then '/' :: body
    else if out = [] then ['.']
    else body

/-- Go `filepath.Clean`. -/
def Clean (path : String) : String := ⟨cleanChars path.data⟩

/-- Go `filepath.Dir`: the path up to and including its last separator,
cleaned. -/
def Dir (path : String) : String :=
  ⟨cleanChars (path.data.reverse.dropWhile (fun c => c ≠ '/')).reverse⟩

/-- Go `filepath.Join`: the elements from the first non-empty one on, joined
with separators, cleaned; the empty path when every element is empty. -/
def Join (elem : List String) : String :=
  match elem.dropWhile (fun e => e = "") with
  | [] => ""
  | rest => ⟨cleanChars (List.intercalate ['/'] (rest.map String.data))⟩

/-- Go `filepath.IsAbs` on Unix. -/
def IsAbs (path : String) : Bool := HasPrefix path "/"

/-- The outcome of `os.Stat` as far as the code looks at it: no error, an error
for which `os.IsNotExist` holds, or another error. -/
inductive StatResult where
  | ok
  | notExist
  | failed
  deriving DecidableEq, Repr

/-- What the code reads from outside the program.  A function of package `venv`
that runs a process stands here by its outcome: the text of its error, or its
result. -/
structure System where
  /-- Outcome of `os.Stat` on a path. -/
  stat : String → StatResult
  /-- Value of `os.Getenv("VIRTUAL_ENV")`. -/
  virtualEnv : String
  /-- Outcome of `os.Getwd`. -/
  getwd : Except String String
  /-- Outcome of `venv.GetPythonVersion` on an environment path. -/
  pythonVersion : String → Except String String
  /-- Outcome of `venv.GetPipVersion` on an environment path. -/
  pipVersion : String → Except String String
  /-- Outcome of locating the package manager and running it to list the
  packages: the text of the error `GetInstalledPackages` returns, or the text the
  package manager printed. -/
  pipList : String → Except String String
  /-- Value of `time.Since(start)` at the end of the run. -/
  elapsed : Int

/-- Go `filepath.Abs` on Unix. -/
def Abs (sys : System) (path : String) : Except String String :=
  if IsAbs path then .ok (Clean path)
  else
    match sys.getwd with
    | .error err => .error err
    | .ok wd => .ok (Join [wd, path])

/-! ## The environment detector (`pkg/venv/detector.go`) -/

/-- The slice `markers` of `IsValid`. -/
def validityMarkers (path : String) : List String :=
  [Join [path, "bin", "python"], Join [path, "bin", "activate"], Join [path, "pyvenv.cfg"],
   Join [path, "Scripts", "python.exe"], Join [path, "Scripts", "activate.bat"]]

/-- Embedding of `venv.IsValid`. -/
def IsValid (sys : System) (path : String) : Bool :=
  if path = "" then false
  else if sys.stat path = StatResult.notExist then false
  else (validityMarkers path).any (fun marker => sys.stat marker = StatResult.ok)

/-- Embedding of `venv.IsActivated`. -/
def IsActivated (sys : System) (venvPath : String) : Bool :=
  let currentVenv := sys.virtualEnv
  if currentVenv = "" then false
  else
    match Abs sys venvPath, Abs sys currentVenv with
    | .ok absVenv, .ok absCurrent => absVenv = absCurrent
    | _, _ => false

/-- Embedding of `venv.GetInstalledPackages`: the error of the listing, or the
mapping parsed from the printed text. -/
def GetInstalledPackages (sys : System) (venvPath : String) : Except String StrMap :=
  match sys.pipList venvPath with
  | .error err => .error err
  | .ok out => .ok (parseFreeze out)

/-! ## The validator (`internal/validator/engine.go`) -/

/-- Embedding of `validateVenvStructure`: the `VenvInfo` built and the error,
`none` for nil. -/
def validateVenvStructure (sys : System) (venvPath : String) : VenvInfo × Option String :=
  let info : VenvInfo :=
    { Path := venvPath, PythonVersion := "", PipVersion := "", Activated := "",
      Integrity := "valid", Status := "success" }
  if ¬ IsValid sys venvPath then
    ({ info with Status := "error", Integrity := "invalid" },
      some ("invalid virtual environment at " ++ venvPath))
  else
    let info := { info with Integrity := "valid" }
    let info :=
      match sys.pythonVersion venvPath with
      | .error err => { info with Status := "warning", PythonVersion := "error: " ++ err }
      | .ok pyVersion => { info with PythonVersion := pyVersion }
    let info :=
      match sys.pipVersion venvPath with
      | .error err =>
        let info := if info.Status ≠ "error" then { info with Status := "warning" } else info
        { info with PipVersion := "error: " ++ err }
      | .ok pipVersion => { info with PipVersion := pipVersion }
    let info :=
      if IsActivated sys venvPath then { info with Activated := "activated" }
      else
        let info := { info with Activated := "not_activated" }
        if info.Status ≠ "error" then { info with Status := "warning" } else info
    (info, none)

/-- Embedding of `convertPackagesToDependencies`.  The source ranges over a
Go map, whose order of iteration is not specified; the order of the pairs in
the `StrMap` stands for the order the run took. -/
def convertPackagesToDependencies (packages : StrMap) : List Dependency :=
  packages.foldl (fun deps entry =>
    let dep : Dependency :=
      { Name := entry.1, Version := entry.2, Latest := "", Status := "uptodate",
        RequiredBy := "" }
    let dep :=
      if entry.1 = "requests" ∧ strLess entry.2 "2.31.0" then
        { dep with Status := "outdated", Latest := "2.31.0" }
      else dep
    deps ++ [dep]) []

/-- Embedding of `checkRequirementsConsistency`, whose body is empty. -/
def checkRequirementsConsistency (_venvPath : String) (result : ValidationResult) :
    ValidationResult := result

/-- The slice `largePackages` of the validator's `analyzePerformance`. -/
def largePackagesValidator : List String := ["tensorflow", "torch", "opencv-python"]

/-- Embedding of the validator's `analyzePerformance`. -/
def analyzePerformance (_venvPath : String) (deps : List Dependency) : Performance :=
  let perf : Performance :=
    { UnusedPackages := [], LargePackages := [], Optimizations := [], Status := "success" }
  let perf := largePackagesValidator.foldl (fun perf pkg =>
    deps.foldl (fun perf dep =>
      if dep.Name = pkg then
        { perf with LargePackages := perf.LargePackages ++ [{ Name := pkg, Size := "100MB+" }] }
      else perf) perf) perf
  let perf :=
    if perf.LargePackages.length > 0 then
      { perf with
        Status := "warning"
        Optimizations := perf.Optimizations ++
          [{ Type_ := "size", Description := "Large packages may slow down environment",
             Impact := "medium" }] }
    else perf
  if deps.length > 20 then
    { perf with
      Status := "warning"
      Optimizations := perf.Optimizations ++
        [{ Type_ := "quantity",
           Description := "Many packages (" ++ toString deps.length ++ "), consider streamlining",
           Impact := "low" }] }
  else perf

/-- Embedding of `generateSuggestions`. -/
def generateSuggestions (result : ValidationResult) : List Suggestion :=
  let suggestions : List Suggestion := []
  let suggestions :=
    match result.VenvInfo with
    | some v =>
      if v.Activated = "not_activated" then
        suggestions ++
          [{ Type_ := "config", Description := "Activate virtual environment for development",
             Command := "source " ++ v.Path ++ "/bin/activate",
             AutoFixable := false, Priority := "medium" }]
      else suggestions
    | none => suggestions
  let suggestions := result.Dependencies.foldl (fun suggestions dep =>
    if dep.Status = "outdated" ∧ dep.Latest ≠ "" then
      suggestions ++
        [{ Type_ := "update",
           Description := "Update " ++ dep.Name ++ " to version " ++ dep.Latest,
           Command := "pip install " ++ dep.Name ++ "==" ++ dep.Latest,
           AutoFixable := true, Priority := "high" }]
    else suggestions) suggestions
  match result.Security with
  | some security =>
    security.Vulnerabilities.foldl (fun suggestions vuln =>
      suggestions ++
        [{ Type_ := "security",
           Description := "Fix vulnerability " ++ vuln.ID ++ " in " ++ vuln.Package,
           Command := "pip install " ++ vuln.Package ++ "==" ++ vuln.FixedIn,
           AutoFixable := true, Priority := "high" }]) suggestions
  | none => suggestions

/-- Embedding of `ValidateEnvironment`: the error, or the result. -/
def ValidateEnvironment (sys : System) (venvPath : String) : Except String ValidationResult :=
  let result : ValidationResult :=
    { OverallStatus := "success", Score := 100, Duration := 0, Issues := [],
      Suggestions := [], ReportPath := "", VenvInfo := none, Dependencies := [],
      Security := none, Performance := none }
  match validateVenvStructure sys venvPath with
  | (_, some err) => .error ("venv validation failed: " ++ err)
  | (venvInfo, none) =>
    let result := { result with VenvInfo := some venvInfo }
    let result :=
      match GetInstalledPackages sys venvPath with
      | .error err =>
        { result with
          Issues := result.Issues ++
            [{ Type_ := "dependency", Severity := "warning",
               Message := "Failed to get packages: " ++ err, Component := "", Line := 0 }]
          Dependencies := [] }
      | .ok packages => { result with Dependencies := convertPackagesToDependencies packages }
    let result := checkRequirementsConsistency venvPath result
    let result := { result with Security := some (scanSecurity result.Dependencies) }
    let result :=
      { result with Performance := some (analyzePerformance venvPath result.Dependencies) }
    let result := { result with Suggestions := generateSuggestions result }
    let result := { result with Duration := sys.elapsed }
    .ok (calculateScore result)

/-! ## The dependency and performance scanners (`internal/scanner`) -/

/-- The slice `markers` of `findProjectRoot`. -/
def projectMarkers : List String :=
  ["requirements.txt", "pyproject.toml", "setup.py", "Pipfile", ".git"]

/-- The loop of `findProjectRoot`, run for at most `fuel` directories: `none`
when the loop is still running after them. -/
def findProjectRootLoop (sys : System) (venvPath : String) : Nat → String → Option String
  | 0, _ => none
  | fuel + 1, dir =>
    if dir ≠ "/" then
      if projectMarkers.any (fun marker => sys.stat (Join [dir, marker]) = StatResult.ok) then
        some dir
      else findProjectRootLoop sys venvPath fuel (Dir dir)
    else some (Dir venvPath)

/-- Embedding of `findProjectRoot`, its loop run for at most `fuel`
directories. -/
def findProjectRoot (sys : System) (fuel : Nat) (venvPath : String) : Option String :=
  findProjectRootLoop sys venvPath fuel (Dir venvPath)

/-- The slice `largePackages` of `scanner.AnalyzePerformance`. -/
def largePackagesScanner : List String := ["tensorflow", "pytorch", "opencv-python"]

/-- Embedding of `scanner.AnalyzePerformance`; its error result is always nil. -/
def AnalyzePerformance (_venvPath : String) (deps : List Dependency) : Performance :=
  let perf : Performance :=
    { UnusedPackages := [], LargePackages := [], Optimizations := [], Status := "success" }
  let perf := largePackagesScanner.foldl (fun perf pkg =>
    deps.foldl (fun perf dep =>
      if dep.Name = pkg then
        { perf with LargePackages := perf.LargePackages ++ [{ Name := pkg, Size := "450MB+" }] }
      else perf) perf) perf
  let perf :=
    if deps.length > 20 then
      { perf with
        UnusedPackages := ["example-unused-package"]
        Optimizations := perf.Optimizations ++
          [{ Type_ := "cleanup",
             Description := "Remove unused packages to reduce environment size",
             Impact := "medium" }] }
    else perf
  let outdatedCount := countOutdated deps
  if outdatedCount > 5 then
    { perf with
      Status := "warning"
      Optimizations := perf.Optimizations ++
        [{ Type_ := "update",
           Description := "Update " ++ toString outdatedCount ++
             " outdated packages for performance improvements",
           Impact := "high" }] }
  else perf

/-! ## Loops over a slice by value

`for _, dep := range deps` copies each element of the slice into the loop
variable `dep`.  A statement of the body that assigns to a field of `dep`
writes to that copy.  The loops below carry the content of the caller's slice
next to the scan, so that what a call leaves in the slice can be stated. -/

/-- The body of the loop of `scanner.ScanSecurity` with its loop variable: the
scan and the value of the loop variable `dep` when the body ends.  The last
statement of the flagged branch is `dep.Status = "vulnerable"`. -/
def ScanSecurityBody (scan : SecurityScan) (dep : Dependency) : SecurityScan × Dependency :=
  match mapGet vulnerablePackages dep.Name with
  | some fixedVersion =>
    if dep.Version = "==" ++ fixedVersion ∨ (dep.Version = "" ∧ dep.Name = fixedVersion) then
      ({ scan with
          Medium := i64 (scan.Medium + 1)
          Vulnerabilities := scan.Vulnerabilities ++
            [{ ID := "CVE-2023-XXXXX", Package := dep.Name, Version := dep.Version,
               Severity := "medium",
               Description := "Security vulnerability in " ++ dep.Name,
               FixedIn := getLatestVersion dep.Name }] },
       { dep with Status := "vulnerable" })
    else (scan, dep)
  | none => (scan, dep)

/-- The loop of `scanner.ScanSecurity` over the elements `todo` still to visit,
`slice` being the content of the caller's slice: each iteration runs the body
on a copy of the element and drops the copy; no statement writes to `slice`. -/
def ScanSecurityLoop (slice : List Dependency) :
    List Dependency → SecurityScan → SecurityScan × List Dependency
  | [], scan => (scan, slice)
  | dep :: todo, scan => ScanSecurityLoop slice todo (ScanSecurityBody scan dep).1

/-- A call of `scanner.ScanSecurity` on the caller's slice `deps`: the scan
returned and the content of the slice after the call. -/
def ScanSecurityRun (deps : List Dependency) : SecurityScan × List Dependency :=
  let run := ScanSecurityLoop deps deps emptyScan
  let scan := run.1
  let scan :=
    if scan.Vulnerabilities.length > 0 then
      if scan.Critical > 0 ∨ scan.High > 0 then { scan with Status := "error" }
      else { scan with Status := "warning" }
    else scan
  (scan, run.2)

/-- The loop of the validator's `scanSecurity` over the elements `todo` still to
visit, `slice` being the content of the caller's slice; its body only reads the
loop variable. -/
def scanSecurityLoop (slice : List Dependency) :
    List Dependency → SecurityScan → SecurityScan × List Dependency
  | [], scan => (scan, slice)
  | dep :: todo, scan => scanSecurityLoop slice todo (scanSecurityDep scan dep)

/-- A call of the validator's `scanSecurity` on the caller's slice `deps`: the
scan returned and the content of the slice after the call. -/
def scanSecurityRun (deps : List Dependency) : SecurityScan × List Dependency :=
  let run := scanSecurityLoop deps deps emptyScan
  let scan := run.1
  let scan := if scan.Vulnerabilities.length > 0 then { scan with Status := "warning" } else scan
  (scan, run.2)

/-! ## The scanners as procedures on memory

A call of a scanner works on memory cells: the elements of the caller's slice,
the struct behind the pointer `scan`, the map `vulnerablePackages` and the loop
variable `dep`.  Each statement of the source is a write to one of these
cells.  A call is given the memory as it finds it, whatever an earlier call
left in the cells, and returns the memory as it leaves it; the value returned
to the caller is the content of the cell `scan`. -/

/-- The memory cells of a call of `scanner.ScanSecurity` or of the validator's
`scanSecurity`: `deps` are the elements of the caller's slice, `scan` is the
struct behind the pointer `scan`, `vulnerablePackages` the map of that name
(only `scanner.ScanSecurity` has it) and `dep` the loop variable. -/
structure ScanMemory where
  deps : List Dependency
  scan : SecurityScan
  vulnerablePackages : StrMap
  dep : Dependency
  deriving DecidableEq, Repr

/-- Iteration `i` of `for _, dep := range deps` in `scanner.ScanSecurity`: the
element `deps[i]` is copied into the loop variable, then the body runs,
statement by statement.  The index stays below the length the loop
read when it started; for an index outside the slice nothing is done. -/
def ScanSecurityIteration (m : ScanMemory) (i : Nat) : ScanMemory :=
  match m.deps[i]? with
  | none => m
  | some element =>
    let m := { m with dep := element }
    match mapGet m.vulnerablePackages m.dep.Name with
    | some fixedVersion =>
      if m.dep.Version = "==" ++ fixedVersion ∨
          (m.dep.Version = "" ∧ m.dep.Name = fixedVersion) then
        let m := { m with scan := { m.scan with Medium := i64 (m.scan.Medium + 1) } }
        let m := { m with scan := { m.scan with
          Vulnerabilities := m.scan.Vulnerabilities ++
            [({ ID := "CVE-2023-XXXXX", Package := m.dep.Name, Version := m.dep.Version,
                Severity := "medium",
                Description := "Security vulnerability in " ++ m.dep.Name,
                FixedIn := getLatestVersion m.dep.Name } : Vulnerability)] } }
        { m with dep := { m.dep with Status := "vulnerable" } }
      else m
    | none => m

/-- A call of `scanner.ScanSecurity` on the memory `m`, statement by
statement: the allocation of `scan`, the map literal, the loop over the
indices of the slice, whose length is read once, and the final status. -/
def ScanSecurityCall (m : ScanMemory) : ScanMemory :=
  let m := { m with scan := { Critical := 0, High := 0, Medium := 0, Low := 0,
                              Vulnerabilities := [], Status := "success" } }
  let m := { m with vulnerablePackages := [("requests", "2.28.2"), ("urllib3", "1.26.0")] }
  let m := (List.range m.deps.length).foldl ScanSecurityIteration m
  if m.scan.Vulnerabilities.length > 0 then
    let m := { m with scan := { m.scan with Status := "warning" } }
    if m.scan.Critical > 0 ∨ m.scan.High > 0 then
      { m with scan := { m.scan with Status := "error" } }
    else m
  else m

/-- Iteration `i` of `for _, dep := range deps` in the validator's
`scanSecurity`. -/
def scanSecurityIteration (m : ScanMemory) (i : Nat) : ScanMemory :=
  match m.deps[i]? with
  | none => m
  | some element =>
    let m := { m with dep := element }
    if m.dep.Name = "requests" ∧ strLess m.dep.Version "2.31.0" then
      let m := { m with scan := { m.scan with Medium := i64 (m.scan.Medium + 1) } }
      { m with scan := { m.scan with
          Vulnerabilities := m.scan.Vulnerabilities ++
            [({ ID := "CVE-2023-XXXXX", Package := m.dep.Name, Version := m.dep.Version,
                Severity := "medium", Description := "Example security vulnerability",
                FixedIn := "2.31.0" } : Vulnerability)] } }
    else m

/-- A call of the validator's `scanSecurity` on the memory `m`. -/
def scanSecurityCall (m : ScanMemory) : ScanMemory :=
  let m := { m with scan := { Critical := 0, High := 0, Medium := 0, Low := 0,
                              Vulnerabilities := [], Status := "success" } }
  let m := (List.range m.deps.length).foldl scanSecurityIteration m
  if m.scan.Vulnerabilities.length > 0 then
    { m with scan := { m.scan with Status := "warning" } }
  else m

/-! ## The text report (`internal/formatter/chinese.go`) -/

/-- The table `statusMap` of `getStatusIcon`. -/
def statusMap : StrMap :=
  [("uptodate", "✅"), ("outdated", "⚠️"), ("vulnerable", "❌"), ("missing", "❌"),
   ("success", "✅"), ("warning", "⚠️"), ("error", "❌"), ("info", "ℹ️")]

/-- Embedding of `getStatusIcon`. -/
def getStatusIcon (status : String) : String :=
  match mapGet statusMap status with
  | some icon => icon
  | none => "❓"

/-- The loop "Determine section status" of `formatDependenciesSection`, entered
with the value `sectionStatus`; a vulnerable dependency ends it (`break`). -/
def sectionStatusLoop (sectionStatus : String) : List Dependency → String
  | [] => sectionStatus
  | dep :: rest =>
    if dep.Status = "vulnerable" then "error"
    else if dep.Status = "outdated" then sectionStatusLoop "warning" rest
    else sectionStatusLoop sectionStatus rest

/-- The value of `line` at the end of the body of the second loop of
`formatDependenciesSection`. -/
def dependencyLine (dep : Dependency) : String :=
  let icon := getStatusIcon dep.Status
  let line := "  " ++ icon ++ " " ++ dep.Name
  let line := if dep.Version ≠ "" then line ++ (" " ++ dep.Version) else line
  if dep.Latest ≠ "" ∧ dep.Latest ≠ dep.Version then line ++ (" → latest: " ++ dep.Latest)
  else line

/-- Embedding of `formatDependenciesSection`; `section_` is the text written to
the builder `section` so far. -/
def formatDependenciesSection (deps : List Dependency) : String :=
  let sectionStatus := sectionStatusLoop "success" deps
  let statusIcon := getStatusIcon sectionStatus
  let section_ :=
    "" ++ ("[" ++ statusIcon ++ " PACKAGES] Dependencies (" ++ toString deps.length ++ ")\n")
  deps.foldl (fun section_ dep => section_ ++ (dependencyLine dep ++ "\n")) section_

/-! ## The scoring rule in the words of the specification -/

/-- Deduction for the environment: 30 for status error or 15 for status
warning, and 5 more when not activated; nothing for an absent environment. -/
def specVenvDeduction (venvInfo : Option VenvInfo) : Int :=
  match venvInfo with
  | none => 0
  | some v =>
    (if v.Status = "error" then 30 else if v.Status = "warning" then 15 else 0)
      + (if v.Activated = "not_activated" then 5 else 0)

/-- Deduction for the security scan: 25, 15, 5 and 2 per critical, high,
medium and low vulnerability counted; nothing for an absent scan. -/
def specSecurityDeduction (security : Option SecurityScan) : Int :=
  match security with
  | none => 0
  | some s => 25 * s.Critical + 15 * s.High + 5 * s.Medium + 2 * s.Low

/-- Deduction for the performance record: a flat 10 for status warning. -/
def specPerformanceDeduction (performance : Option Performance) : Int :=
  match performance with
  | none => 0
  | some p => if p.Status = "warning" then 10 else 0

/-- Deduction for one issue: 20, 10 or 5 for severity error, warning or info. -/
def specIssueDeduction (issue : Issue) : Int :=
  if issue.Severity = "error" then 20
  else if issue.Severity = "warning" then 10
  else if issue.Severity = "info" then 5
  else 0

/-- The sum of all deductions of the scoring rule, over the integers. -/
def specDeduction (r : ValidationResult) : Int :=
  specVenvDeduction r.VenvInfo
    + 3 * ((r.Dependencies.filter (fun dep => dep.Status = "outdated")).length : Int)
    + specSecurityDeduction r.Security
    + specPerformanceDeduction r.Performance
    + (r.Issues.map specIssueDeduction).sum

/-- The score of the scoring rule: 100 minus the deductions, clamped to 0..100. -/
def specScore (r : ValidationResult) : Int :=
  max 0 (min 100 (100 - specDeduction r))

/-- The deductions for the security scan with every count in absolute value. -/
def securityMagnitude (security : Option SecurityScan) : Int :=
  match security with
  | none => 0
  | some s => 25 * |s.Critical| + 15 * |s.High| + 5 * |s.Medium| + 2 * |s.Low|

/-- A bound on every intermediate value the scorer meets on `r`: the start
value 100, the largest fixed deductions 35 + 10, 3 per dependency, the security
deductions in absolute value and 20 per issue. -/
def scoreMagnitude (r : ValidationResult) : Int :=
  145 + 3 * (r.Dependencies.length : Int) + securityMagnitude r.Security
    + 20 * (r.Issues.length : Int)

/-- A result whose security scan counts 2213609288845146194 critical
vulnerabilities; 25 times that count is 2 modulo 2^64. -/
def overflowResult : ValidationResult :=
  { OverallStatus := "", Score := 0, Duration := 0, Issues := [], Suggestions := [],
    ReportPath := "", VenvInfo := none, Dependencies := [],
    Security := some { Critical := 2213609288845146194, High := 0, Medium := 0, Low := 0,
                       Vulnerabilities := [], Status := "success" },
    Performance := none }

/-- A result with one component of every kind. -/
def sampleResult : ValidationResult :=
  { OverallStatus := "", Score := 0, Duration := 0,
    Issues := [{ Type_ := "dependency", Severity := "warning", Message := "m",
                 Component := "", Line := 0 }],
    Suggestions := [], ReportPath := "",
    VenvInfo := some { Path := "venv", PythonVersion := "3.11.4", PipVersion := "23.1",
                       Activated := "not_activated", Integrity := "valid",
                       Status := "warning" },
    Dependencies := [{ Name := "requests", Version := "2.28.2", Latest := "2.31.0",
                       Status := "outdated", RequiredBy := "" }],
    Security := some { Critical := 0, High := 0, Medium := 1, Low := 0,
                       Vulnerabilities := [], Status := "warning" },
    Performance := some { UnusedPackages := [], LargePackages := [], Optimizations := [],
                          Status := "warning" } }

/-! ## Notions used to state the claims on the parsers and the scanners -/

/-- `sep` stands in `l` right behind `pre`, is followed by `post`, and occurs at no
earlier position. -/
def firstAtChars (l pre sep post : List Char) : Prop :=
  l = pre ++ sep ++ post ∧ ∀ j, j < pre.length → ¬ sep <+: l.drop j

instance (l pre sep post : List Char) : Decidable (firstAtChars l pre sep post) := by
  unfold firstAtChars; infer_instance

/-- A separator the trimming of a line cannot touch: non-empty, without white space. -/
def solidSep (sep : List Char) : Prop := sep ≠ [] ∧ ∀ c ∈ sep, isSpace c = false

/-- In the line, `sep` stands right behind `pre`, is followed by `post`, and occurs at
no earlier position: the first occurrence of `sep` cuts the line into `pre` and `post`. -/
def FirstAt (line pre sep post : String) : Prop :=
  firstAtChars line.data pre.data sep.data post.data

instance (line pre sep post : String) : Decidable (FirstAt line pre sep post) := by
  unfold FirstAt; infer_instance

/-- The text occurs somewhere in the line. -/
def Occurs (sep line : String) : Prop := sep.data <:+: line.data

instance (sep line : String) : Decidable (Occurs sep line) := by
  unfold Occurs; infer_instance

/-- The first character of the text is `#`. -/
def startsWithHash (s : String) : Bool := s.data.head? = some '#'

/-- A whitespace-only line (the empty line included). -/
def isBlankLine (l : String) : Bool := l.data.all isSpace

/-- A line whose first non-whitespace character is `#`. -/
def isCommentLine (l : String) : Bool := (l.data.dropWhile isSpace).head? = some '#'

/-- A blank line or a comment line. -/
def isSkippedLine (l : String) : Bool := isBlankLine l || isCommentLine l

/-- The text made of the given lines, a line feed between two neighbours. -/
def joinLines (ls : List String) : String :=
  ⟨List.intercalate ['\n'] (ls.map String.data)⟩

/-- The text with every blank line and every comment line removed. -/
def withoutSkipped (text : String) : String :=
  joinLines ((Split text "\n").filter (fun l => !isSkippedLine l))

/-- A loop over the lines of a text, read character by character: `acc` is the part of
the current line read so far, and `step` is applied to every completed line. -/
def foldChars (step : StrMap → List Char → StrMap) : StrMap → List Char → List Char → StrMap
  | m, acc, [] => step m acc
  | m, acc, c :: s =>
    if c = '\n' then foldChars step (step m acc) [] s
    else foldChars step m (acc ++ [c]) s

/-- A step that looks at a line only through its trimmed text and skips the empty line. -/
def TrimStep (step : StrMap → List Char → StrMap) : Prop :=
  (∀ m a b, trimChars a = trimChars b → step m a = step m b) ∧ ∀ m, step m [] = m

/-- The line is a freeze entry of `name` with `version`: its first `==` cuts it into a
text that, trimmed, is `name` and a text that, trimmed, is `version`. -/
def IsFreezeEntry (line name version : String) : Prop :=
  ∃ pre post, FirstAt line pre "==" post ∧ name = TrimSpace pre ∧ version = TrimSpace post

/-- The record the validator's scanner emits for a dependency. -/
def validatorRecord (dep : Dependency) : Vulnerability :=
  { ID := "CVE-2023-XXXXX", Package := dep.Name, Version := dep.Version,
    Severity := "medium", Description := "Example security vulnerability",
    FixedIn := "2.31.0" }

/-- The record `scanner.ScanSecurity` emits for a dependency. -/
def scannerRecord (dep : Dependency) : Vulnerability :=
  { ID := "CVE-2023-XXXXX", Package := dep.Name, Version := dep.Version,
    Severity := "medium", Description := "Security vulnerability in " ++ dep.Name,
    FixedIn := getLatestVersion dep.Name }

/-- The dependency is in the known-vulnerable table with its stored version equal to the
table version behind the prefix `==`. -/
def isFlagged (dep : Dependency) : Bool :=
  (dep.Name = "requests" ∧ dep.Version = "==2.28.2") ∨
    (dep.Name = "urllib3" ∧ dep.Version = "==1.26.0")

/-- The dependency is in the known-vulnerable table with its stored version equal to the
table version, bare or behind the prefix `==`. -/
def isFlaggedAsStated (dep : Dependency) : Bool :=
  (dep.Name = "requests" ∧ (dep.Version = "2.28.2" ∨ dep.Version = "==2.28.2")) ∨
    (dep.Name = "urllib3" ∧ (dep.Version = "1.26.0" ∨ dep.Version = "==1.26.0"))

/-- The dependency `requests` with the bare version `2.28.2`. -/
def bareRequests : Dependency :=
  { Name := "requests", Version := "2.28.2", Latest := "", Status := "uptodate",
    RequiredBy := "" }

/-- The dependency `requests` with the version `==2.28.2`. -/
def pinnedRequests : Dependency :=
  { Name := "requests", Version := "==2.28.2", Latest := "2.31.0", Status := "outdated",
    RequiredBy := "" }

/-- The dependency `flask` with the bare version `2.3.3`. -/
def bareFlask : Dependency :=
  { Name := "flask", Version := "2.3.3", Latest := "", Status := "uptodate",
    RequiredBy := "" }

/-- What a scanner has done to `scan` when it has emitted the records `vs`. -/
def emitted (scan : SecurityScan) (vs : List Vulnerability) : Prop :=
  scan.Critical = 0 ∧ scan.High = 0 ∧ scan.Low = 0 ∧ scan.Status = "success" ∧
    scan.Vulnerabilities = vs ∧ scan.Medium = (vs.length : Int)

/-- The shape of a scan that holds medium records only. -/
def MediumOnly (s : SecurityScan) : Prop :=
  s.Critical = 0 ∧ s.High = 0 ∧ s.Low = 0 ∧
    s.Medium = (s.Vulnerabilities.length : Int) ∧
    (∀ v ∈ s.Vulnerabilities, v.Severity = "medium") ∧
    (s.Vulnerabilities = [] → s.Status = "success") ∧
    (s.Vulnerabilities ≠ [] → s.Status = "warning") ∧
    s.Status ≠ "error"

/-- The dependency `urllib3` with the version `==1.26.0`. -/
def pinnedUrllib3 : Dependency :=
  { Name := "urllib3", Version := "==1.26.0", Latest := "1.0.0", Status := "outdated",
    RequiredBy := "" }

/-- The result `r` without its security scan. -/
def withoutSecurity (r : ValidationResult) : ValidationResult :=
  { r with Security := none }

/-! ## Notions used to state the claims on the validator, the suggestions and the analyzers -/

/-- The probe succeeded. -/
def probeOk (outcome : Except String String) : Bool :=
  match outcome with
  | .ok _ => true
  | .error _ => false

/-- A machine on which `venv`, relative to the working directory `/home/u`, is
an activated environment with a working interpreter and package manager and no
package installed. -/
def sampleSystem : System :=
  { stat := fun p =>
      if p = "venv" ∨ p = "venv/bin/python" ∨ p = "venv/pyvenv.cfg" then StatResult.ok
      else StatResult.notExist
    virtualEnv := "/home/u/venv"
    getwd := .ok "/home/u"
    pythonVersion := fun _ => .ok "3.11.4"
    pipVersion := fun _ => .ok "23.1"
    pipList := fun _ => .ok ""
    elapsed := 1500 }

/-- The machine `sampleSystem` with no environment activated. -/
def idleSystem : System := { sampleSystem with virtualEnv := "" }

/-- The machine `idleSystem` on which listing the packages fails. -/
def failingSystem : System :=
  { idleSystem with pipList := fun _ => .error "failed to list packages: exit status 1" }

/-- The machine `sampleSystem` on which the interpreter cannot be run. -/
def probeFailSystem : System :=
  { sampleSystem with
    pythonVersion := fun _ => .error "Python executable not found in venv" }

/-- A machine on which no file exists. -/
def bareSystem : System :=
  { stat := fun _ => StatResult.notExist
    virtualEnv := ""
    getwd := .ok "/home/u"
    pythonVersion := fun _ => .error "Python executable not found in venv"
    pipVersion := fun _ => .error "pip executable not found in venv"
    pipList := fun _ => .error "pip executable not found"
    elapsed := 0 }

/-- The names of the table `versionMap`. -/
def tabledNames : List String :=
  ["django", "requests", "flask", "numpy", "pandas", "tensorflow", "cryptography"]

/-- The result `ValidateEnvironment` hands to `calculateScore` for a valid environment
whose package listing printed `out`. -/
def listedResult (sys : System) (venvPath out : String) : ValidationResult :=
  let deps := convertPackagesToDependencies (parseFreeze out)
  let result : ValidationResult :=
    { OverallStatus := "success", Score := 100, Duration := 0, Issues := [], Suggestions := [],
      ReportPath := "", VenvInfo := some (validateVenvStructure sys venvPath).1,
      Dependencies := deps, Security := some (scanSecurity deps),
      Performance := some (analyzePerformance venvPath deps) }
  { result with Suggestions := generateSuggestions result, Duration := sys.elapsed }

/-- The result `ValidateEnvironment` hands to `calculateScore` for a valid environment
whose package listing failed with `err`. -/
def unlistedResult (sys : System) (venvPath err : String) : ValidationResult :=
  let result : ValidationResult :=
    { OverallStatus := "success", Score := 100, Duration := 0,
      Issues := [{ Type_ := "dependency", Severity := "warning",
                   Message := "Failed to get packages: " ++ err, Component := "", Line := 0 }],
      Suggestions := [], ReportPath := "",
      VenvInfo := some (validateVenvStructure sys venvPath).1,
      Dependencies := [], Security := some (scanSecurity []),
      Performance := some (analyzePerformance venvPath []) }
  { result with Suggestions := generateSuggestions result, Duration := sys.elapsed }

/-- The config suggestion for the environment at `path`. -/
def configSuggestion (path : String) : Suggestion :=
  { Type_ := "config", Description := "Activate virtual environment for development",
    Command := "source " ++ path ++ "/bin/activate", AutoFixable := false,
    Priority := "medium" }

/-- The update suggestion for a dependency. -/
def updateSuggestion (dep : Dependency) : Suggestion :=
  { Type_ := "update", Description := "Update " ++ dep.Name ++ " to version " ++ dep.Latest,
    Command := "pip install " ++ dep.Name ++ "==" ++ dep.Latest, AutoFixable := true,
    Priority := "high" }

/-- The security suggestion for a vulnerability. -/
def securitySuggestion (vuln : Vulnerability) : Suggestion :=
  { Type_ := "security",
    Description := "Fix vulnerability " ++ vuln.ID ++ " in " ++ vuln.Package,
    Command := "pip install " ++ vuln.Package ++ "==" ++ vuln.FixedIn, AutoFixable := true,
    Priority := "high" }

/-- The suggestions in the words of the specification: the config suggestion if the
environment is not activated, then one update suggestion per outdated dependency with a
known latest version, then one security suggestion per vulnerability. -/
def specSuggestions (r : ValidationResult) : List Suggestion :=
  (match r.VenvInfo with
    | some v => if v.Activated = "not_activated" then [configSuggestion v.Path] else []
    | none => [])
  ++ (r.Dependencies.filter (fun dep => dep.Status = "outdated" ∧ dep.Latest ≠ "")).map
      updateSuggestion
  ++ (match r.Security with
    | some security => security.Vulnerabilities.map securitySuggestion
    | none => [])

/-- A result that is not activated, with one outdated dependency that has a latest
version, one that has none, and one vulnerability. -/
def suggestResult : ValidationResult :=
  { OverallStatus := "", Score := 0, Duration := 0, Issues := [], Suggestions := [],
    ReportPath := "",
    VenvInfo := some { Path := "venv", PythonVersion := "3.11.4", PipVersion := "23.1",
                       Activated := "not_activated", Integrity := "valid",
                       Status := "warning" },
    Dependencies := [{ Name := "requests", Version := "2.28.2", Latest := "2.31.0",
                       Status := "outdated", RequiredBy := "" },
                     { Name := "flask", Version := "2.0.0", Latest := "",
                       Status := "outdated", RequiredBy := "" }],
    Security := some (scanSecurity [bareRequests]),
    Performance := none }

/-- The dependency `tensorflow`, up to date. -/
def tensorflowDep : Dependency :=
  { Name := "tensorflow", Version := "2.13.0", Latest := "", Status := "uptodate",
    RequiredBy := "" }

/-- The cleanup optimization of `scanner.AnalyzePerformance`. -/
def cleanupOptimization : Optimization :=
  { Type_ := "cleanup", Description := "Remove unused packages to reduce environment size",
    Impact := "medium" }

/-- The update optimization of `scanner.AnalyzePerformance` for `n` outdated packages. -/
def updateOptimization (n : Nat) : Optimization :=
  { Type_ := "update",
    Description := "Update " ++ toString n ++ " outdated packages for performance improvements",
    Impact := "high" }

/-- The size optimization of the validator's `analyzePerformance`. -/
def sizeOptimization : Optimization :=
  { Type_ := "size", Description := "Large packages may slow down environment",
    Impact := "medium" }

/-- The quantity optimization of the validator's `analyzePerformance` for `n`
dependencies. -/
def quantityOptimization (n : Nat) : Optimization :=
  { Type_ := "quantity",
    Description := "Many packages (" ++ toString n ++ "), consider streamlining",
    Impact := "low" }

/-- The number of dependencies with status outdated. -/
def outdatedNumber (deps : List Dependency) : Nat :=
  (deps.filter (fun dep => dep.Status = "outdated")).length

/-- `n` copies of a dependency named `pkg`, all outdated when `outdated` is set. -/
def manyDeps (n : Nat) (outdated : Bool) : List Dependency :=
  List.replicate n
    { Name := "pkg", Version := "1.0", Latest := "",
      Status := if outdated then "outdated" else "uptodate", RequiredBy := "" }

/-- The result `r` without its performance record. -/
def withoutPerformance (r : ValidationResult) : ValidationResult :=
  { r with Performance := none }

/-! ## Notions used to state the claims on the text report, the conversion and the whole run -/

/-- The texts of the list one after the other. -/
def concatTexts : List String → String
  | [] => ""
  | t :: ts => t ++ concatTexts ts

/-- The line of a dependency without the hint at the latest version: the icon of its
status, its name and, when it is not empty, its installed version. -/
def specLineBase (dep : Dependency) : String :=
  "  " ++ getStatusIcon dep.Status ++ " " ++ dep.Name ++
    (if dep.Version = "" then "" else " " ++ dep.Version)

/-- The line of a dependency in the words of the specification: its base, followed by
the hint at the latest version when that is known and differs from the installed one. -/
def specLine (dep : Dependency) : String :=
  specLineBase dep ++
    (if dep.Latest ≠ "" ∧ dep.Latest ≠ dep.Version then " → latest: " ++ dep.Latest else "")

/-- The icon of the dependencies section in the words of the specification: the error
icon if some dependency is vulnerable, else the warning icon if some dependency is
outdated, else the success icon. -/
def specSectionIcon (deps : List Dependency) : String :=
  if deps.any (fun dep => dep.Status = "vulnerable") then "❌"
  else if deps.any (fun dep => dep.Status = "outdated") then "⚠️"
  else "✅"

/-- The header of the dependencies section for the icon `icon` and `n` dependencies. -/
def specHeader (icon : String) (n : Nat) : String :=
  "[" ++ icon ++ " PACKAGES] Dependencies (" ++ toString n ++ ")\n"

/-- An outdated dependency behind an up-to-date one and before a vulnerable one. -/
def mixedDeps : List Dependency :=
  [bareFlask, pinnedRequests,
   { Name := "urllib3", Version := "", Latest := "", Status := "vulnerable", RequiredBy := "" },
   { Name := "numpy", Version := "1.24.3", Latest := "1.24.3", Status := "uptodate",
      RequiredBy := "" }]

/-- The dependency of a package entry in the words of the specification: outdated with
latest version 2.31.0 when the entry is `requests` with a version that is, as a text,
smaller than `2.31.0`; up to date without a latest version otherwise. -/
def specDependency (entry : String × String) : Dependency :=
  if entry.1 = "requests" ∧ entry.2 < "2.31.0" then
    { Name := entry.1, Version := entry.2, Latest := "2.31.0", Status := "outdated",
      RequiredBy := "" }
  else
    { Name := entry.1, Version := entry.2, Latest := "", Status := "uptodate",
      RequiredBy := "" }

/-- The keys of a map, in the order of its pairs. -/
def mapKeys (m : StrMap) : List String := m.map Prod.fst

/-- A machine on which the environment `venv` is valid but not activated and
holds an old `requests` and `tensorflow`. -/
def worstSystem : System :=
  { idleSystem with pipList := fun _ => .ok "requests==2.28.2\ntensorflow==2.13.0" }

/-- A memory in which an earlier activity left a scan with counts and a record,
another table and a loop variable. -/
def staleMemory : ScanMemory :=
  { deps := [bareRequests, pinnedRequests, bareFlask, pinnedUrllib3],
    scan := { Critical := 3, High := 1, Medium := 7, Low := 2,
              Vulnerabilities := [scannerRecord bareFlask], Status := "error" },
    vulnerablePackages := [("flask", "2.3.3")],
    dep := bareFlask }

/-! # Theorems -/

/-! ## Machine integers -/

theorem i64_of_range (x : Int) (h1 : -(2 ^ 63) ≤ x) (h2 : x < 2 ^ 63) : i64 x = x := by
  unfold i64
  omega

/-! ## The scorer -/

theorem clampScore_range (s : Int) : 0 ≤ clampScore s ∧ clampScore s ≤ 100 := by
  simp only [clampScore]
  split_ifs <;> omega

theorem clampScore_eq (s : Int) : clampScore s = max 0 (min 100 s) := by
  simp only [clampScore]
  split_ifs <;> omega

/-- C1: for every ValidationResult, the Score stored by calculateScore is at
least 0 and at most 100. -/
theorem calculateScore_score_range (r : ValidationResult) :
    0 ≤ (calculateScore r).Score ∧ (calculateScore r).Score ≤ 100 := by
  simpa [calculateScore] using clampScore_range (rawScore r)

/-- C2: for every ValidationResult, after calculateScore the OverallStatus is
"success" exactly when Score >= 80, "warning" exactly when 50 <= Score < 80,
and "error" exactly when Score < 50. -/
theorem calculateScore_status_iff (r : ValidationResult) :
    ((calculateScore r).OverallStatus = "success" ↔ (calculateScore r).Score ≥ 80) ∧
    ((calculateScore r).OverallStatus = "warning" ↔
      (50 ≤ (calculateScore r).Score ∧ (calculateScore r).Score < 80)) ∧
    ((calculateScore r).OverallStatus = "error" ↔ (calculateScore r).Score < 50) := by
  simp only [calculateScore, overallStatus]
  generalize clampScore (rawScore r) = s
  split_ifs with h80 h50
  · refine ⟨⟨fun _ => h80, fun _ => rfl⟩, ⟨fun h => absurd h (by decide), fun h => ?_⟩,
      ⟨fun h => absurd h (by decide), fun h => ?_⟩⟩ <;> omega
  · refine ⟨⟨fun h => absurd h (by decide), fun h => absurd h h80⟩,
      ⟨fun _ => ⟨h50, by omega⟩, fun _ => rfl⟩,
      ⟨fun h => absurd h (by decide), fun h => ?_⟩⟩
    omega
  · refine ⟨⟨fun h => absurd h (by decide), fun h => absurd h h80⟩,
      ⟨fun h => absurd h (by decide), fun h => absurd h.1 h50⟩,
      ⟨fun _ => by omega, fun _ => rfl⟩⟩

theorem specVenvDeduction_range (v : Option VenvInfo) :
    0 ≤ specVenvDeduction v ∧ specVenvDeduction v ≤ 35 := by
  cases v with
  | none => simp [specVenvDeduction]
  | some v =>
    simp only [specVenvDeduction]
    split_ifs <;> omega

theorem scoreVenv_eq (s : Int) (v : Option VenvInfo)
    (h1 : -(2 ^ 63) + 35 ≤ s) (h2 : s < 2 ^ 63) :
    scoreVenv s v = s - specVenvDeduction v := by
  cases v with
  | none => simp [scoreVenv, specVenvDeduction]
  | some v =>
    simp only [scoreVenv, specVenvDeduction, i64]
    split_ifs <;> omega

theorem countOutdated_loop (deps : List Dependency) (acc : Int)
    (h0 : 0 ≤ acc) (h : acc + (deps.length : Int) < 2 ^ 63) :
    deps.foldl (fun outdatedCount dep =>
      if dep.Status = "outdated" then i64 (outdatedCount + 1) else outdatedCount) acc
      = acc + ((deps.filter (fun dep => dep.Status = "outdated")).length : Int) := by
  induction deps generalizing acc with
  | nil => simp
  | cons d ds ih =>
    simp only [List.foldl_cons, List.length_cons, Nat.cast_add, Nat.cast_one] at h ⊢
    by_cases hd : d.Status = "outdated"
    · rw [if_pos hd, i64_of_range _ (by omega) (by omega), ih _ (by omega) (by omega)]
      simp [List.filter_cons, hd]
      omega
    · rw [if_neg hd, ih _ h0 (by omega)]
      simp [List.filter_cons, hd]

theorem countOutdated_eq (deps : List Dependency) (h : (deps.length : Int) < 2 ^ 63) :
    countOutdated deps
      = ((deps.filter (fun dep => dep.Status = "outdated")).length : Int) := by
  unfold countOutdated
  rw [countOutdated_loop deps 0 (le_refl 0) (by omega)]
  omega

theorem filter_length_le_int (deps : List Dependency) (p : Dependency → Bool) :
    ((deps.filter p).length : Int) ≤ (deps.length : Int) := by
  exact_mod_cast List.length_filter_le p deps

theorem scoreOutdated_eq (s : Int) (deps : List Dependency)
    (h1 : -(2 ^ 63) ≤ s - 3 * (deps.length : Int)) (h2 : s < 2 ^ 63)
    (h3 : 3 * (deps.length : Int) < 2 ^ 63) :
    scoreOutdated s deps
      = s - 3 * ((deps.filter (fun dep => dep.Status = "outdated")).length : Int) := by
  have hle := filter_length_le_int deps (fun dep => dep.Status = "outdated")
  have hnn : (0 : Int) ≤ ((deps.filter (fun dep => dep.Status = "outdated")).length : Int) :=
    Int.natCast_nonneg _
  unfold scoreOutdated
  rw [countOutdated_eq deps (by omega)]
  rw [i64_of_range (_ * 3) (by omega) (by omega), i64_of_range _ (by omega) (by omega)]
  omega

theorem scoreSecurity_eq (s : Int) (sec : Option SecurityScan)
    (h1 : -(2 ^ 63) ≤ s - securityMagnitude sec)
    (h2 : s + securityMagnitude sec < 2 ^ 63) :
    scoreSecurity s sec = s - specSecurityDeduction sec := by
  cases sec with
  | none => simp [scoreSecurity, specSecurityDeduction]
  | some x =>
    simp only [securityMagnitude] at h1 h2
    have c1 := abs_nonneg x.Critical
    have c2 := le_abs_self x.Critical
    have c3 := neg_abs_le x.Critical
    have g1 := abs_nonneg x.High
    have g2 := le_abs_self x.High
    have g3 := neg_abs_le x.High
    have m1 := abs_nonneg x.Medium
    have m2 := le_abs_self x.Medium
    have m3 := neg_abs_le x.Medium
    have l1 := abs_nonneg x.Low
    have l2 := le_abs_self x.Low
    have l3 := neg_abs_le x.Low
    generalize |x.Critical| = aC at *
    generalize |x.High| = aH at *
    generalize |x.Medium| = aM at *
    generalize |x.Low| = aL at *
    simp only [scoreSecurity, specSecurityDeduction]
    rw [i64_of_range (x.Critical * 25) (by omega) (by omega)]
    rw [i64_of_range (s - x.Critical * 25) (by omega) (by omega)]
    rw [i64_of_range (x.High * 15) (by omega) (by omega)]
    rw [i64_of_range (s - x.Critical * 25 - x.High * 15) (by omega) (by omega)]
    rw [i64_of_range (x.Medium * 5) (by omega) (by omega)]
    rw [i64_of_range (s - x.Critical * 25 - x.High * 15 - x.Medium * 5) (by omega) (by omega)]
    rw [i64_of_range (x.Low * 2) (by omega) (by omega)]
    rw [i64_of_range _ (by omega) (by omega)]
    omega

theorem specPerformanceDeduction_range (p : Option Performance) :
    0 ≤ specPerformanceDeduction p ∧ specPerformanceDeduction p ≤ 10 := by
  cases p with
  | none => simp [specPerformanceDeduction]
  | some p =>
    simp only [specPerformanceDeduction]
    split_ifs <;> omega

theorem scorePerformance_eq (s : Int) (p : Option Performance)
    (h1 : -(2 ^ 63) + 10 ≤ s) (h2 : s < 2 ^ 63) :
    scorePerformance s p = s - specPerformanceDeduction p := by
  cases p with
  | none => simp [scorePerformance, specPerformanceDeduction]
  | some p =>
    simp only [scorePerformance, specPerformanceDeduction]
    split_ifs
    · rw [i64_of_range _ (by omega) (by omega)]
    · omega

theorem specIssueDeduction_range (i : Issue) :
    0 ≤ specIssueDeduction i ∧ specIssueDeduction i ≤ 20 := by
  simp only [specIssueDeduction]
  split_ifs <;> omega

theorem scoreIssue_eq (s : Int) (i : Issue) (h1 : -(2 ^ 63) + 20 ≤ s) (h2 : s < 2 ^ 63) :
    scoreIssue s i = s - specIssueDeduction i := by
  simp only [scoreIssue, specIssueDeduction]
  split_ifs <;> first
    | rw [i64_of_range _ (by omega) (by omega)]
    | omega

theorem specIssues_sum_range (issues : List Issue) :
    0 ≤ (issues.map specIssueDeduction).sum ∧
      (issues.map specIssueDeduction).sum ≤ 20 * (issues.length : Int) := by
  induction issues with
  | nil => simp
  | cons i is ih =>
    have hi := specIssueDeduction_range i
    simp only [List.map_cons, List.sum_cons, List.length_cons, Nat.cast_add, Nat.cast_one]
    omega

theorem scoreIssues_eq (issues : List Issue) (s : Int)
    (h1 : -(2 ^ 63) ≤ s - 20 * (issues.length : Int)) (h2 : s < 2 ^ 63) :
    scoreIssues s issues = s - (issues.map specIssueDeduction).sum := by
  unfold scoreIssues
  induction issues generalizing s with
  | nil => simp
  | cons i is ih =>
    have hi := specIssueDeduction_range i
    simp only [List.length_cons, Nat.cast_add, Nat.cast_one] at h1
    simp only [List.foldl_cons, List.map_cons, List.sum_cons]
    rw [scoreIssue_eq s i (by omega) h2, ih _ (by omega) (by omega)]
    omega

theorem securityMagnitude_nonneg (sec : Option SecurityScan) : 0 ≤ securityMagnitude sec := by
  cases sec with
  | none => simp [securityMagnitude]
  | some x =>
    have c1 := abs_nonneg x.Critical
    have g1 := abs_nonneg x.High
    have m1 := abs_nonneg x.Medium
    have l1 := abs_nonneg x.Low
    simp only [securityMagnitude]
    omega

theorem specSecurityDeduction_abs (sec : Option SecurityScan) :
    -securityMagnitude sec ≤ specSecurityDeduction sec ∧
      specSecurityDeduction sec ≤ securityMagnitude sec := by
  cases sec with
  | none => simp [securityMagnitude, specSecurityDeduction]
  | some x =>
    have c2 := le_abs_self x.Critical
    have c3 := neg_abs_le x.Critical
    have g2 := le_abs_self x.High
    have g3 := neg_abs_le x.High
    have m2 := le_abs_self x.Medium
    have m3 := neg_abs_le x.Medium
    have l2 := le_abs_self x.Low
    have l3 := neg_abs_le x.Low
    simp only [securityMagnitude, specSecurityDeduction]
    omega

theorem rawScore_eq (r : ValidationResult) (h : scoreMagnitude r < 2 ^ 63) :
    rawScore r = 100 - specDeduction r := by
  have hv := specVenvDeduction_range r.VenvInfo
  have hp := specPerformanceDeduction_range r.Performance
  have hi := specIssues_sum_range r.Issues
  have hs := specSecurityDeduction_abs r.Security
  have hsn := securityMagnitude_nonneg r.Security
  have hf := filter_length_le_int r.Dependencies (fun dep => dep.Status = "outdated")
  have hfn : (0 : Int) ≤
      ((r.Dependencies.filter (fun dep => dep.Status = "outdated")).length : Int) :=
    Int.natCast_nonneg _
  have hdn : (0 : Int) ≤ (r.Dependencies.length : Int) := Int.natCast_nonneg _
  have hin : (0 : Int) ≤ (r.Issues.length : Int) := Int.natCast_nonneg _
  simp only [specDeduction, rawScore]
  unfold scoreMagnitude at h
  rw [scoreVenv_eq 100 _ (by norm_num) (by norm_num)]
  rw [scoreOutdated_eq _ _ (by omega) (by omega) (by omega)]
  rw [scoreSecurity_eq _ _ (by omega) (by omega)]
  rw [scorePerformance_eq _ _ (by omega) (by omega)]
  rw [scoreIssues_eq _ _ (by omega) (by omega)]
  omega

/-- C3, as stated, fails where a product overflows: with 2213609288845146194
critical vulnerabilities counted, 25 times the count wraps to 2 and the stored
Score is 98, while 100 minus the deductions, clamped, is 0. -/
theorem calculateScore_overflow :
    (calculateScore overflowResult).Score = 98 ∧ specScore overflowResult = 0 ∧
      (calculateScore overflowResult).Score ≠ specScore overflowResult := by
  have h1 : (calculateScore overflowResult).Score = 98 := by
    simp only [calculateScore, rawScore, overflowResult, scoreVenv, scoreOutdated,
      countOutdated, scoreSecurity, scorePerformance, scoreIssues, clampScore, i64,
      List.foldl_nil]
    norm_num
  have h2 : specScore overflowResult = 0 := by rfl
  exact ⟨h1, h2, by rw [h1, h2]; decide⟩

/-- C3 (amended): when no intermediate value leaves the range of a 64-bit int
(the start value, the fixed deductions and every counted deduction in absolute
value together stay below 2^63), the Score stored by calculateScore equals 100
minus the sum of the deductions of the scoring rule, clamped to 0..100. -/
theorem calculateScore_score_eq (r : ValidationResult) (h : scoreMagnitude r < 2 ^ 63) :
    (calculateScore r).Score = specScore r := by
  simp only [calculateScore, specScore, clampScore_eq]
  rw [rawScore_eq r h]

set_option maxRecDepth 100000 in
/-- C3 (amended), applied to a result with one component of every kind: the
deductions are 15 + 5 + 3 + 5 + 10 + 10 and the Score is 52. -/
theorem calculateScore_score_eq_witness :
    scoreMagnitude sampleResult < 2 ^ 63 ∧
      (calculateScore sampleResult).Score = specScore sampleResult ∧
      specScore sampleResult = 52 :=
  ⟨by decide, calculateScore_score_eq sampleResult (by decide), by decide⟩

/-! ## Occurrences of a text in a text -/

example : firstAtChars "pkg==1.2.3".data "pkg".data "==".data "1.2.3".data := by decide

theorem hasPrefixChars_iff (s p : List Char) : hasPrefixChars s p = true ↔ p <+: s := by
  unfold hasPrefixChars
  simp only [Bool.and_eq_true, decide_eq_true_eq]
  constructor
  · rintro ⟨_, h⟩
    rw [← h]
    exact List.take_prefix _ _
  · intro h
    exact ⟨h.length_le, (List.prefix_iff_eq_take.mp h).symm⟩

theorem indexChars_nil (sep : List Char) :
    indexChars [] sep = if hasPrefixChars [] sep then some 0 else none := by
  rw [indexChars]

theorem indexChars_cons (c : Char) (cs sep : List Char) :
    indexChars (c :: cs) sep =
      if hasPrefixChars (c :: cs) sep then some 0 else (indexChars cs sep).map (· + 1) := by
  rw [indexChars]

theorem indexChars_of_first (pre sep post : List Char)
    (h : ∀ j, j < pre.length → ¬ sep <+: (pre ++ sep ++ post).drop j) :
    indexChars (pre ++ sep ++ post) sep = some pre.length := by
  induction pre with
  | nil =>
    have hp : hasPrefixChars ([] ++ sep ++ post) sep = true := by
      rw [hasPrefixChars_iff]; simp
    cases hl : ([] ++ sep ++ post) with
    | nil => rw [hl] at hp; rw [indexChars_nil, if_pos hp]; rfl
    | cons c cs => rw [hl] at hp; rw [indexChars_cons, if_pos hp]; rfl
  | cons c pre ih =>
    have h0 : ¬ hasPrefixChars (c :: pre ++ sep ++ post) sep = true := by
      rw [hasPrefixChars_iff]
      exact h 0 (by simp)
    have hrec : ∀ j, j < pre.length → ¬ sep <+: (pre ++ sep ++ post).drop j := by
      intro j hj
      have := h (j + 1) (by simpa using hj)
      simpa using this
    simp only [List.cons_append] at h0 ⊢
    rw [indexChars_cons, if_neg h0, ih hrec]
    rfl

theorem indexChars_spec (s sep : List Char) (m : Nat) (h : indexChars s sep = some m) :
    firstAtChars s (s.take m) sep (s.drop (m + sep.length)) := by
  induction s generalizing m with
  | nil =>
    rw [indexChars_nil] at h
    split_ifs at h with hp
    rw [hasPrefixChars_iff] at hp
    have : sep = [] := List.prefix_nil.mp hp
    subst this
    injection h with h
    subst h
    exact ⟨by simp, by simp⟩
  | cons c cs ih =>
    rw [indexChars_cons] at h
    split_ifs at h with hp
    · injection h with h
      subst h
      rw [hasPrefixChars_iff] at hp
      refine ⟨?_, by simp⟩
      obtain ⟨t, ht⟩ := hp
      have : List.drop (0 + sep.length) (c :: cs) = t := by
        rw [← ht]; simp
      rw [this]
      simpa using ht.symm
    · cases hi : indexChars cs sep with
      | none => rw [hi] at h; simp at h
      | some k =>
        rw [hi] at h
        simp only [Option.map_some', Option.some.injEq] at h
        subst h
        obtain ⟨h1, h2⟩ := ih k hi
        refine ⟨?_, ?_⟩
        · have : k + 1 + sep.length = (k + sep.length) + 1 := by omega
          rw [this]
          simp only [List.take_succ_cons, List.drop_succ_cons, List.cons_append]
          rw [← h1]
        · intro j hj
          cases j with
          | zero =>
            rw [hasPrefixChars_iff] at hp
            simpa using hp
          | succ j =>
            simp only [List.drop_succ_cons]
            apply h2
            simp only [List.length_take, List.length_cons] at hj ⊢
            omega

theorem indexChars_none (s sep : List Char) (h : indexChars s sep = none) : ¬ sep <:+: s := by
  induction s with
  | nil =>
    rw [indexChars_nil] at h
    split_ifs at h with hp
    rw [hasPrefixChars_iff] at hp
    intro hin
    exact hp (List.infix_nil.mp hin ▸ List.prefix_refl _)
  | cons c cs ih =>
    rw [indexChars_cons] at h
    split_ifs at h with hp
    rw [hasPrefixChars_iff] at hp
    have hcs : indexChars cs sep = none := by
      cases hi : indexChars cs sep with
      | none => rfl
      | some k => rw [hi] at h; simp at h
    intro hin
    rcases List.infix_cons_iff.mp hin with h1 | h2
    · exact hp h1
    · exact ih hcs h2

theorem indexChars_isSome_iff (s sep : List Char) : (indexChars s sep).isSome = true ↔ sep <:+: s := by
  constructor
  · intro h
    obtain ⟨m, hm⟩ := Option.isSome_iff_exists.mp h
    obtain ⟨h1, -⟩ := indexChars_spec s sep m hm
    exact ⟨s.take m, s.drop (m + sep.length), h1.symm⟩
  · intro h
    by_contra hc
    have : indexChars s sep = none := by
      cases hi : indexChars s sep with
      | none => rfl
      | some k => rw [hi] at hc; simp at hc
    exact indexChars_none s sep this h

theorem splitNChars_two (l pre sep post : List Char) (h : firstAtChars l pre sep post) :
    splitNChars l sep 2 = [pre, post] := by
  obtain ⟨h1, h2⟩ := h
  subst h1
  have hi := indexChars_of_first pre sep post h2
  simp only [splitNChars, splitLoop, hi]
  simp

/-! ## Trimming -/

theorem trimChars_eq (s : List Char) :
    trimChars s = (s.dropWhile isSpace).rdropWhile isSpace := rfl

theorem dropWhile_append_stop (p : Char → Bool) (xs ys : List Char) (y : Char)
    (hy : ys.head? = some y) (hp : p y = false) :
    (xs ++ ys).dropWhile p = xs.dropWhile p ++ ys := by
  induction xs with
  | nil =>
    cases ys with
    | nil => simp at hy
    | cons a as =>
      simp only [List.head?_cons, Option.some.injEq] at hy
      subst hy
      simp [List.dropWhile_cons, hp]
  | cons x xs ih =>
    by_cases hx : p x = true
    · simp [List.dropWhile_cons, hx, ih]
    · simp [List.dropWhile_cons, hx]

theorem rdropWhile_append_stop (p : Char → Bool) (xs ys : List Char) (y : Char)
    (hy : xs.getLast? = some y) (hp : p y = false) :
    (xs ++ ys).rdropWhile p = xs ++ ys.rdropWhile p := by
  unfold List.rdropWhile
  rw [List.reverse_append, dropWhile_append_stop p ys.reverse xs.reverse y (by simpa using hy) hp]
  simp

theorem rdropWhile_append_space (xs ws : List Char) (h : ∀ c ∈ ws, isSpace c = true) :
    (xs ++ ws).rdropWhile isSpace = xs.rdropWhile isSpace := by
  unfold List.rdropWhile
  rw [List.reverse_append, List.dropWhile_append_of_pos]
  intro a ha
  exact h a (List.mem_reverse.mp ha)

theorem trimChars_space_left (ws x : List Char) (h : ∀ c ∈ ws, isSpace c = true) :
    trimChars (ws ++ x) = trimChars x := by
  rw [trimChars_eq, trimChars_eq, List.dropWhile_append_of_pos h]

theorem trimChars_eq_nil_iff (l : List Char) : trimChars l = [] ↔ ∀ c ∈ l, isSpace c = true := by
  rw [trimChars_eq, List.rdropWhile_eq_nil_iff]
  constructor
  · intro h
    have : l.dropWhile isSpace = [] := by
      by_contra hne
      obtain ⟨y, ys, hys⟩ := List.exists_cons_of_ne_nil hne
      have h0 : isSpace y = true := h y (by rw [hys]; simp)
      have := List.head_dropWhile_not isSpace l hne
      simp only [hys, List.head_cons] at this
      rw [h0] at this
      simp at this
    exact List.dropWhile_eq_nil_iff.mp this
  · intro h c hc
    exact h c ((List.dropWhile_sublist isSpace).subset hc)

theorem trimChars_space_right (x ws : List Char) (h : ∀ c ∈ ws, isSpace c = true) :
    trimChars (x ++ ws) = trimChars x := by
  by_cases hx : ∀ c ∈ x, isSpace c = true
  · rw [(trimChars_eq_nil_iff x).mpr hx, trimChars_eq_nil_iff]
    intro c hc
    rcases List.mem_append.mp hc with h1 | h1
    · exact hx c h1
    · exact h c h1
  · have hne : x.dropWhile isSpace ≠ [] := by
      intro hnil
      exact hx (List.dropWhile_eq_nil_iff.mp hnil)
    rw [trimChars_eq, trimChars_eq, List.dropWhile_append]
    simp only [List.isEmpty_eq_true, hne, if_false]
    exact rdropWhile_append_space _ _ h

theorem takeWhile_all (l : List Char) : ∀ c ∈ l.takeWhile isSpace, isSpace c = true := by
  intro c hc
  exact List.mem_takeWhile_imp hc

theorem rdropWhile_decomp (l : List Char) :
    ∃ t, (∀ c ∈ t, isSpace c = true) ∧ l = l.rdropWhile isSpace ++ t := by
  induction l using List.reverseRecOn with
  | nil => exact ⟨[], by simp, by simp⟩
  | append_singleton xs x ih =>
    by_cases hx : isSpace x = true
    · obtain ⟨t, ht, he⟩ := ih
      refine ⟨t ++ [x], ?_, ?_⟩
      · intro c hc
        rcases List.mem_append.mp hc with h1 | h1
        · exact ht c h1
        · simp only [List.mem_singleton] at h1
          rw [h1]; exact hx
      · rw [List.rdropWhile_concat_pos _ _ _ hx, ← List.append_assoc, ← he]
    · refine ⟨[], by simp, ?_⟩
      rw [List.rdropWhile_concat_neg _ _ _ hx]
      simp

theorem trimChars_dropWhile (l : List Char) : trimChars (l.dropWhile isSpace) = trimChars l := by
  rw [trimChars_eq, trimChars_eq, List.dropWhile_idempotent]

theorem trimChars_rdropWhile (l : List Char) : trimChars (l.rdropWhile isSpace) = trimChars l := by
  obtain ⟨t, ht, he⟩ := rdropWhile_decomp l
  conv_rhs => rw [he]
  rw [trimChars_space_right _ _ ht]

theorem trimChars_decomp (l : List Char) :
    ∃ a b, (∀ c ∈ a, isSpace c = true) ∧ (∀ c ∈ b, isSpace c = true) ∧
      l = a ++ trimChars l ++ b := by
  obtain ⟨t, ht, he⟩ := rdropWhile_decomp (l.dropWhile isSpace)
  refine ⟨l.takeWhile isSpace, t, takeWhile_all l, ht, ?_⟩
  rw [trimChars_eq, List.append_assoc, ← he, List.takeWhile_append_dropWhile]

theorem trimChars_idem (l : List Char) : trimChars (trimChars l) = trimChars l := by
  rw [trimChars_eq l, trimChars_rdropWhile, trimChars_dropWhile, trimChars_eq]

theorem trimChars_head (l : List Char) :
    (trimChars l).head? = (l.dropWhile isSpace).head? := by
  rw [trimChars_eq]
  cases hd : l.dropWhile isSpace with
  | nil => simp
  | cons y ys =>
    have hne : l.dropWhile isSpace ≠ [] := by rw [hd]; simp
    have hy := List.head_dropWhile_not isSpace l hne
    simp only [hd, List.head_cons] at hy
    have hy' : isSpace y = false := by simpa using hy
    have := rdropWhile_append_stop isSpace [y] ys y (by simp) hy'
    simp only [List.singleton_append] at this
    rw [this]
    simp

theorem trimChars_split (pre sep post : List Char) (hs : solidSep sep) :
    trimChars (pre ++ sep ++ post)
      = pre.dropWhile isSpace ++ sep ++ post.rdropWhile isSpace := by
  obtain ⟨hne, hall⟩ := hs
  obtain ⟨a, as, has⟩ := List.exists_cons_of_ne_nil hne
  have ha : isSpace a = false := hall a (by rw [has]; simp)
  have hlast : ∃ b, sep.getLast? = some b ∧ isSpace b = false := by
    refine ⟨sep.getLast hne, List.getLast?_eq_getLast _ hne, hall _ (List.getLast_mem hne)⟩
  obtain ⟨b, hb, hbs⟩ := hlast
  rw [trimChars_eq, List.append_assoc,
    dropWhile_append_stop isSpace pre (sep ++ post) a (by rw [has]; simp) ha,
    ← List.append_assoc,
    rdropWhile_append_stop isSpace (pre.dropWhile isSpace ++ sep) post b ?_ hbs]
  rw [List.getLast?_append, hb]
  simp

theorem firstAtChars_trim (l pre sep post : List Char) (hs : solidSep sep)
    (h : firstAtChars l pre sep post) :
    firstAtChars (trimChars l) (pre.dropWhile isSpace) sep (post.rdropWhile isSpace) := by
  obtain ⟨h1, h2⟩ := h
  subst h1
  refine ⟨trimChars_split pre sep post hs, ?_⟩
  intro j hj hpre
  rw [trimChars_split pre sep post hs] at hpre
  -- the occurrence at `j` in the trimmed line is an occurrence in the line itself
  have hdec : pre = pre.takeWhile isSpace ++ pre.dropWhile isSpace :=
    (List.takeWhile_append_dropWhile isSpace pre).symm
  set ws := pre.takeWhile isSpace with hws
  set p' := pre.dropWhile isSpace with hp'
  have hlen : pre.length = ws.length + p'.length := by
    conv_lhs => rw [hdec]
    simp
  apply h2 (ws.length + j) (by omega)
  have hdrop : (pre ++ sep ++ post).drop (ws.length + j) = p'.drop j ++ sep ++ post := by
    conv_lhs => rw [hdec]
    rw [List.append_assoc, List.append_assoc, ← List.drop_drop, List.drop_left,
      List.drop_append_of_le_length (by omega)]
    simp
  rw [hdrop]
  have hdrop' : (p' ++ sep ++ post.rdropWhile isSpace).drop j
      = p'.drop j ++ sep ++ post.rdropWhile isSpace := by
    rw [List.append_assoc, List.drop_append_of_le_length (by omega)]
    simp
  rw [hdrop'] at hpre
  have hlen2 : sep.length ≤ (p'.drop j ++ sep).length := by simp
  have h3 : sep <+: p'.drop j ++ sep :=
    List.prefix_of_prefix_length_le hpre (List.prefix_append _ _) hlen2
  exact h3.trans (List.prefix_append _ _)

/-! ## Cutting a line at a separator -/

theorem mapGet_mapSet (m : StrMap) (k v k' : String) :
    mapGet (mapSet m k v) k' = if k = k' then some v else mapGet m k' := by
  induction m with
  | nil => simp [mapSet, mapGet]
  | cons e rest ih =>
    obtain ⟨a, b⟩ := e
    by_cases hak : a = k
    · subst hak
      by_cases hk : a = k' <;> simp [mapSet, mapGet, hk]
    · by_cases hk : k = k'
      · subst hk
        simp [mapSet, mapGet, hak, ih]
      · by_cases hak' : a = k'
        · subst hak'
          simp [mapSet, mapGet, hak, hk]
        · simp [mapSet, mapGet, hak, hak', hk, ih]

theorem string_eq_iff (s t : String) : s = t ↔ s.data = t.data :=
  ⟨fun h => by rw [h], fun h => String.ext h⟩

theorem solidSep_eqeq : solidSep "==".data := by
  refine ⟨by decide, ?_⟩
  intro c hc
  have : c = '=' := by
    simp only [String.data] at hc
    rcases List.mem_cons.mp hc with h | h
    · exact h
    · rcases List.mem_cons.mp h with h | h
      · exact h
      · simp at h
  subst this
  decide

/-- What the three string operations of a parsing step return on a line cut by the first
occurrence of a separator without white space. -/
theorem cut_line (line pre sep post : String) (hs : solidSep sep.data)
    (h : FirstAt line pre sep post) :
    TrimSpace line ≠ "" ∧ Contains (TrimSpace line) sep = true ∧
      ∃ p0 p1, SplitN (TrimSpace line) sep 2 = [p0, p1] ∧
        TrimSpace p0 = TrimSpace pre ∧ TrimSpace p1 = TrimSpace post := by
  have ht := firstAtChars_trim _ _ _ _ hs h
  have hdata : (TrimSpace line).data
      = pre.data.dropWhile isSpace ++ sep.data ++ post.data.rdropWhile isSpace := ht.1
  refine ⟨?_, ?_, ⟨pre.data.dropWhile isSpace⟩, ⟨post.data.rdropWhile isSpace⟩, ?_, ?_, ?_⟩
  · intro he
    have : (TrimSpace line).data = [] := by rw [he]
    rw [hdata] at this
    have hne := hs.1
    simp only [List.append_eq_nil] at this
    exact hne this.1.2
  · unfold Contains
    rw [indexChars_isSome_iff]
    exact ⟨_, _, hdata.symm⟩
  · unfold SplitN
    have ht' : firstAtChars (TrimSpace line).data (pre.data.dropWhile isSpace) sep.data
        (post.data.rdropWhile isSpace) := ht
    rw [splitNChars_two _ _ _ _ ht']
    rfl
  · simp only [TrimSpace, trimChars_dropWhile]
  · simp only [TrimSpace, trimChars_rdropWhile]

theorem contains_false_of_not_infix (line sep : String) (h : ¬ sep.data <:+: line.data) :
    Contains (TrimSpace line) sep = false := by
  by_contra hc
  have hc' : Contains (TrimSpace line) sep = true := by simpa using hc
  unfold Contains at hc'
  rw [indexChars_isSome_iff] at hc'
  apply h
  obtain ⟨a, b, -, -, he⟩ := trimChars_decomp line.data
  have hin : (TrimSpace line).data <:+: line.data := ⟨a, b, he.symm⟩
  exact hc'.trans hin

/-! ## The requirements parser, line by line -/

theorem hasPrefix_hash (t : String) : HasPrefix t "#" = startsWithHash t := by
  unfold HasPrefix startsWithHash
  rw [Bool.eq_iff_iff, hasPrefixChars_iff]
  simp only [decide_eq_true_eq]
  constructor
  · rintro ⟨r, hr⟩
    rw [← hr]
    rfl
  · intro h
    cases hd : t.data with
    | nil => rw [hd] at h; simp at h
    | cons c cs =>
      rw [hd] at h
      simp only [List.head?_cons, Option.some.injEq] at h
      subst h
      exact ⟨cs, rfl⟩

theorem firstAt_of_occurs (sep line : String) (h : Occurs sep line) :
    ∃ pre post, FirstAt line pre sep post := by
  have hs := (indexChars_isSome_iff line.data sep.data).mpr h
  obtain ⟨m, hm⟩ := Option.isSome_iff_exists.mp hs
  exact ⟨⟨line.data.take m⟩, ⟨line.data.drop (m + sep.data.length)⟩,
    indexChars_spec _ _ _ hm⟩

theorem requirementsLine_eqeq (result : StrMap) (line pre post : String)
    (h : FirstAt line pre "==" post) (hc : startsWithHash (TrimSpace line) = false) :
    requirementsLine result line
      = mapSet result (TrimSpace pre) ("==" ++ TrimSpace post) := by
  obtain ⟨hne, hcont, p0, p1, hsplit, hp0, hp1⟩ := cut_line line pre "==" post solidSep_eqeq h
  have hhash : HasPrefix (TrimSpace line) "#" = false := by rw [hasPrefix_hash, hc]
  simp only [requirementsLine, hne, hhash, hcont, hsplit, hp0, hp1]
  simp

theorem parseRequirements_at (content : String) (before after : List String) (line : String)
    (h : Split content "\n" = before ++ line :: after) :
    parseRequirements content
      = after.foldl requirementsLine
          (requirementsLine (before.foldl requirementsLine []) line) := by
  unfold parseRequirements
  rw [h, List.foldl_append, List.foldl_cons]

/-- C4: a manifest line that, trimmed, does not start with `#` and that is cut
by its first `==` into `pre` and `post` makes parseRequirementsFile record the
key `pre`, trimmed, with the constraint `==` followed by `post`, trimmed,
whatever else the line contains (a `>=` as well); the entry is in the mapping
on leaving the line, wherever the line stands in the manifest. -/
theorem requirementsLine_pinned (result : StrMap) (line pre post : String)
    (hcut : FirstAt line pre "==" post)
    (hhash : startsWithHash (TrimSpace line) = false) :
    TrimSpace line ≠ "" ∧
    requirementsLine result line
      = mapSet result (TrimSpace pre) ("==" ++ TrimSpace post) ∧
    mapGet (requirementsLine result line) (TrimSpace pre) = some ("==" ++ TrimSpace post) ∧
    ∀ (content : String) (before after : List String),
      Split content "\n" = before ++ line :: after →
      parseRequirements content
        = after.foldl requirementsLine
            (mapSet (before.foldl requirementsLine []) (TrimSpace pre)
              ("==" ++ TrimSpace post)) := by
  have hne := (cut_line line pre "==" post solidSep_eqeq hcut).1
  refine ⟨hne, requirementsLine_eqeq result line pre post hcut hhash, ?_, ?_⟩
  · rw [requirementsLine_eqeq result line pre post hcut hhash, mapGet_mapSet, if_pos rfl]
  · intro content before after h
    rw [parseRequirements_at content before after line h,
      requirementsLine_eqeq _ line pre post hcut hhash]

/-- C4 at the line `pkg==1.2.3`: the key is `pkg`, the constraint `==1.2.3`; and at the
line `pkg>=3==4`, which holds a `>=` as well: the key is `pkg>=3`, the constraint `==4`. -/
theorem requirementsLine_pinned_witness :
    (FirstAt "pkg==1.2.3" "pkg" "==" "1.2.3" ∧
      startsWithHash (TrimSpace "pkg==1.2.3") = false ∧
      mapGet (requirementsLine [] "pkg==1.2.3") "pkg" = some "==1.2.3" ∧
      parseRequirements "pkg==1.2.3" = [("pkg", "==1.2.3")]) ∧
    (FirstAt "pkg>=3==4" "pkg>=3" "==" "4" ∧
      mapGet (requirementsLine [] "pkg>=3==4") "pkg>=3" = some "==4") :=
  ⟨⟨by decide, by decide,
    (requirementsLine_pinned [] "pkg==1.2.3" "pkg" "1.2.3" (by decide) (by decide)).2.2.1,
    by decide⟩,
   ⟨by decide,
    (requirementsLine_pinned [] "pkg>=3==4" "pkg>=3" "4" (by decide) (by decide)).2.2.1⟩⟩

theorem trimSpace_eq_empty_iff (l : String) : TrimSpace l = "" ↔ isBlankLine l = true := by
  unfold TrimSpace isBlankLine
  rw [string_eq_iff]
  show trimChars l.data = [] ↔ _
  rw [trimChars_eq_nil_iff, List.all_eq_true]

theorem startsWithHash_trim (l : String) : startsWithHash (TrimSpace l) = isCommentLine l := by
  unfold startsWithHash isCommentLine TrimSpace
  simp only [trimChars_head]

theorem requirementsLine_skipped (m : StrMap) (l : String) (h : isSkippedLine l = true) :
    requirementsLine m l = m := by
  unfold isSkippedLine at h
  rw [Bool.or_eq_true] at h
  have hcond : TrimSpace l = "" ∨ HasPrefix (TrimSpace l) "#" = true := by
    rcases h with h | h
    · exact Or.inl ((trimSpace_eq_empty_iff l).mpr h)
    · exact Or.inr (by rw [hasPrefix_hash, startsWithHash_trim, h])
  simp only [requirementsLine, hcond, if_true]

theorem foldl_requirementsLine_filter (ls : List String) (m : StrMap) :
    (ls.filter (fun l => !isSkippedLine l)).foldl requirementsLine m
      = ls.foldl requirementsLine m := by
  induction ls generalizing m with
  | nil => rfl
  | cons l ls ih =>
    by_cases h : isSkippedLine l = true
    · simp only [List.filter_cons, h, Bool.not_true, List.foldl_cons,
        requirementsLine_skipped m l h]
      simpa using ih m
    · simp only [Bool.not_eq_true] at h
      simp only [List.filter_cons, h, Bool.not_false, List.foldl_cons, if_true]
      exact ih _

theorem not_mem_take_of_first (c : Char) (s pre post : List Char)
    (h : firstAtChars s pre [c] post) : c ∉ pre := by
  obtain ⟨h1, h2⟩ := h
  intro hc
  obtain ⟨j, hj, hget⟩ := List.getElem_of_mem hc
  apply h2 j hj
  subst h1
  rw [List.append_assoc, List.drop_append_of_le_length (by omega), List.drop_eq_getElem_cons hj,
    hget]
  exact ⟨_, rfl⟩

theorem not_mem_of_not_infix (c : Char) (s : List Char) (h : ¬ [c] <:+: s) : c ∉ s := by
  intro hc
  apply h
  obtain ⟨a, b, hab⟩ := List.append_of_mem hc
  exact ⟨a, b, by rw [hab]; simp⟩

theorem splitLoop_eq_splitOn (c : Char) (n : Nat) (s : List Char) (h : s.length ≤ n) :
    splitLoop [c] n s = s.splitOn c := by
  induction n generalizing s with
  | zero =>
    have : s = [] := List.length_eq_zero.mp (by omega)
    subst this
    simp [splitLoop, List.splitOn_nil]
  | succ n ih =>
    rw [splitLoop]
    cases hi : indexChars s [c] with
    | none =>
      have hc := not_mem_of_not_infix c s (indexChars_none s [c] hi)
      simp only
      rw [List.splitOn, List.splitOnP_eq_single]
      intro x hx hxc
      have : x = c := by simpa using hxc
      exact hc (this ▸ hx)
    | some m =>
      have hf := indexChars_spec s [c] m hi
      have hc := not_mem_take_of_first c s _ _ hf
      have hs : s = s.take m ++ c :: s.drop (m + 1) := by
        have := hf.1
        simpa using this
      have hlen : (s.drop (m + 1)).length ≤ n := by
        have h1 : s.length = (s.take m).length + 1 + (s.drop (m + 1)).length := by
          conv_lhs => rw [hs]
          simp
          omega
        omega
      simp only [List.length_singleton]
      rw [ih _ hlen]
      conv_rhs => rw [hs]
      simp only [List.splitOn]
      rw [List.splitOnP_first (fun x => x == c) (List.take m s) ?_ c (by simp)]
      intro x hx hxc
      have : x = c := by simpa using hxc
      exact hc (this ▸ hx)

theorem splitChars_eq_splitOn (s : List Char) : splitChars s ['\n'] = s.splitOn '\n' :=
  splitLoop_eq_splitOn '\n' s.length s (le_refl _)

theorem splitLoop_pieces (c : Char) (n : Nat) (s : List Char) (h : s.length ≤ n) :
    ∀ piece ∈ splitLoop [c] n s, c ∉ piece := by
  induction n generalizing s with
  | zero =>
    have : s = [] := List.length_eq_zero.mp (by omega)
    subst this
    simp [splitLoop]
  | succ n ih =>
    rw [splitLoop]
    cases hi : indexChars s [c] with
    | none =>
      have hc := not_mem_of_not_infix c s (indexChars_none s [c] hi)
      simpa using hc
    | some m =>
      have hf := indexChars_spec s [c] m hi
      have hc := not_mem_take_of_first c s _ _ hf
      have hlen : (s.drop (m + 1)).length ≤ n := by
        simp only [List.length_drop]
        omega
      intro piece hp
      simp only [List.length_singleton, List.mem_cons] at hp
      rcases hp with hp | hp
      · rw [hp]; exact hc
      · exact ih _ hlen piece hp

theorem split_joinLines (ls : List String) (hne : ls ≠ [])
    (h : ∀ l ∈ ls, '\n' ∉ l.data) : Split (joinLines ls) "\n" = ls := by
  unfold Split joinLines
  show List.map String.mk (splitChars (List.intercalate ['\n'] (ls.map String.data)) ['\n']) = ls
  rw [splitChars_eq_splitOn, List.splitOn_intercalate]
  · rw [List.map_map]
    conv_rhs => rw [← List.map_id ls]
    apply List.map_congr_left
    intro x _
    rfl
  · intro l hl
    obtain ⟨x, hx, rfl⟩ := List.mem_map.mp hl
    exact h x hx
  · simpa using hne

theorem split_pieces (text : String) : ∀ l ∈ Split text "\n", '\n' ∉ l.data := by
  intro l hl
  unfold Split at hl
  obtain ⟨x, hx, rfl⟩ := List.mem_map.mp hl
  exact splitLoop_pieces '\n' _ _ (le_refl _) x hx

/-- C6: blank lines and comment lines are never emitted as entries by
parseRequirementsFile: such a line leaves the mapping as it is; the mapping of
a manifest equals the mapping of the manifest with every whitespace-only line
and every line whose first non-whitespace character is `#` removed; and the
mapping of a manifest made only of such lines is empty. -/
theorem parseRequirements_skips (text : String) :
    (∀ (result : StrMap) (line : String),
      isSkippedLine line = true → requirementsLine result line = result) ∧
    parseRequirements (withoutSkipped text) = parseRequirements text ∧
    ((∀ line ∈ Split text "\n", isSkippedLine line = true) → parseRequirements text = []) := by
  have hfilter := foldl_requirementsLine_filter (Split text "\n") []
  refine ⟨requirementsLine_skipped, ?_, ?_⟩
  · unfold withoutSkipped
    by_cases hnil : (Split text "\n").filter (fun l => !isSkippedLine l) = []
    · rw [hnil] at hfilter ⊢
      unfold parseRequirements
      rw [← hfilter]
      rfl
    · unfold parseRequirements
      rw [split_joinLines _ hnil, hfilter]
      intro l hl
      exact split_pieces text l (List.mem_of_mem_filter hl)
  · intro hall
    unfold parseRequirements
    rw [← hfilter]
    have : (Split text "\n").filter (fun l => !isSkippedLine l) = [] := by
      rw [List.filter_eq_nil_iff]
      intro l hl
      simp [hall l hl]
    rw [this]
    rfl

/-- C6 on a manifest with a comment, an empty line, a whitespace-only line and an indented
comment around two entries. -/
theorem parseRequirements_skips_witness :
    withoutSkipped "# pinned\nflask==2.3.3\n\n \t\r\n  # tools\nnumpy" = "flask==2.3.3\nnumpy" ∧
    parseRequirements "# pinned\nflask==2.3.3\n\n \t\r\n  # tools\nnumpy"
      = [("flask", "==2.3.3"), ("numpy", "")] ∧
    parseRequirements (withoutSkipped "# pinned\nflask==2.3.3\n\n \t\r\n  # tools\nnumpy")
      = parseRequirements "# pinned\nflask==2.3.3\n\n \t\r\n  # tools\nnumpy" ∧
    parseRequirements "# only\n\n   \n\t# comments" = [] :=
  ⟨by decide, by decide,
   (parseRequirements_skips "# pinned\nflask==2.3.3\n\n \t\r\n  # tools\nnumpy").2.1,
   (parseRequirements_skips "# only\n\n   \n\t# comments").2.2 (by decide)⟩

/-! ## Lines of a text, read character by character -/

theorem foldl_modifyHead_splitOn (step : StrMap → List Char → StrMap) (s : List Char)
    (m : StrMap) (acc : List Char) :
    ((s.splitOn '\n').modifyHead (fun l => acc ++ l)).foldl step m = foldChars step m acc s := by
  induction s generalizing m acc with
  | nil => simp [List.splitOn_nil, foldChars]
  | cons c s ih =>
    simp only [List.splitOn] at ih ⊢
    rw [List.splitOnP_cons, foldChars]
    by_cases hc : c = '\n'
    · subst hc
      rw [if_pos (by simp), if_pos rfl]
      simp only [List.modifyHead_cons, List.append_nil, List.foldl_cons]
      rw [← ih (step m acc) []]
      congr 1
      cases List.splitOnP (fun x => x == '\n') s <;> simp
    · rw [if_neg (by simpa using hc), if_neg hc, List.modifyHead_modifyHead]
      rw [← ih m (acc ++ [c])]
      congr 2
      funext l
      simp

theorem foldl_splitOn (step : StrMap → List Char → StrMap) (s : List Char) (m : StrMap) :
    (s.splitOn '\n').foldl step m = foldChars step m [] s := by
  rw [← foldl_modifyHead_splitOn]
  congr 1
  cases s.splitOn '\n' <;> simp

theorem foldChars_acc (step : StrMap → List Char → StrMap) (hs : TrimStep step)
    (s : List Char) (m : StrMap) (a b : List Char)
    (h : ∀ y, trimChars (a ++ y) = trimChars (b ++ y)) :
    foldChars step m a s = foldChars step m b s := by
  induction s generalizing m a b with
  | nil =>
    simp only [foldChars]
    exact hs.1 m a b (by simpa using h [])
  | cons c s ih =>
    simp only [foldChars]
    have hab : step m a = step m b := hs.1 m a b (by simpa using h [])
    split_ifs
    · rw [hab]
    · apply ih
      intro y
      simpa using h (c :: y)

theorem foldChars_space_left (step : StrMap → List Char → StrMap) (hs : TrimStep step)
    (ws x : List Char) (hws : ∀ c ∈ ws, isSpace c = true) (m : StrMap) (acc : List Char)
    (hacc : ∀ c ∈ acc, isSpace c = true) :
    foldChars step m acc (ws ++ x) = foldChars step m [] x := by
  induction ws generalizing acc with
  | nil =>
    simp only [List.nil_append]
    apply foldChars_acc step hs
    intro y
    rw [trimChars_space_left acc y hacc]
    rfl
  | cons w ws ih =>
    have hw : isSpace w = true := hws w (by simp)
    have hws' : ∀ c ∈ ws, isSpace c = true := fun c hc => hws c (by simp [hc])
    simp only [List.cons_append, foldChars]
    split_ifs
    · have : step m acc = m := by
        rw [hs.1 m acc [] (by rw [(trimChars_eq_nil_iff acc).mpr hacc]; rfl), hs.2]
      rw [this]
      exact ih hws' [] (by simp)
    · apply ih hws'
      intro c hc
      rcases List.mem_append.mp hc with h1 | h1
      · exact hacc c h1
      · simp only [List.mem_singleton] at h1
        rw [h1]; exact hw

theorem foldChars_space_only (step : StrMap → List Char → StrMap) (hs : TrimStep step)
    (ws : List Char) (hws : ∀ c ∈ ws, isSpace c = true) (m : StrMap) (acc : List Char) :
    foldChars step m acc ws = step m acc := by
  induction ws generalizing m acc with
  | nil => rfl
  | cons w ws ih =>
    have hw : isSpace w = true := hws w (by simp)
    have hws' : ∀ c ∈ ws, isSpace c = true := fun c hc => hws c (by simp [hc])
    simp only [foldChars]
    split_ifs
    · rw [ih hws', hs.2]
    · rw [ih hws']
      apply hs.1
      apply trimChars_space_right
      intro c hc
      simp only [List.mem_singleton] at hc
      rw [hc]; exact hw

theorem foldChars_space_right (step : StrMap → List Char → StrMap) (hs : TrimStep step)
    (x ws : List Char) (hws : ∀ c ∈ ws, isSpace c = true) (m : StrMap) (acc : List Char) :
    foldChars step m acc (x ++ ws) = foldChars step m acc x := by
  induction x generalizing m acc with
  | nil =>
    simp only [List.nil_append, foldChars]
    exact foldChars_space_only step hs ws hws m acc
  | cons c x ih =>
    simp only [List.cons_append, foldChars]
    split_ifs
    · exact ih _ _
    · exact ih _ _

theorem foldChars_trim (step : StrMap → List Char → StrMap) (hs : TrimStep step)
    (s : List Char) (m : StrMap) :
    foldChars step m [] (trimChars s) = foldChars step m [] s := by
  obtain ⟨a, b, ha, hb, he⟩ := trimChars_decomp s
  conv_rhs => rw [he]
  rw [foldChars_space_right step hs _ b hb, foldChars_space_left step hs a _ ha m [] (by simp)]

theorem trimSpace_idem (l : String) : TrimSpace (TrimSpace l) = TrimSpace l := by
  unfold TrimSpace
  rw [string_eq_iff]
  exact trimChars_idem l.data

theorem freezeLine_trimStep : TrimStep (fun m l => freezeLine m ⟨l⟩) := by
  constructor
  · intro m a b h
    have : TrimSpace ⟨a⟩ = TrimSpace ⟨b⟩ := by
      unfold TrimSpace
      rw [string_eq_iff]
      exact h
    simp only [freezeLine, this]
  · intro m
    rfl

theorem foldl_split (step : StrMap → String → StrMap) (text : String) (m : StrMap) :
    (Split text "\n").foldl step m = foldChars (fun m l => step m ⟨l⟩) m [] text.data := by
  unfold Split
  show List.foldl step m (List.map String.mk (splitChars text.data ['\n'])) = _
  rw [splitChars_eq_splitOn, List.foldl_map, foldl_splitOn]

/-- The line-parsing step of `GetInstalledPackages` is the loop over the lines of the
printed text itself: trimming the text first changes nothing. -/
theorem parseFreeze_eq (out : String) :
    parseFreeze out = (Split out "\n").foldl freezeLine [] := by
  rw [foldl_split, ← foldChars_trim _ freezeLine_trimStep]
  unfold parseFreeze
  simp only
  split_ifs with h
  · have : trimChars out.data = [] := by
      have := congrArg String.data h
      simpa [TrimSpace] using this
    rw [this]
    rfl
  · rw [foldl_split]
    rfl

/-! ## The freeze parser -/

theorem firstAt_unique (line pre sep post pre' post' : String)
    (h : FirstAt line pre sep post) (h' : FirstAt line pre' sep post') :
    pre = pre' ∧ post = post' := by
  have e1 := indexChars_of_first pre.data sep.data post.data (by
    have := h.2
    rw [h.1] at this
    exact this)
  have e2 := indexChars_of_first pre'.data sep.data post'.data (by
    have := h'.2
    rw [h'.1] at this
    exact this)
  rw [← h.1] at e1
  rw [← h'.1, e1] at e2
  have hlen : pre.data.length = pre'.data.length := by simpa using e2
  have happ : pre.data ++ (sep.data ++ post.data) = pre'.data ++ (sep.data ++ post'.data) := by
    rw [← List.append_assoc, ← List.append_assoc, ← h.1, ← h'.1]
  obtain ⟨hp, hq⟩ := List.append_inj happ hlen
  exact ⟨String.ext hp, String.ext (List.append_cancel_left hq)⟩

theorem freezeLine_entry (m : StrMap) (line pre post : String)
    (h : FirstAt line pre "==" post) :
    freezeLine m line = mapSet m (TrimSpace pre) (TrimSpace post) := by
  obtain ⟨hne, hcont, p0, p1, hsplit, hp0, hp1⟩ := cut_line line pre "==" post solidSep_eqeq h
  simp only [freezeLine, hne, hcont, hsplit, hp0, hp1]
  simp

theorem freezeLine_dropped (m : StrMap) (line : String) (h : ¬ Occurs "==" line) :
    freezeLine m line = m := by
  have hno := contains_false_of_not_infix line "==" h
  simp only [freezeLine, hno]
  simp

theorem occurs_of_firstAt (line pre sep post : String) (h : FirstAt line pre sep post) :
    Occurs sep line :=
  ⟨pre.data, post.data, h.1.symm⟩

theorem snoc_eq_append_cons (init before after : List String) (l line : String)
    (h : init ++ [l] = before ++ line :: after) :
    (after = [] ∧ init = before ∧ l = line) ∨
      ∃ after', after = after' ++ [l] ∧ init = before ++ line :: after' := by
  rcases List.eq_nil_or_concat after with hnil | ⟨after', x, hx⟩
  · subst hnil
    have := List.append_inj' h (by simp)
    left
    exact ⟨rfl, this.1, by simpa using this.2⟩
  · rw [List.concat_eq_append] at hx
    subst hx
    have h2 : init ++ [l] = (before ++ line :: after') ++ [x] := by
      rw [h]; simp
    have := List.append_inj' h2 (by simp)
    right
    have hx : l = x := by simpa using this.2
    subst hx
    exact ⟨after', rfl, this.1⟩

theorem foldl_freezeLine_lookup (ls : List String) (name version : String) :
    mapGet (ls.foldl freezeLine []) name = some version ↔
      ∃ before line after, ls = before ++ line :: after ∧ IsFreezeEntry line name version ∧
        ∀ l ∈ after, ∀ v, ¬ IsFreezeEntry l name v := by
  induction ls using List.reverseRecOn generalizing version with
  | nil =>
    constructor
    · intro h; simp [mapGet] at h
    · rintro ⟨before, line, after, h, -⟩
      simp at h
  | append_singleton init l ih =>
    rw [List.foldl_append, List.foldl_cons, List.foldl_nil]
    by_cases hocc : Occurs "==" l
    · obtain ⟨pre, post, hcut⟩ := firstAt_of_occurs "==" l hocc
      rw [freezeLine_entry _ l pre post hcut, mapGet_mapSet]
      have hent : ∀ n v, IsFreezeEntry l n v → n = TrimSpace pre ∧ v = TrimSpace post := by
        rintro n v ⟨pre', post', hcut', hn, hv⟩
        obtain ⟨e1, e2⟩ := firstAt_unique l pre' "==" post' pre post hcut' hcut
        rw [hn, hv, e1, e2]
        exact ⟨rfl, rfl⟩
      by_cases hk : TrimSpace pre = name
      · rw [if_pos hk]
        constructor
        · intro hv
          injection hv with hv
          exact ⟨init, l, [], rfl, ⟨pre, post, hcut, hk.symm, hv.symm⟩, by simp⟩
        · rintro ⟨before, line, after, hdec, hentry, hafter⟩
          rcases snoc_eq_append_cons init before after l line hdec with
            ⟨-, -, hl⟩ | ⟨after', ha, -⟩
          · subst hl
            rw [(hent name version hentry).2]
          · exfalso
            exact hafter l (by rw [ha]; simp) (TrimSpace post) ⟨pre, post, hcut, hk.symm, rfl⟩
      · rw [if_neg hk, ih]
        constructor
        · rintro ⟨before, line, after, hdec, hentry, hafter⟩
          refine ⟨before, line, after ++ [l], by rw [hdec]; simp, hentry, ?_⟩
          intro x hx v hxe
          rcases List.mem_append.mp hx with h1 | h1
          · exact hafter x h1 v hxe
          · simp only [List.mem_singleton] at h1
            subst h1
            exact hk (hent name v hxe).1.symm
        · rintro ⟨before, line, after, hdec, hentry, hafter⟩
          rcases snoc_eq_append_cons init before after l line hdec with
            ⟨-, -, hl⟩ | ⟨after', ha, hi⟩
          · subst hl
            exact absurd (hent name version hentry).1.symm hk
          · refine ⟨before, line, after', hi, hentry, ?_⟩
            intro x hx v
            exact hafter x (by rw [ha]; simp [hx]) v
    · rw [freezeLine_dropped _ l hocc, ih]
      have hnot : ∀ n v, ¬ IsFreezeEntry l n v := by
        rintro n v ⟨pre', post', hcut', -, -⟩
        exact hocc (occurs_of_firstAt _ _ _ _ hcut')
      constructor
      · rintro ⟨before, line, after, hdec, hentry, hafter⟩
        refine ⟨before, line, after ++ [l], by rw [hdec]; simp, hentry, ?_⟩
        intro x hx v hxe
        rcases List.mem_append.mp hx with h1 | h1
        · exact hafter x h1 v hxe
        · simp only [List.mem_singleton] at h1
          subst h1
          exact hnot name v hxe
      · rintro ⟨before, line, after, hdec, hentry, hafter⟩
        rcases snoc_eq_append_cons init before after l line hdec with
          ⟨-, -, hl⟩ | ⟨after', ha, hi⟩
        · subst hl
          exact absurd hentry (hnot name version)
        · refine ⟨before, line, after', hi, hentry, ?_⟩
          intro x hx v
          exact hafter x (by rw [ha]; simp [hx]) v

/-- C7: for every text printed by the package manager, the line-parsing step
of GetInstalledPackages yields a mapping in which `name` has the value
`version` exactly when some line of the text is cut by its first `==` into a
text that, trimmed, is `name` and a text that, trimmed, is `version`, and no
later line is such an entry of `name` (a later line overrides an earlier one);
`name` has a value exactly when some line is an entry of it; the entries are
the lines in which `==` occurs; and a line in which `==` does not occur leaves
the mapping as it is. -/
theorem parseFreeze_lookup (out : String) :
    (∀ name version, mapGet (parseFreeze out) name = some version ↔
      ∃ before line after, Split out "\n" = before ++ line :: after ∧
        IsFreezeEntry line name version ∧ ∀ l ∈ after, ∀ v, ¬ IsFreezeEntry l name v) ∧
    (∀ name, (mapGet (parseFreeze out) name).isSome = true ↔
      ∃ line ∈ Split out "\n", ∃ version, IsFreezeEntry line name version) ∧
    (∀ line : String,
      Occurs "==" line ↔ ∃ name version, IsFreezeEntry line name version) ∧
    (∀ (packages : StrMap) (line : String),
      ¬ Occurs "==" line → freezeLine packages line = packages) ∧
    ((∀ line ∈ Split out "\n", ¬ Occurs "==" line) → parseFreeze out = []) := by
  have hmain : ∀ name version, mapGet (parseFreeze out) name = some version ↔
      ∃ before line after, Split out "\n" = before ++ line :: after ∧
        IsFreezeEntry line name version ∧ ∀ l ∈ after, ∀ v, ¬ IsFreezeEntry l name v := by
    intro name version
    rw [parseFreeze_eq]
    exact foldl_freezeLine_lookup _ name version
  refine ⟨hmain, ?_, ?_, freezeLine_dropped, ?_⟩
  · intro name
    constructor
    · intro h
      obtain ⟨v, hv⟩ := Option.isSome_iff_exists.mp h
      obtain ⟨before, line, after, hdec, hentry, -⟩ := (hmain name v).mp hv
      exact ⟨line, by rw [hdec]; simp, v, hentry⟩
    · rintro ⟨line, hmem, version, hentry⟩
      rw [parseFreeze_eq]
      -- the last line that is an entry of `name` decides
      have key : ∀ (ls : List String), (∃ l ∈ ls, ∃ v, IsFreezeEntry l name v) →
          (mapGet (ls.foldl freezeLine []) name).isSome = true := by
        intro ls
        induction ls using List.reverseRecOn with
        | nil => rintro ⟨l, hl, -⟩; simp at hl
        | append_singleton init l ih =>
          rintro ⟨x, hx, v, hxe⟩
          rw [List.foldl_append, List.foldl_cons, List.foldl_nil]
          by_cases hocc : Occurs "==" l
          · obtain ⟨pre, post, hcut⟩ := firstAt_of_occurs "==" l hocc
            rw [freezeLine_entry _ l pre post hcut, mapGet_mapSet]
            by_cases hk : TrimSpace pre = name
            · rw [if_pos hk]; rfl
            · rw [if_neg hk]
              apply ih
              rcases List.mem_append.mp hx with h1 | h1
              · exact ⟨x, h1, v, hxe⟩
              · simp only [List.mem_singleton] at h1
                subst h1
                obtain ⟨pre', post', hcut', hn, -⟩ := hxe
                obtain ⟨e1, -⟩ := firstAt_unique x pre' "==" post' pre post hcut' hcut
                exact absurd (by rw [hn, e1]) hk
          · rw [freezeLine_dropped _ l hocc]
            apply ih
            rcases List.mem_append.mp hx with h1 | h1
            · exact ⟨x, h1, v, hxe⟩
            · simp only [List.mem_singleton] at h1
              subst h1
              obtain ⟨pre', post', hcut', -, -⟩ := hxe
              exact absurd (occurs_of_firstAt _ _ _ _ hcut') hocc
      exact key _ ⟨line, hmem, version, hentry⟩
  · intro line
    constructor
    · intro hocc
      obtain ⟨pre, post, hcut⟩ := firstAt_of_occurs "==" line hocc
      exact ⟨TrimSpace pre, TrimSpace post, pre, post, hcut, rfl, rfl⟩
    · rintro ⟨name, version, pre, post, hcut, -, -⟩
      exact occurs_of_firstAt _ _ _ _ hcut
  · intro hall
    rw [parseFreeze_eq]
    have key : ∀ (ls : List String) (m : StrMap), (∀ l ∈ ls, ¬ Occurs "==" l) →
        ls.foldl freezeLine m = m := by
      intro ls
      induction ls with
      | nil => intro m _; rfl
      | cons l ls ih =>
        intro m h
        rw [List.foldl_cons, freezeLine_dropped m l (h l (by simp))]
        exact ih m (fun x hx => h x (by simp [hx]))
    exact key _ [] hall

/-- C7 on a listing with a header line, a line without `==`, and two entries of `name`:
`name` has the version of the later line, and the lines without `==` leave no entry. -/
theorem parseFreeze_lookup_witness :
    parseFreeze "name==1.0.0" = [("name", "1.0.0")] ∧
    mapGet (parseFreeze "Package Version\nname==1.0.0\npip @ file\n name == 2.0 \n") "name"
      = some "2.0" ∧
    parseFreeze "Package Version\nname==1.0.0\npip @ file\n name == 2.0 \n"
      = [("name", "2.0")] ∧
    parseFreeze "Package Version\npip @ file" = [] :=
  ⟨by decide,
   ((parseFreeze_lookup "Package Version\nname==1.0.0\npip @ file\n name == 2.0 \n").1
      "name" "2.0").mpr
     ⟨["Package Version", "name==1.0.0", "pip @ file"], " name == 2.0 ", [""], by decide,
      ⟨" name ", " 2.0 ", by decide, by decide, by decide⟩,
      by
        intro l hl v hv
        simp only [List.mem_singleton] at hl
        subst hl
        obtain ⟨pre, post, hcut, -, -⟩ := hv
        exact absurd (occurs_of_firstAt _ _ _ _ hcut) (by decide)⟩,
   by decide,
   (parseFreeze_lookup "Package Version\npip @ file").2.2.2.2 (by decide)⟩

/-! ## The security scanners -/

theorem scanSecurityDep_eq (scan : SecurityScan) (dep : Dependency) :
    scanSecurityDep scan dep =
      if dep.Name = "requests" ∧ strLess dep.Version "2.31.0" = true then
        { scan with Medium := i64 (scan.Medium + 1),
                    Vulnerabilities := scan.Vulnerabilities ++ [validatorRecord dep] }
      else scan := rfl

theorem ScanSecurityDep_eq (scan : SecurityScan) (dep : Dependency) :
    ScanSecurityDep scan dep =
      if isFlagged dep = true then
        { scan with Medium := i64 (scan.Medium + 1),
                    Vulnerabilities := scan.Vulnerabilities ++ [scannerRecord dep] }
      else scan := by
  unfold ScanSecurityDep isFlagged
  by_cases h1 : dep.Name = "requests"
  · have hg : mapGet vulnerablePackages dep.Name = some "2.28.2" := by
      rw [h1]; rfl
    have hne : ¬ ("requests" = "2.28.2") := by decide
    have hne2 : ¬ ("requests" = "urllib3") := by decide
    rw [hg]
    simp only [h1, hne, hne2, and_false, or_false, false_and, true_and]
    by_cases hv : dep.Version = "==2.28.2"
    · have hv' : dep.Version = "==" ++ "2.28.2" := hv
      simp [hv', scannerRecord, h1]
    · have hv' : ¬ dep.Version = "==" ++ "2.28.2" := hv
      simp [hv', hv]
  · by_cases h2 : dep.Name = "urllib3"
    · have hg : mapGet vulnerablePackages dep.Name = some "1.26.0" := by
        rw [h2]; rfl
      have hne : ¬ ("urllib3" = "1.26.0") := by decide
      have hne2 : ¬ ("urllib3" = "requests") := by decide
      rw [hg]
      simp only [h2, hne, hne2, and_false, or_false, false_and, true_and, false_or]
      by_cases hv : dep.Version = "==1.26.0"
      · have hv' : dep.Version = "==" ++ "1.26.0" := hv
        simp [hv', scannerRecord, h2]
      · have hv' : ¬ dep.Version = "==" ++ "1.26.0" := hv
        simp [hv', hv]
    · have hg : mapGet vulnerablePackages dep.Name = none := by
        simp only [vulnerablePackages, mapGet]
        rw [if_neg (fun h => h1 h.symm), if_neg (fun h => h2 h.symm)]
      rw [hg]
      simp [h1, h2]

/-- A loop whose step either leaves the scan or counts and appends one medium record per
selected dependency emits exactly the records of the selected dependencies. -/
theorem scan_loop (f : SecurityScan → Dependency → SecurityScan) (sel : Dependency → Bool)
    (rec : Dependency → Vulnerability)
    (hf : ∀ scan dep, f scan dep =
      if sel dep = true then
        { scan with Medium := i64 (scan.Medium + 1),
                    Vulnerabilities := scan.Vulnerabilities ++ [rec dep] }
      else scan)
    (deps : List Dependency) (scan : SecurityScan) (vs : List Vulnerability)
    (h : emitted scan vs) (hlen : ((vs.length + deps.length : Nat) : Int) < 2 ^ 63) :
    emitted (deps.foldl f scan) (vs ++ (deps.filter sel).map rec) := by
  induction deps generalizing scan vs with
  | nil => simpa using h
  | cons d ds ih =>
    rw [List.foldl_cons, hf]
    simp only [List.length_cons] at hlen
    by_cases hd : sel d = true
    · rw [if_pos hd]
      have hstep : emitted
          { scan with Medium := i64 (scan.Medium + 1),
                      Vulnerabilities := scan.Vulnerabilities ++ [rec d] }
          (vs ++ [rec d]) := by
        obtain ⟨h1, h2, h3, h4, h5, h6⟩ := h
        refine ⟨h1, h2, h3, h4, by simp [h5], ?_⟩
        simp only [h6, List.length_append, List.length_singleton]
        rw [i64_of_range _ (by omega) (by push_cast at hlen ⊢; omega)]
        push_cast
        rfl
      have := ih _ _ hstep (by
        simp only [List.length_append, List.length_singleton]
        push_cast at hlen ⊢; omega)
      simpa [List.filter_cons, hd] using this
    · rw [if_neg hd]
      have := ih _ _ h (by push_cast at hlen ⊢; omega)
      simpa [List.filter_cons, hd] using this

theorem emitted_emptyScan : emitted emptyScan [] := by
  refine ⟨rfl, rfl, rfl, rfl, rfl, rfl⟩

theorem scanSecurity_emitted (deps : List Dependency) (hlen : (deps.length : Int) < 2 ^ 63) :
    emitted (deps.foldl scanSecurityDep emptyScan)
      ((deps.filter (fun dep =>
        decide (dep.Name = "requests" ∧ strLess dep.Version "2.31.0" = true))).map
          validatorRecord) := by
  have := scan_loop scanSecurityDep
    (fun dep => decide (dep.Name = "requests" ∧ strLess dep.Version "2.31.0" = true))
    validatorRecord
    (by intro scan dep; rw [scanSecurityDep_eq]; simp)
    deps emptyScan [] emitted_emptyScan (by simpa using hlen)
  simpa using this

theorem ScanSecurity_emitted (deps : List Dependency) (hlen : (deps.length : Int) < 2 ^ 63) :
    emitted (deps.foldl ScanSecurityDep emptyScan)
      ((deps.filter isFlagged).map scannerRecord) := by
  have := scan_loop ScanSecurityDep isFlagged scannerRecord ScanSecurityDep_eq
    deps emptyScan [] emitted_emptyScan (by simpa using hlen)
  simpa using this

/-! ## The security scanners: claims -/

theorem foldl_scanSecurityDep_skip (ls : List Dependency) (scan : SecurityScan)
    (h : ∀ d ∈ ls, d.Name ≠ "requests") : ls.foldl scanSecurityDep scan = scan := by
  induction ls with
  | nil => rfl
  | cons d ds ih =>
    have hd : d.Name ≠ "requests" := h d (by simp)
    rw [List.foldl_cons, scanSecurityDep_eq, if_neg (fun hc => hd hc.1)]
    exact ih (fun x hx => h x (by simp [hx]))

theorem scanSecurity_one (before after : List Dependency) (dep : Dependency)
    (hname : dep.Name = "requests") (hver : dep.Version = "2.28.2")
    (hb : ∀ d ∈ before, d.Name ≠ "requests") (ha : ∀ d ∈ after, d.Name ≠ "requests") :
    scanSecurity (before ++ dep :: after) =
      { Critical := 0, High := 0, Medium := 1, Low := 0,
        Vulnerabilities := [validatorRecord dep], Status := "warning" } := by
  have hstep : scanSecurityDep emptyScan dep =
      { emptyScan with Medium := 1, Vulnerabilities := [validatorRecord dep] } := by
    rw [scanSecurityDep_eq, if_pos ⟨hname, by rw [hver]; decide⟩]
    rfl
  have hfold : (before ++ dep :: after).foldl scanSecurityDep emptyScan =
      { emptyScan with Medium := 1, Vulnerabilities := [validatorRecord dep] } := by
    rw [List.foldl_append, List.foldl_cons, foldl_scanSecurityDep_skip before _ hb, hstep,
      foldl_scanSecurityDep_skip after _ ha]
  unfold scanSecurity
  rw [hfold]
  rfl

/-- C8: for every dependency list that holds one dependency named requests,
with version 2.28.2, and no other dependency of that name, the validator's
scanSecurity returns exactly one Vulnerability, for package requests, of
severity medium, with FixedIn 2.31.0, and counts Medium = 1 and Critical =
High = Low = 0; the security block of calculateScore then takes exactly 5 off
the score, and the score before clamping is 5 less than without the scan. -/
theorem scanSecurity_requests (before after : List Dependency) (dep : Dependency)
    (hname : dep.Name = "requests") (hver : dep.Version = "2.28.2")
    (hb : ∀ d ∈ before, d.Name ≠ "requests") (ha : ∀ d ∈ after, d.Name ≠ "requests") :
    (scanSecurity (before ++ dep :: after)).Vulnerabilities =
      [{ ID := "CVE-2023-XXXXX", Package := "requests", Version := "2.28.2",
         Severity := "medium", Description := "Example security vulnerability",
         FixedIn := "2.31.0" }] ∧
    (scanSecurity (before ++ dep :: after)).Medium = 1 ∧
    (scanSecurity (before ++ dep :: after)).Critical = 0 ∧
    (scanSecurity (before ++ dep :: after)).High = 0 ∧
    (scanSecurity (before ++ dep :: after)).Low = 0 ∧
    (∀ score : Int, -(2 ^ 63) + 5 ≤ score → score < 2 ^ 63 →
      scoreSecurity score (some (scanSecurity (before ++ dep :: after))) = score - 5) ∧
    (∀ r : ValidationResult, r.Security = some (scanSecurity (before ++ dep :: after)) →
      scoreMagnitude r < 2 ^ 63 → rawScore r = rawScore (withoutSecurity r) - 5) := by
  have hscan := scanSecurity_one before after dep hname hver hb ha
  rw [hscan]
  refine ⟨by simp [validatorRecord, hname, hver], rfl, rfl, rfl, rfl, ?_, ?_⟩
  · intro score h1 h2
    simp only [scoreSecurity, i64]
    omega
  · intro r hr hmag
    have hmag' : scoreMagnitude (withoutSecurity r) < 2 ^ 63 := by
      have := securityMagnitude_nonneg r.Security
      simp only [scoreMagnitude, withoutSecurity, securityMagnitude] at hmag ⊢
      simp only [securityMagnitude] at this
      omega
    rw [rawScore_eq r hmag, rawScore_eq _ hmag']
    simp only [specDeduction, withoutSecurity, hr, specSecurityDeduction]
    omega

/-- C8 on the list flask, requests 2.28.2: one record, and the score before clamping
goes from 100 to 95. -/
theorem scanSecurity_requests_witness :
    bareRequests.Name = "requests" ∧ bareRequests.Version = "2.28.2" ∧
    (scanSecurity [bareFlask, bareRequests]).Medium = 1 ∧
    (scanSecurity [bareFlask, bareRequests]).Vulnerabilities =
      [{ ID := "CVE-2023-XXXXX", Package := "requests", Version := "2.28.2",
         Severity := "medium", Description := "Example security vulnerability",
         FixedIn := "2.31.0" }] ∧
    scoreSecurity 100 (some (scanSecurity [bareFlask, bareRequests])) = 100 - 5 :=
  ⟨rfl, rfl,
   (scanSecurity_requests [bareFlask] [] bareRequests rfl rfl (by decide) (by decide)).2.1,
   (scanSecurity_requests [bareFlask] [] bareRequests rfl rfl (by decide) (by decide)).1,
   (scanSecurity_requests [bareFlask] [] bareRequests rfl rfl (by decide)
      (by decide)).2.2.2.2.2.1 100 (by norm_num) (by norm_num)⟩

/-- C9, as stated, fails on the bare version: requests with the stored version
2.28.2 is in the table with exactly the table version, and
scanner.ScanSecurity emits nothing for it. -/
theorem ScanSecurity_bare_version :
    isFlaggedAsStated bareRequests = true ∧
    (ScanSecurity [bareRequests]).Vulnerabilities = [] ∧
    (ScanSecurity [bareRequests]).Medium = 0 := by
  decide

/-- C9 (amended): for every dependency list (a slice, of fewer than 2^63
elements), scanner.ScanSecurity emits, in list order, one Vulnerability for
each dependency whose name is in the known-vulnerable table (requests ->
2.28.2, urllib3 -> 1.26.0) and whose stored version is the table version
behind the prefix `==`, counts each of them in Medium, and emits nothing for
any other dependency. -/
theorem ScanSecurity_emits (deps : List Dependency) (hlen : deps.length < 2 ^ 63) :
    (ScanSecurity deps).Vulnerabilities = (deps.filter isFlagged).map scannerRecord ∧
    (ScanSecurity deps).Medium = ((deps.filter isFlagged).length : Int) ∧
    (∀ v ∈ (ScanSecurity deps).Vulnerabilities, ∃ dep ∈ deps,
      isFlagged dep = true ∧ v.Package = dep.Name ∧ v.Version = dep.Version) := by
  obtain ⟨h1, h2, h3, h4, h5, h6⟩ := ScanSecurity_emitted deps (by exact_mod_cast hlen)
  have hv : (ScanSecurity deps).Vulnerabilities = (deps.filter isFlagged).map scannerRecord := by
    unfold ScanSecurity
    simp only [h1, h2]
    split_ifs <;> exact h5
  have hm : (ScanSecurity deps).Medium = ((deps.filter isFlagged).length : Int) := by
    unfold ScanSecurity
    simp only [h1, h2]
    split_ifs <;> simp [h6]
  refine ⟨hv, hm, ?_⟩
  intro v hmem
  rw [hv] at hmem
  obtain ⟨dep, hdep, rfl⟩ := List.mem_map.mp hmem
  obtain ⟨hd1, hd2⟩ := List.mem_filter.mp hdep
  exact ⟨dep, hd1, hd2, rfl, rfl⟩

/-- C9 (amended) on the list requests 2.28.2, requests ==2.28.2, flask 2.3.3, urllib3
==1.26.0: two records, for the second and the fourth dependency. -/
theorem ScanSecurity_emits_witness :
    [bareRequests, pinnedRequests, bareFlask, pinnedUrllib3].length < 2 ^ 63 ∧
    (ScanSecurity [bareRequests, pinnedRequests, bareFlask, pinnedUrllib3]).Vulnerabilities
      = [scannerRecord pinnedRequests, scannerRecord pinnedUrllib3] ∧
    (ScanSecurity [bareRequests, pinnedRequests, bareFlask, pinnedUrllib3]).Medium = 2 :=
  ⟨by decide,
   (ScanSecurity_emits [bareRequests, pinnedRequests, bareFlask, pinnedUrllib3]
      (by decide)).1,
   (ScanSecurity_emits [bareRequests, pinnedRequests, bareFlask, pinnedUrllib3]
      (by decide)).2.1⟩

theorem mediumOnly_of_emitted (s : SecurityScan) (vs : List Vulnerability)
    (h : emitted s vs) (hv : ∀ v ∈ vs, v.Severity = "medium")
    (final : SecurityScan)
    (hfinal : final = if vs.length > 0 then { s with Status := "warning" } else s) :
    MediumOnly final := by
  obtain ⟨h1, h2, h3, h4, h5, h6⟩ := h
  subst hfinal
  by_cases hpos : vs.length > 0
  · rw [if_pos hpos]
    have hne : vs ≠ [] := List.ne_nil_of_length_pos hpos
    have hwe : "warning" ≠ "error" := by decide
    refine ⟨h1, h2, h3, by simp [h5, h6], by simpa [h5] using hv, ?_, fun _ => rfl, hwe⟩
    intro hnil
    simp only [h5] at hnil
    exact absurd hnil hne
  · rw [if_neg hpos]
    have hnil : vs = [] := List.length_eq_zero.mp (by omega)
    refine ⟨h1, h2, h3, by simp [h5, h6], by simpa [h5] using hv, fun _ => h4, ?_, ?_⟩
    · intro hne
      simp only [h5] at hne
      exact absurd hnil hne
    · rw [h4]; decide

/-- C10: for every dependency list (a slice, of fewer than 2^63 elements), the
SecurityScan returned by scanner.ScanSecurity and the one returned by the
validator's scanSecurity have Critical = 0, High = 0 and Low = 0, Medium equal
to the number of Vulnerability records, every record of severity medium, and
Status success when there is no record and warning otherwise; Status is never
error. -/
theorem scanners_medium_only (deps : List Dependency) (hlen : deps.length < 2 ^ 63) :
    MediumOnly (ScanSecurity deps) ∧ MediumOnly (scanSecurity deps) := by
  constructor
  · have he := ScanSecurity_emitted deps (by exact_mod_cast hlen)
    apply mediumOnly_of_emitted _ _ he
    · intro v hv
      obtain ⟨dep, -, rfl⟩ := List.mem_map.mp hv
      rfl
    · obtain ⟨h1, h2, h3, h4, h5, h6⟩ := he
      unfold ScanSecurity
      simp only [h1, h2, h5]
      simp
  · have he := scanSecurity_emitted deps (by exact_mod_cast hlen)
    apply mediumOnly_of_emitted _ _ he
    · intro v hv
      obtain ⟨dep, -, rfl⟩ := List.mem_map.mp hv
      rfl
    · obtain ⟨h1, h2, h3, h4, h5, h6⟩ := he
      unfold scanSecurity
      simp only [h5]

/-- C10 on the list requests 2.28.2, requests ==2.28.2, flask 2.3.3, urllib3 ==1.26.0 and
on the empty list. -/
theorem scanners_medium_only_witness :
    [bareRequests, pinnedRequests, bareFlask, pinnedUrllib3].length < 2 ^ 63 ∧
    (MediumOnly (ScanSecurity [bareRequests, pinnedRequests, bareFlask, pinnedUrllib3]) ∧
      MediumOnly (scanSecurity [bareRequests, pinnedRequests, bareFlask, pinnedUrllib3])) ∧
    (ScanSecurity [bareRequests, pinnedRequests, bareFlask, pinnedUrllib3]).Status = "warning" ∧
    (scanSecurity [bareRequests, pinnedRequests, bareFlask, pinnedUrllib3]).Status = "warning" ∧
    (ScanSecurity []).Status = "success" ∧ (scanSecurity []).Status = "success" :=
  ⟨by decide,
   scanners_medium_only [bareRequests, pinnedRequests, bareFlask, pinnedUrllib3] (by decide),
   by decide, by decide, by decide, by decide⟩

/-! ## Latest versions -/

theorem scan_loop_records (f : SecurityScan → Dependency → SecurityScan)
    (sel : Dependency → Bool) (rec : Dependency → Vulnerability)
    (hf : ∀ scan dep, f scan dep =
      if sel dep = true then
        { scan with Medium := i64 (scan.Medium + 1),
                    Vulnerabilities := scan.Vulnerabilities ++ [rec dep] }
      else scan)
    (deps : List Dependency) (scan : SecurityScan) :
    (deps.foldl f scan).Vulnerabilities
      = scan.Vulnerabilities ++ (deps.filter sel).map rec := by
  induction deps generalizing scan with
  | nil => simp
  | cons d ds ih =>
    rw [List.foldl_cons, ih, hf]
    by_cases hd : sel d = true
    · simp [List.filter_cons, hd]
    · simp [List.filter_cons, hd]

theorem ScanSecurity_records (deps : List Dependency) :
    (ScanSecurity deps).Vulnerabilities = (deps.filter isFlagged).map scannerRecord := by
  have h := scan_loop_records ScanSecurityDep isFlagged scannerRecord ScanSecurityDep_eq
    deps emptyScan
  have h0 : emptyScan.Vulnerabilities = [] := rfl
  rw [h0, List.nil_append] at h
  unfold ScanSecurity
  simp only
  split_ifs <;> exact h

theorem getLatestVersion_eq (name : String) :
    getLatestVersion name =
      if "django" = name then "4.2.0"
      else if "requests" = name then "2.31.0"
      else if "flask" = name then "2.3.3"
      else if "numpy" = name then "1.24.3"
      else if "pandas" = name then "2.0.3"
      else if "tensorflow" = name then "2.13.0"
      else if "cryptography" = name then "41.0.0"
      else "1.0.0" := by
  simp only [getLatestVersion, versionMap, mapGet]
  split_ifs <;> rfl

/-- C11: every Vulnerability emitted by scanner.ScanSecurity has FixedIn equal
to getLatestVersion of its package name; getLatestVersion returns the entry of
the latest-version table for each of the seven tabled names (2.31.0 for
requests) and the default 1.0.0 for every other name, so that a flagged
urllib3 gets FixedIn 1.0.0; and getLatestVersion never returns the empty
string. -/
theorem ScanSecurity_fixedIn (deps : List Dependency) :
    (∀ v ∈ (ScanSecurity deps).Vulnerabilities, v.FixedIn = getLatestVersion v.Package) ∧
    (∀ name ∈ tabledNames, mapGet versionMap name = some (getLatestVersion name)) ∧
    (getLatestVersion "django" = "4.2.0" ∧ getLatestVersion "requests" = "2.31.0" ∧
      getLatestVersion "flask" = "2.3.3" ∧ getLatestVersion "numpy" = "1.24.3" ∧
      getLatestVersion "pandas" = "2.0.3" ∧ getLatestVersion "tensorflow" = "2.13.0" ∧
      getLatestVersion "cryptography" = "41.0.0") ∧
    (∀ name, name ∉ tabledNames → getLatestVersion name = "1.0.0") ∧
    (∀ v ∈ (ScanSecurity deps).Vulnerabilities, v.Package = "urllib3" → v.FixedIn = "1.0.0") ∧
    (∀ name, getLatestVersion name ≠ "") := by
  have hfix : ∀ v ∈ (ScanSecurity deps).Vulnerabilities,
      v.FixedIn = getLatestVersion v.Package := by
    intro v hv
    rw [ScanSecurity_records] at hv
    obtain ⟨dep, -, rfl⟩ := List.mem_map.mp hv
    rfl
  refine ⟨hfix, by decide, by decide, ?_, ?_, ?_⟩
  · intro name hname
    simp only [tabledNames, List.mem_cons, List.mem_singleton, List.not_mem_nil, or_false,
      not_or] at hname
    obtain ⟨h1, h2, h3, h4, h5, h6, h7⟩ := hname
    rw [getLatestVersion_eq, if_neg (Ne.symm h1), if_neg (Ne.symm h2), if_neg (Ne.symm h3),
      if_neg (Ne.symm h4), if_neg (Ne.symm h5), if_neg (Ne.symm h6), if_neg (Ne.symm h7)]
  · intro v hv hp
    rw [hfix v hv, hp]
    rfl
  · intro name
    rw [getLatestVersion_eq]
    split_ifs <;> decide

/-- C11 on the list requests ==2.28.2, urllib3 ==1.26.0: FixedIn is 2.31.0 for the first
record and the default 1.0.0 for the second. -/
theorem ScanSecurity_fixedIn_witness :
    (ScanSecurity [pinnedRequests, pinnedUrllib3]).Vulnerabilities.map (fun v => v.FixedIn)
      = ["2.31.0", "1.0.0"] ∧
    (∀ v ∈ (ScanSecurity [pinnedRequests, pinnedUrllib3]).Vulnerabilities,
      v.FixedIn = getLatestVersion v.Package) :=
  ⟨by decide, (ScanSecurity_fixedIn [pinnedRequests, pinnedUrllib3]).1⟩

/-! ## The structure validator -/

theorem isValid_false_iff (sys : System) (path : String) :
    IsValid sys path = false ↔
      (path = "" ∨ sys.stat path = StatResult.notExist ∨
        ∀ marker ∈ validityMarkers path, sys.stat marker ≠ StatResult.ok) := by
  unfold IsValid
  by_cases h1 : path = ""
  · simp [h1]
  · by_cases h2 : sys.stat path = StatResult.notExist
    · simp [h1, h2]
    · simp only [h1, h2, if_false, false_or]
      rw [← Bool.not_eq_true, List.any_eq_true]
      simp only [decide_eq_true_eq, not_exists, not_and]

theorem validateVenvStructure_invalid (sys : System) (venvPath : String)
    (h : IsValid sys venvPath = false) :
    validateVenvStructure sys venvPath =
      ({ Path := venvPath, PythonVersion := "", PipVersion := "", Activated := "",
         Integrity := "invalid", Status := "error" },
        some ("invalid virtual environment at " ++ venvPath)) := by
  unfold validateVenvStructure
  simp [h]

/-- The `VenvInfo` built for a valid environment, from the outcomes of the two
probes and of the activation check. -/
theorem validateVenvStructure_valid (sys : System) (venvPath : String)
    (h : IsValid sys venvPath = true) :
    validateVenvStructure sys venvPath =
      ({ Path := venvPath,
         PythonVersion :=
           (match sys.pythonVersion venvPath with
            | .error err => "error: " ++ err
            | .ok v => v),
         PipVersion :=
           (match sys.pipVersion venvPath with
            | .error err => "error: " ++ err
            | .ok v => v),
         Activated := if IsActivated sys venvPath = true then "activated" else "not_activated",
         Integrity := "valid",
         Status :=
           if probeOk (sys.pythonVersion venvPath) = true ∧
               probeOk (sys.pipVersion venvPath) = true ∧
               IsActivated sys venvPath = true then "success"
           else "warning" }, none) := by
  unfold validateVenvStructure
  simp only [h, not_true_eq_false, if_false]
  cases hpy : sys.pythonVersion venvPath <;> cases hpip : sys.pipVersion venvPath <;>
    by_cases hact : IsActivated sys venvPath = true <;> simp [hact, probeOk]

/-- C12: validateVenvStructure fails exactly when IsValid is false, that is
for the empty path, a missing directory, or when none of the marker files is
present; when it fails the info it built has integrity invalid and status
error and ValidateEnvironment returns an error and no result; when it succeeds
integrity is valid; so integrity invalid implies status error. -/
theorem validateVenvStructure_fails_iff (sys : System) (venvPath : String) :
    ((validateVenvStructure sys venvPath).2 ≠ none ↔ IsValid sys venvPath = false) ∧
    (IsValid sys venvPath = false ↔
      (venvPath = "" ∨ sys.stat venvPath = StatResult.notExist ∨
        ∀ marker ∈ validityMarkers venvPath, sys.stat marker ≠ StatResult.ok)) ∧
    ((validateVenvStructure sys venvPath).2 ≠ none →
      (validateVenvStructure sys venvPath).1.Integrity = "invalid" ∧
      (validateVenvStructure sys venvPath).1.Status = "error" ∧
      ValidateEnvironment sys venvPath =
        .error ("venv validation failed: invalid virtual environment at " ++ venvPath)) ∧
    ((validateVenvStructure sys venvPath).2 = none →
      (validateVenvStructure sys venvPath).1.Integrity = "valid" ∧
      ∃ result, ValidateEnvironment sys venvPath = .ok result) ∧
    ((validateVenvStructure sys venvPath).1.Integrity = "invalid" →
      (validateVenvStructure sys venvPath).1.Status = "error") := by
  refine ⟨?_, isValid_false_iff sys venvPath, ?_, ?_, ?_⟩
  · rcases Bool.eq_false_or_eq_true (IsValid sys venvPath) with h | h
    · simp [validateVenvStructure_valid sys venvPath h, h]
    · simp [validateVenvStructure_invalid sys venvPath h, h]
  · intro hn
    rcases Bool.eq_false_or_eq_true (IsValid sys venvPath) with h | h
    · rw [validateVenvStructure_valid sys venvPath h] at hn
      simp at hn
    · have hv := validateVenvStructure_invalid sys venvPath h
      refine ⟨by rw [hv], by rw [hv], ?_⟩
      simp only [ValidateEnvironment, hv]
      rw [← String.append_assoc]
      rfl
  · intro hn
    rcases Bool.eq_false_or_eq_true (IsValid sys venvPath) with h | h
    · have hv := validateVenvStructure_valid sys venvPath h
      refine ⟨by rw [hv], ?_⟩
      simp only [ValidateEnvironment, hv]
      exact ⟨_, rfl⟩
    · rw [validateVenvStructure_invalid sys venvPath h] at hn
      simp at hn
  · intro hi
    rcases Bool.eq_false_or_eq_true (IsValid sys venvPath) with h | h
    · rw [validateVenvStructure_valid sys venvPath h] at hi
      simp at hi
    · rw [validateVenvStructure_invalid sys venvPath h]

/-- C13: for every valid environment, whatever the outcomes of the two version
probes and of the activation check, the info returned by validateVenvStructure
has status success exactly when both probes succeeded and the environment is
activated, and status warning otherwise; its status is never error; a failed
probe's version field holds `error: ` followed by the error message, and a
successful probe's version field holds the version. -/
theorem validateVenvStructure_status (sys : System) (venvPath : String)
    (hvalid : IsValid sys venvPath = true) :
    (validateVenvStructure sys venvPath).2 = none ∧
    ((validateVenvStructure sys venvPath).1.Status = "success" ↔
      (probeOk (sys.pythonVersion venvPath) = true ∧ probeOk (sys.pipVersion venvPath) = true ∧
        IsActivated sys venvPath = true)) ∧
    ((validateVenvStructure sys venvPath).1.Status = "warning" ↔
      ¬ (probeOk (sys.pythonVersion venvPath) = true ∧
        probeOk (sys.pipVersion venvPath) = true ∧ IsActivated sys venvPath = true)) ∧
    (validateVenvStructure sys venvPath).1.Status ≠ "error" ∧
    (∀ err, sys.pythonVersion venvPath = .error err →
      (validateVenvStructure sys venvPath).1.PythonVersion = "error: " ++ err) ∧
    (∀ err, sys.pipVersion venvPath = .error err →
      (validateVenvStructure sys venvPath).1.PipVersion = "error: " ++ err) ∧
    (∀ v, sys.pythonVersion venvPath = .ok v →
      (validateVenvStructure sys venvPath).1.PythonVersion = v) ∧
    (∀ v, sys.pipVersion venvPath = .ok v →
      (validateVenvStructure sys venvPath).1.PipVersion = v) := by
  have hv := validateVenvStructure_valid sys venvPath hvalid
  have hsw : "success" ≠ "warning" := by decide
  have hws : "warning" ≠ "success" := by decide
  have hse : "success" ≠ "error" := by decide
  have hwe : "warning" ≠ "error" := by decide
  rw [hv]
  refine ⟨rfl, ?_, ?_, ?_, ?_, ?_, ?_, ?_⟩
  · simp only
    split_ifs with hc
    · exact ⟨fun _ => hc, fun _ => rfl⟩
    · exact ⟨fun h => absurd h hws, fun h => absurd h hc⟩
  · simp only
    split_ifs with hc
    · exact ⟨fun h => absurd h hsw, fun h => absurd hc h⟩
    · exact ⟨fun _ => hc, fun _ => rfl⟩
  · simp only
    split_ifs
    · exact hse
    · exact hwe
  · intro err he
    simp only [he]
  · intro err he
    simp only [he]
  · intro v he
    simp only [he]
  · intro v he
    simp only [he]

/-! ## The whole run -/

theorem ValidateEnvironment_listed (sys : System) (venvPath out : String)
    (hvalid : IsValid sys venvPath = true) (hlist : sys.pipList venvPath = .ok out) :
    ValidateEnvironment sys venvPath = .ok (calculateScore (listedResult sys venvPath out)) := by
  have h2 : (validateVenvStructure sys venvPath).2 = none := by
    rw [validateVenvStructure_valid sys venvPath hvalid]
  unfold ValidateEnvironment
  rcases hv : validateVenvStructure sys venvPath with ⟨info, err⟩
  rw [hv] at h2
  simp only at h2
  subst h2
  simp only [GetInstalledPackages, hlist, checkRequirementsConsistency, listedResult, hv,
    List.nil_append]

theorem ValidateEnvironment_unlisted (sys : System) (venvPath err : String)
    (hvalid : IsValid sys venvPath = true) (hlist : sys.pipList venvPath = .error err) :
    ValidateEnvironment sys venvPath
      = .ok (calculateScore (unlistedResult sys venvPath err)) := by
  have h2 : (validateVenvStructure sys venvPath).2 = none := by
    rw [validateVenvStructure_valid sys venvPath hvalid]
  unfold ValidateEnvironment
  rcases hv : validateVenvStructure sys venvPath with ⟨info, e⟩
  rw [hv] at h2
  simp only at h2
  subst h2
  simp only [GetInstalledPackages, hlist, checkRequirementsConsistency, unlistedResult, hv,
    List.nil_append]

theorem scanSecurity_nil : scanSecurity [] = emptyScan := rfl

theorem analyzePerformance_nil (venvPath : String) :
    analyzePerformance venvPath [] =
      { UnusedPackages := [], LargePackages := [], Optimizations := [], Status := "success" } :=
  rfl

theorem i64_small (x : Int) (h1 : -1000 ≤ x) (h2 : x ≤ 1000) : i64 x = x :=
  i64_of_range x (by omega) (by omega)

/-- The score of a result that has an environment info, no dependency, an empty security
scan, a performance record of status success and the issues `issues`. -/
theorem rawScore_plain (r : ValidationResult) (info : VenvInfo) (p : Performance)
    (hinfo : r.VenvInfo = some info) (hdeps : r.Dependencies = [])
    (hsec : r.Security = some emptyScan) (hperf : r.Performance = some p)
    (hp : p.Status = "success") (hissues : r.Issues.length ≤ 1) :
    rawScore r = 100 - specVenvDeduction (some info) - (r.Issues.map specIssueDeduction).sum := by
  have hmag : scoreMagnitude r < 2 ^ 63 := by
    have : (r.Issues.length : Int) ≤ 1 := by exact_mod_cast hissues
    simp only [scoreMagnitude, hdeps, hsec, securityMagnitude, emptyScan]
    simp only [List.length_nil, Nat.cast_zero, abs_zero]
    omega
  have hne : ¬ ("success" = "warning") := by decide
  rw [rawScore_eq r hmag]
  simp only [specDeduction, hinfo, hdeps, hsec, hperf, specSecurityDeduction,
    specPerformanceDeduction, emptyScan, hp, hne]
  simp only [List.filter_nil, List.length_nil, Nat.cast_zero, mul_zero, add_zero, if_false]
  omega

/-- C14, as stated, fails when the environment is not activated: on the
machine `idleSystem` the environment `venv` is valid, both probes succeed and
no package is installed, and the score is 80, not 95, because the environment
status warning costs 15 besides the 5 for not being activated. -/
theorem ValidateEnvironment_idle_score :
    IsValid idleSystem "venv" = true ∧ IsActivated idleSystem "venv" = false ∧
    probeOk (idleSystem.pythonVersion "venv") = true ∧
    probeOk (idleSystem.pipVersion "venv") = true ∧
    GetInstalledPackages idleSystem "venv" = .ok [] ∧
    ∃ result, ValidateEnvironment idleSystem "venv" = .ok result ∧
      result.Score = 80 ∧ result.Score ≠ 95 := by
  refine ⟨by decide, by decide, by decide, by decide, by rfl, ?_⟩
  refine ⟨_, ValidateEnvironment_listed idleSystem "venv" "" (by decide) rfl, ?_⟩
  have h : (calculateScore (listedResult idleSystem "venv" "")).Score = 80 := by
    simp only [calculateScore, clampScore_eq]
    rw [rawScore_plain _ (validateVenvStructure idleSystem "venv").1
      (analyzePerformance "venv" []) rfl rfl rfl rfl rfl (by decide)]
    decide
  rw [h]
  exact ⟨rfl, by decide⟩

/-- C14 (amended): for a valid environment whose version probes both succeed
and whose package enumeration succeeds with zero packages, ValidateEnvironment
returns a result without dependencies and issues whose score is 100 when the
environment is activated and 80 when it is not (100 minus 15 for the
environment status warning that not being activated causes, minus 5 for not
being activated), and the verdict is success in both cases. -/
theorem ValidateEnvironment_no_packages (sys : System) (venvPath out : String)
    (hvalid : IsValid sys venvPath = true)
    (hpy : probeOk (sys.pythonVersion venvPath) = true)
    (hpip : probeOk (sys.pipVersion venvPath) = true)
    (hlist : sys.pipList venvPath = .ok out) (hzero : parseFreeze out = []) :
    ∃ result, ValidateEnvironment sys venvPath = .ok result ∧
      result.Dependencies = [] ∧ result.Issues = [] ∧
      (IsActivated sys venvPath = true → result.Score = 100 ∧ result.OverallStatus = "success") ∧
      (IsActivated sys venvPath = false → result.Score = 80 ∧ result.OverallStatus = "success")
    := by
  refine ⟨_, ValidateEnvironment_listed sys venvPath out hvalid hlist, ?_, ?_, ?_, ?_⟩
  · simp only [calculateScore, listedResult, hzero]
    rfl
  · rfl
  · intro hact
    have hraw : rawScore (listedResult sys venvPath out) = 100 := by
      rw [rawScore_plain _ (validateVenvStructure sys venvPath).1
        (analyzePerformance venvPath []) rfl (by simp only [listedResult, hzero]; rfl)
        (by simp only [listedResult, hzero]; rfl) (by simp only [listedResult, hzero]; rfl) rfl
        (by simp [listedResult])]
      rw [validateVenvStructure_valid sys venvPath hvalid]
      simp [specVenvDeduction, hpy, hpip, hact, listedResult]
    simp only [calculateScore, hraw]
    exact ⟨by decide, by decide⟩
  · intro hact
    have hraw : rawScore (listedResult sys venvPath out) = 80 := by
      rw [rawScore_plain _ (validateVenvStructure sys venvPath).1
        (analyzePerformance venvPath []) rfl (by simp only [listedResult, hzero]; rfl)
        (by simp only [listedResult, hzero]; rfl) (by simp only [listedResult, hzero]; rfl) rfl
        (by simp [listedResult])]
      rw [validateVenvStructure_valid sys venvPath hvalid]
      simp [specVenvDeduction, hpy, hpip, hact, listedResult]
    simp only [calculateScore, hraw]
    exact ⟨by decide, by decide⟩

/-- C14 (amended) on the machines `sampleSystem` (activated: score 100) and
`idleSystem` (not activated: score 80). -/
theorem ValidateEnvironment_no_packages_witness :
    (IsValid sampleSystem "venv" = true ∧ IsActivated sampleSystem "venv" = true ∧
      ∃ result, ValidateEnvironment sampleSystem "venv" = .ok result ∧
        result.Score = 100 ∧ result.OverallStatus = "success") ∧
    (IsValid idleSystem "venv" = true ∧ IsActivated idleSystem "venv" = false ∧
      ∃ result, ValidateEnvironment idleSystem "venv" = .ok result ∧
        result.Score = 80 ∧ result.OverallStatus = "success") := by
  refine ⟨⟨by decide, by decide, ?_⟩, ⟨by decide, by decide, ?_⟩⟩
  · obtain ⟨r, h1, -, -, h2, -⟩ := ValidateEnvironment_no_packages sampleSystem "venv" ""
      (by decide) (by decide) (by decide) rfl (by decide)
    exact ⟨r, h1, h2 (by decide)⟩
  · obtain ⟨r, h1, -, -, -, h2⟩ := ValidateEnvironment_no_packages idleSystem "venv" ""
      (by decide) (by decide) (by decide) rfl (by decide)
    exact ⟨r, h1, h2 (by decide)⟩

/-- C15: for every valid environment whose package enumeration fails,
ValidateEnvironment returns a result and no error; the dependency list is
empty, the issue list is the one issue of type dependency and severity warning
that carries the failure text, the security scan has no vulnerabilities and
counts nothing, the performance status is success, and the score is 100 minus
the deductions for the environment minus 10 for that issue. -/
theorem ValidateEnvironment_enumeration_fails (sys : System) (venvPath err : String)
    (hvalid : IsValid sys venvPath = true) (hlist : sys.pipList venvPath = .error err) :
    ∃ result, ValidateEnvironment sys venvPath = .ok result ∧
      result.Dependencies = [] ∧
      result.Issues = [{ Type_ := "dependency", Severity := "warning",
                         Message := "Failed to get packages: " ++ err,
                         Component := "", Line := 0 }] ∧
      result.Security = some emptyScan ∧
      (∃ p, result.Performance = some p ∧ p.Status = "success" ∧ p.Optimizations = []) ∧
      result.VenvInfo = some (validateVenvStructure sys venvPath).1 ∧
      result.Score = 100 - specVenvDeduction result.VenvInfo - 10 := by
  refine ⟨_, ValidateEnvironment_unlisted sys venvPath err hvalid hlist, rfl, rfl, rfl,
    ⟨_, rfl, rfl, rfl⟩, rfl, ?_⟩
  have hraw : rawScore (unlistedResult sys venvPath err)
      = 100 - specVenvDeduction (some (validateVenvStructure sys venvPath).1) - 10 := by
    rw [rawScore_plain _ (validateVenvStructure sys venvPath).1
      (analyzePerformance venvPath []) rfl rfl rfl rfl rfl (by simp [unlistedResult])]
    simp [unlistedResult, specIssueDeduction]
  have hrange := specVenvDeduction_range (some (validateVenvStructure sys venvPath).1)
  simp only [calculateScore, clampScore_eq, hraw]
  have hv : (unlistedResult sys venvPath err).VenvInfo
      = some (validateVenvStructure sys venvPath).1 := rfl
  rw [hv]
  omega

/-- C15 on the machine `failingSystem`: the run returns a result with the one issue and
the score 100 - 15 - 5 - 10 = 70. -/
theorem ValidateEnvironment_enumeration_fails_witness :
    IsValid failingSystem "venv" = true ∧
    failingSystem.pipList "venv" = .error "failed to list packages: exit status 1" ∧
    ∃ result, ValidateEnvironment failingSystem "venv" = .ok result ∧
      result.Dependencies = [] ∧
      result.Issues = [{ Type_ := "dependency", Severity := "warning",
                         Message := "Failed to get packages: failed to list packages: exit status 1",
                         Component := "", Line := 0 }] ∧
      result.Score = 100 - specVenvDeduction result.VenvInfo - 10 := by
  refine ⟨by decide, rfl, ?_⟩
  obtain ⟨r, h1, h2, h3, -, -, -, h4⟩ := ValidateEnvironment_enumeration_fails failingSystem
    "venv" "failed to list packages: exit status 1" (by decide) rfl
  exact ⟨r, h1, h2, h3, h4⟩

/-- C12 on the machine `bareSystem`, where `venv` does not exist, and on `sampleSystem`,
where it is a valid environment. -/
theorem validateVenvStructure_fails_iff_witness :
    (IsValid bareSystem "venv" = false ∧
      (validateVenvStructure bareSystem "venv").1.Integrity = "invalid" ∧
      (validateVenvStructure bareSystem "venv").1.Status = "error" ∧
      ValidateEnvironment bareSystem "venv" =
        .error ("venv validation failed: invalid virtual environment at " ++ "venv")) ∧
    (IsValid sampleSystem "venv" = true ∧
      (validateVenvStructure sampleSystem "venv").1.Integrity = "valid") :=
  ⟨⟨by decide,
    ((validateVenvStructure_fails_iff bareSystem "venv").2.2.1
      (((validateVenvStructure_fails_iff bareSystem "venv").1).mpr (by decide)))⟩,
   ⟨by decide, by decide⟩⟩

/-- C13 on the machines `idleSystem` (not activated: warning) and `probeFailSystem` (the
interpreter probe fails: warning, and the version field holds the error text). -/
theorem validateVenvStructure_status_witness :
    IsValid idleSystem "venv" = true ∧
    (validateVenvStructure idleSystem "venv").1.Status = "warning" ∧
    IsValid probeFailSystem "venv" = true ∧
    (validateVenvStructure probeFailSystem "venv").1.Status = "warning" ∧
    (validateVenvStructure probeFailSystem "venv").1.PythonVersion
      = "error: " ++ "Python executable not found in venv" ∧
    (validateVenvStructure sampleSystem "venv").1.Status = "success" :=
  ⟨by decide,
   ((validateVenvStructure_status idleSystem "venv" (by decide)).2.2.1).mpr (by decide),
   by decide,
   ((validateVenvStructure_status probeFailSystem "venv" (by decide)).2.2.1).mpr (by decide),
   (validateVenvStructure_status probeFailSystem "venv" (by decide)).2.2.2.2.1 _ rfl,
   ((validateVenvStructure_status sampleSystem "venv" (by decide)).2.1).mpr (by decide)⟩

/-! ## Suggestions -/

theorem foldl_append_if {α β : Type} (p : α → Bool) (g : α → β) (l : List α) (init : List β) :
    l.foldl (fun acc x => if p x = true then acc ++ [g x] else acc) init
      = init ++ (l.filter p).map g := by
  induction l generalizing init with
  | nil => simp
  | cons x xs ih =>
    rw [List.foldl_cons, ih]
    by_cases hx : p x = true
    · simp [List.filter_cons, hx]
    · simp [List.filter_cons, hx]

theorem foldl_append_all {α β : Type} (g : α → β) (l : List α) (init : List β) :
    l.foldl (fun acc x => acc ++ [g x]) init = init ++ l.map g := by
  induction l generalizing init with
  | nil => simp
  | cons x xs ih =>
    rw [List.foldl_cons, ih]
    simp

/-- C16: for every ValidationResult, generateSuggestions returns exactly, in
this order: one config suggestion (priority medium, not auto-fixable, command
`source <path>/bin/activate`) if the environment is not_activated; one update
suggestion (priority high, auto-fixable, command `pip install
<name>==<latest>`) for each dependency with status outdated and non-empty
Latest, in list order; one security suggestion (priority high, auto-fixable,
command `pip install <package>==<FixedIn>`) for each vulnerability, in list
order; and nothing else. -/
theorem generateSuggestions_eq (r : ValidationResult) :
    generateSuggestions r = specSuggestions r ∧
    (∀ path, (configSuggestion path).Type_ = "config" ∧
      (configSuggestion path).Priority = "medium" ∧
      (configSuggestion path).AutoFixable = false ∧
      (configSuggestion path).Command = "source " ++ path ++ "/bin/activate") ∧
    (∀ dep, (updateSuggestion dep).Type_ = "update" ∧
      (updateSuggestion dep).Priority = "high" ∧
      (updateSuggestion dep).AutoFixable = true ∧
      (updateSuggestion dep).Command = "pip install " ++ dep.Name ++ "==" ++ dep.Latest) ∧
    (∀ vuln, (securitySuggestion vuln).Type_ = "security" ∧
      (securitySuggestion vuln).Priority = "high" ∧
      (securitySuggestion vuln).AutoFixable = true ∧
      (securitySuggestion vuln).Command
        = "pip install " ++ vuln.Package ++ "==" ++ vuln.FixedIn) := by
  refine ⟨?_, fun _ => ⟨rfl, rfl, rfl, rfl⟩, fun _ => ⟨rfl, rfl, rfl, rfl⟩,
    fun _ => ⟨rfl, rfl, rfl, rfl⟩⟩
  unfold generateSuggestions specSuggestions
  have hdeps : ∀ init : List Suggestion,
      r.Dependencies.foldl (fun suggestions dep =>
        if dep.Status = "outdated" ∧ dep.Latest ≠ "" then
          suggestions ++
            [{ Type_ := "update",
               Description := "Update " ++ dep.Name ++ " to version " ++ dep.Latest,
               Command := "pip install " ++ dep.Name ++ "==" ++ dep.Latest,
               AutoFixable := true, Priority := "high" }]
        else suggestions) init
      = init ++ (r.Dependencies.filter
          (fun dep => dep.Status = "outdated" ∧ dep.Latest ≠ "")).map updateSuggestion := by
    intro init
    have := foldl_append_if (fun dep : Dependency =>
      decide (dep.Status = "outdated" ∧ dep.Latest ≠ "")) updateSuggestion r.Dependencies init
    simp only [decide_eq_true_eq] at this
    exact this
  have hvul : ∀ (vs : List Vulnerability) (init : List Suggestion),
      vs.foldl (fun suggestions vuln =>
        suggestions ++
          [{ Type_ := "security",
             Description := "Fix vulnerability " ++ vuln.ID ++ " in " ++ vuln.Package,
             Command := "pip install " ++ vuln.Package ++ "==" ++ vuln.FixedIn,
             AutoFixable := true, Priority := "high" }]) init
      = init ++ vs.map securitySuggestion := fun vs init =>
    foldl_append_all securitySuggestion vs init
  simp only [hdeps]
  cases r.VenvInfo <;> cases r.Security <;> simp only [hvul, List.nil_append, List.append_nil]
  all_goals rfl

/-- C16 on a result that is not activated and has two outdated dependencies, one of them
without a latest version, and one vulnerability: three suggestions. -/
theorem generateSuggestions_eq_witness :
    generateSuggestions suggestResult =
      [configSuggestion "venv",
       updateSuggestion { Name := "requests", Version := "2.28.2", Latest := "2.31.0",
                          Status := "outdated", RequiredBy := "" },
       securitySuggestion (validatorRecord bareRequests)] ∧
    generateSuggestions suggestResult = specSuggestions suggestResult :=
  ⟨by decide, (generateSuggestions_eq suggestResult).1⟩

/-! ## The performance analyzers -/

/-- The loops over the large-package names only append to `LargePackages`. -/
theorem largeLoop_frame (names : List String) (size : String) (deps : List Dependency)
    (perf : Performance) :
    (names.foldl (fun perf pkg =>
      deps.foldl (fun perf dep =>
        if dep.Name = pkg then
          { perf with LargePackages := perf.LargePackages ++ [{ Name := pkg, Size := size }] }
        else perf) perf) perf).UnusedPackages = perf.UnusedPackages ∧
    (names.foldl (fun perf pkg =>
      deps.foldl (fun perf dep =>
        if dep.Name = pkg then
          { perf with LargePackages := perf.LargePackages ++ [{ Name := pkg, Size := size }] }
        else perf) perf) perf).Optimizations = perf.Optimizations ∧
    (names.foldl (fun perf pkg =>
      deps.foldl (fun perf dep =>
        if dep.Name = pkg then
          { perf with LargePackages := perf.LargePackages ++ [{ Name := pkg, Size := size }] }
        else perf) perf) perf).Status = perf.Status := by
  have inner : ∀ (pkg : String) (ds : List Dependency) (p : Performance),
      (ds.foldl (fun perf dep =>
        if dep.Name = pkg then
          { perf with LargePackages := perf.LargePackages ++ [{ Name := pkg, Size := size }] }
        else perf) p).UnusedPackages = p.UnusedPackages ∧
      (ds.foldl (fun perf dep =>
        if dep.Name = pkg then
          { perf with LargePackages := perf.LargePackages ++ [{ Name := pkg, Size := size }] }
        else perf) p).Optimizations = p.Optimizations ∧
      (ds.foldl (fun perf dep =>
        if dep.Name = pkg then
          { perf with LargePackages := perf.LargePackages ++ [{ Name := pkg, Size := size }] }
        else perf) p).Status = p.Status := by
    intro pkg ds
    induction ds with
    | nil => intro p; exact ⟨rfl, rfl, rfl⟩
    | cons d ds ih =>
      intro p
      rw [List.foldl_cons]
      obtain ⟨h1, h2, h3⟩ := ih (if d.Name = pkg then
          { p with LargePackages := p.LargePackages ++ [{ Name := pkg, Size := size }] }
        else p)
      rw [h1, h2, h3]
      split_ifs <;> exact ⟨rfl, rfl, rfl⟩
  induction names generalizing perf with
  | nil => exact ⟨rfl, rfl, rfl⟩
  | cons n ns ih =>
    rw [List.foldl_cons]
    obtain ⟨h1, h2, h3⟩ := ih (deps.foldl (fun perf dep =>
        if dep.Name = n then
          { perf with LargePackages := perf.LargePackages ++ [{ Name := n, Size := size }] }
        else perf) perf)
    obtain ⟨g1, g2, g3⟩ := inner n deps perf
    rw [h1, h2, h3, g1, g2, g3]
    exact ⟨rfl, rfl, rfl⟩

/-- C17 fails on a list holding only `tensorflow`, which is in the
large-package list of scanner.AnalyzePerformance: the large package is
recorded, no dependency is outdated, and the status stays success, where the
validator's analyzePerformance sets warning on the same list. -/
theorem AnalyzePerformance_large_only :
    tensorflowDep.Name ∈ largePackagesScanner ∧
    (AnalyzePerformance "venv" [tensorflowDep]).LargePackages
      = [{ Name := "tensorflow", Size := "450MB+" }] ∧
    (AnalyzePerformance "venv" [tensorflowDep]).Status = "success" ∧
    (analyzePerformance "venv" [tensorflowDep]).Status = "warning" := by
  decide

/-- What scanner.AnalyzePerformance does: the status is warning exactly when more than 5
dependencies are outdated, whatever the large packages. -/
theorem AnalyzePerformance_status (venvPath : String) (deps : List Dependency)
    (hlen : deps.length < 2 ^ 63) :
    (AnalyzePerformance venvPath deps).Status
      = if outdatedNumber deps > 5 then "warning" else "success" := by
  have hcount : countOutdated deps = (outdatedNumber deps : Int) :=
    countOutdated_eq deps (by exact_mod_cast hlen)
  obtain ⟨-, -, h3⟩ := largeLoop_frame largePackagesScanner "450MB+" deps
    { UnusedPackages := [], LargePackages := [], Optimizations := [], Status := "success" }
  unfold AnalyzePerformance
  simp only [hcount]
  have hiff : ((outdatedNumber deps : Int) > 5) ↔ outdatedNumber deps > 5 := by
    constructor <;> intro h <;> omega
  by_cases hk : outdatedNumber deps > 5
  · rw [if_pos (hiff.mpr hk), if_pos hk]
  · rw [if_neg (fun h => hk (hiff.mp h)), if_neg hk]
    split_ifs <;> exact h3

theorem toString_natCast (n : Nat) : toString ((n : Nat) : Int) = toString n := rfl

/-- C18: for every dependency list (a slice, of fewer than 2^63 elements),
scanner.AnalyzePerformance records the one placeholder unused package and the
cleanup optimization exactly when the list has more than 20 dependencies, and
appends the update optimization, whose description cites the number of
outdated dependencies, exactly when more than 5 dependencies are outdated; the
optimization list is exactly these entries, cleanup before update. -/
theorem AnalyzePerformance_optimizations (venvPath : String) (deps : List Dependency)
    (hlen : deps.length < 2 ^ 63) :
    (AnalyzePerformance venvPath deps).UnusedPackages
      = (if deps.length > 20 then ["example-unused-package"] else []) ∧
    (AnalyzePerformance venvPath deps).Optimizations
      = (if deps.length > 20 then [cleanupOptimization] else []) ++
        (if outdatedNumber deps > 5 then [updateOptimization (outdatedNumber deps)] else []) ∧
    (cleanupOptimization ∈ (AnalyzePerformance venvPath deps).Optimizations
      ↔ deps.length > 20) ∧
    (updateOptimization (outdatedNumber deps) ∈ (AnalyzePerformance venvPath deps).Optimizations
      ↔ outdatedNumber deps > 5) ∧
    (updateOptimization (outdatedNumber deps)).Description
      = "Update " ++ toString (outdatedNumber deps) ++
        " outdated packages for performance improvements" := by
  have hcount : countOutdated deps = (outdatedNumber deps : Int) :=
    countOutdated_eq deps (by exact_mod_cast hlen)
  obtain ⟨h1, h2, -⟩ := largeLoop_frame largePackagesScanner "450MB+" deps
    { UnusedPackages := [], LargePackages := [], Optimizations := [], Status := "success" }
  have hiff : ((outdatedNumber deps : Int) > 5) ↔ outdatedNumber deps > 5 := by
    constructor <;> intro h <;> omega
  have hunused : (AnalyzePerformance venvPath deps).UnusedPackages
      = (if deps.length > 20 then ["example-unused-package"] else []) := by
    unfold AnalyzePerformance
    simp only [hcount]
    by_cases hk : outdatedNumber deps > 5
    · rw [if_pos (hiff.mpr hk)]
      split_ifs
      · rfl
      · exact h1
    · rw [if_neg (fun h => hk (hiff.mp h))]
      split_ifs
      · rfl
      · exact h1
  have hopt : (AnalyzePerformance venvPath deps).Optimizations
      = (if deps.length > 20 then [cleanupOptimization] else []) ++
        (if outdatedNumber deps > 5 then [updateOptimization (outdatedNumber deps)]
          else []) := by
    unfold AnalyzePerformance
    simp only [hcount, toString_natCast]
    by_cases hk : outdatedNumber deps > 5
    · rw [if_pos (hiff.mpr hk), if_pos hk]
      by_cases h20 : deps.length > 20
      · simp only [h20, if_true, h2]
        rfl
      · simp only [h20, if_false, h2]
        rfl
    · rw [if_neg (fun h => hk (hiff.mp h)), if_neg hk]
      by_cases h20 : deps.length > 20
      · simp only [h20, if_true, h2]
        rfl
      · simp only [h20, if_false, h2]
        rfl
  have hcu : ∀ n, cleanupOptimization ≠ updateOptimization n := by
    intro n h
    have h1 : "cleanup" = "update" := congrArg Optimization.Type_ h
    exact absurd h1 (by decide)
  refine ⟨hunused, hopt, ?_, ?_, rfl⟩
  · rw [hopt]
    by_cases h20 : deps.length > 20 <;> by_cases hk : outdatedNumber deps > 5 <;>
      simp [h20, hk, hcu]
  · rw [hopt]
    by_cases h20 : deps.length > 20 <;> by_cases hk : outdatedNumber deps > 5 <;>
      simp [h20, hk, Ne.symm (hcu _)]

/-- C18 on lists of 20 and of 21 dependencies, none outdated, and on a list of 6
outdated dependencies. -/
theorem AnalyzePerformance_optimizations_witness :
    ((manyDeps 20 false).length < 2 ^ 63 ∧
      (AnalyzePerformance "venv" (manyDeps 20 false)).UnusedPackages = [] ∧
      (AnalyzePerformance "venv" (manyDeps 20 false)).Optimizations = []) ∧
    ((manyDeps 21 false).length < 2 ^ 63 ∧
      (AnalyzePerformance "venv" (manyDeps 21 false)).UnusedPackages
        = ["example-unused-package"] ∧
      (AnalyzePerformance "venv" (manyDeps 21 false)).Optimizations = [cleanupOptimization]) ∧
    ((manyDeps 6 true).length < 2 ^ 63 ∧
      (AnalyzePerformance "venv" (manyDeps 6 true)).Optimizations = [updateOptimization 6] ∧
      (updateOptimization 6).Description
        = "Update 6 outdated packages for performance improvements") := by
  refine ⟨⟨by decide, ?_, ?_⟩, ⟨by decide, ?_, ?_⟩, ⟨by decide, ?_, by decide⟩⟩
  · rw [(AnalyzePerformance_optimizations "venv" (manyDeps 20 false) (by decide)).1]
    decide
  · rw [(AnalyzePerformance_optimizations "venv" (manyDeps 20 false) (by decide)).2.1]
    decide
  · rw [(AnalyzePerformance_optimizations "venv" (manyDeps 21 false) (by decide)).1]
    decide
  · rw [(AnalyzePerformance_optimizations "venv" (manyDeps 21 false) (by decide)).2.1]
    decide
  · rw [(AnalyzePerformance_optimizations "venv" (manyDeps 6 true) (by decide)).2.1]
    decide

/-- C19: for every list of more than 20 dependencies, the validator's
analyzePerformance returns status warning and an optimization list that ends
with one optimization of type quantity whose description cites the number of
dependencies; the performance block of calculateScore then takes exactly 10
off the score, as it does for every performance record of status warning,
whatever its optimizations, and the score before clamping is 10 less than
without the performance record. -/
theorem analyzePerformance_many (venvPath : String) (deps : List Dependency)
    (hmany : deps.length > 20) :
    (analyzePerformance venvPath deps).Status = "warning" ∧
    (∃ init, (analyzePerformance venvPath deps).Optimizations
        = init ++ [quantityOptimization deps.length] ∧
      ∀ o ∈ init, o.Type_ ≠ "quantity") ∧
    (quantityOptimization deps.length).Description
      = "Many packages (" ++ toString deps.length ++ "), consider streamlining" ∧
    (∀ score : Int, -(2 ^ 63) + 10 ≤ score → score < 2 ^ 63 →
      scorePerformance score (some (analyzePerformance venvPath deps)) = score - 10) ∧
    (∀ (p : Performance) (score : Int), p.Status = "warning" →
      -(2 ^ 63) + 10 ≤ score → score < 2 ^ 63 → scorePerformance score (some p) = score - 10) ∧
    (∀ r : ValidationResult, r.Performance = some (analyzePerformance venvPath deps) →
      scoreMagnitude r < 2 ^ 63 → rawScore r = rawScore (withoutPerformance r) - 10) := by
  obtain ⟨-, h2, -⟩ := largeLoop_frame largePackagesValidator "100MB+" deps
    { UnusedPackages := [], LargePackages := [], Optimizations := [], Status := "success" }
  have hstatus : (analyzePerformance venvPath deps).Status = "warning" := by
    unfold analyzePerformance
    simp only [hmany, if_true]
  have hgen : ∀ (p : Performance) (score : Int), p.Status = "warning" →
      -(2 ^ 63) + 10 ≤ score → score < 2 ^ 63 →
      scorePerformance score (some p) = score - 10 := by
    intro p score hp h1 h2
    simp only [scorePerformance, hp, if_true]
    exact i64_of_range _ (by omega) (by omega)
  refine ⟨hstatus, ?_, rfl, fun score => hgen _ score hstatus, hgen, ?_⟩
  · unfold analyzePerformance
    simp only [hmany, if_true]
    split_ifs
    · refine ⟨[sizeOptimization], ?_, ?_⟩
      · simp only [h2]
        rfl
      · intro o ho
        simp only [List.mem_singleton] at ho
        rw [ho]
        decide
    · refine ⟨[], ?_, by simp⟩
      simp only [h2]
      rfl
  · intro r hr hmag
    have hmag' : scoreMagnitude (withoutPerformance r) < 2 ^ 63 := hmag
    rw [rawScore_eq r hmag, rawScore_eq _ hmag']
    simp only [specDeduction, withoutPerformance, hr, specPerformanceDeduction, hstatus]
    simp only [if_true]
    omega

/-- C19 on a list of 25 dependencies: status warning, the one optimization is the
quantity optimization citing 25, and the score goes from 100 to 90. -/
theorem analyzePerformance_many_witness :
    (manyDeps 25 false).length > 20 ∧
    (analyzePerformance "venv" (manyDeps 25 false)).Status = "warning" ∧
    (analyzePerformance "venv" (manyDeps 25 false)).Optimizations
      = [{ Type_ := "quantity", Description := "Many packages (25), consider streamlining",
           Impact := "low" }] ∧
    scorePerformance 100 (some (analyzePerformance "venv" (manyDeps 25 false))) = 100 - 10 :=
  ⟨by decide,
   (analyzePerformance_many "venv" (manyDeps 25 false) (by decide)).1,
   by decide,
   (analyzePerformance_many "venv" (manyDeps 25 false) (by decide)).2.2.2.1 100
     (by norm_num) (by norm_num)⟩

/-! ## The project root -/

/-- Once the loop of findProjectRoot stands at the directory `.`, where no marker
exists, it stays there: the parent of `.` is `.`, never `/`. -/
theorem findProjectRootLoop_dot (sys : System) (venvPath : String)
    (hno : ∀ marker ∈ projectMarkers, sys.stat (Join [".", marker]) ≠ StatResult.ok)
    (fuel : Nat) : findProjectRootLoop sys venvPath fuel "." = none := by
  induction fuel with
  | zero => rfl
  | succ n ih =>
    have hdot : "." ≠ "/" := by decide
    have hdir : Dir "." = "." := by decide
    have hany : projectMarkers.any
        (fun marker => decide (sys.stat (Join [".", marker]) = StatResult.ok)) = false := by
      rw [← Bool.not_eq_true, List.any_eq_true]
      rintro ⟨m, hm, hok⟩
      exact hno m hm (by simpa using hok)
    rw [findProjectRootLoop, if_pos hdot, hany, hdir]
    exact ih

/-- C20 fails on the relative path `venv` (and `./venv`) on a machine where no
file exists, so that no marker exists in any directory: the parent of `venv`
is `.`, the parent of `.` is `.` again, the loop condition `dir != "/"` stays
true, and findProjectRoot is still running after any number of directories;
on the absolute path `/home/u/venv` it returns the parent `/home/u`. -/
theorem findProjectRoot_relative_diverges :
    (∀ path, bareSystem.stat path ≠ StatResult.ok) ∧
    Dir "venv" = "." ∧ Dir "./venv" = "." ∧ Dir "." = "." ∧
    (∀ fuel, findProjectRoot bareSystem fuel "venv" = none) ∧
    (∀ fuel, findProjectRoot bareSystem fuel "./venv" = none) ∧
    findProjectRoot bareSystem 4 "/home/u/venv" = some "/home/u" := by
  have hstat : ∀ path, bareSystem.stat path ≠ StatResult.ok := by
    intro path
    show StatResult.notExist ≠ StatResult.ok
    decide
  have hv : Dir "venv" = "." := by decide
  have hv' : Dir "./venv" = "." := by decide
  refine ⟨hstat, hv, hv', by decide, ?_, ?_, by decide⟩
  · intro fuel
    unfold findProjectRoot
    rw [hv]
    exact findProjectRootLoop_dot bareSystem "venv" (fun m _ => hstat _) fuel
  · intro fuel
    unfold findProjectRoot
    rw [hv']
    exact findProjectRootLoop_dot bareSystem "./venv" (fun m _ => hstat _) fuel

/-! ## Loops over a slice by value, and the frame of the scorer -/

theorem ScanSecurityBody_fst (scan : SecurityScan) (dep : Dependency) :
    (ScanSecurityBody scan dep).1 = ScanSecurityDep scan dep := by
  unfold ScanSecurityBody ScanSecurityDep
  cases mapGet vulnerablePackages dep.Name with
  | none => rfl
  | some fixedVersion =>
    simp only
    split_ifs <;> rfl

/-- The loop variable at the end of the body: status vulnerable exactly for a flagged
dependency. -/
theorem ScanSecurityBody_snd (scan : SecurityScan) (dep : Dependency) :
    (ScanSecurityBody scan dep).2
      = if isFlagged dep = true then { dep with Status := "vulnerable" } else dep := by
  have h := ScanSecurityDep_eq scan dep
  unfold ScanSecurityBody
  unfold ScanSecurityDep at h
  cases hg : mapGet vulnerablePackages dep.Name with
  | none =>
    rw [hg] at h
    simp only at h ⊢
    by_cases hf : isFlagged dep = true
    · exfalso
      unfold isFlagged at hf
      simp only [Bool.decide_or, Bool.decide_and, Bool.or_eq_true, Bool.and_eq_true,
        decide_eq_true_eq] at hf
      rcases hf with ⟨hn, -⟩ | ⟨hn, -⟩ <;> rw [hn] at hg <;> exact absurd hg (by decide)
    · rw [if_neg hf]
  | some fixedVersion =>
    rw [hg] at h
    simp only at h ⊢
    by_cases hc : dep.Version = "==" ++ fixedVersion ∨ (dep.Version = "" ∧ dep.Name = fixedVersion)
    · rw [if_pos hc] at h ⊢
      by_cases hf : isFlagged dep = true
      · rw [if_pos hf]
      · rw [if_neg hf] at h
        exfalso
        have := congrArg (fun s => s.Vulnerabilities.length) h
        simp at this
    · rw [if_neg hc] at h ⊢
      by_cases hf : isFlagged dep = true
      · rw [if_pos hf] at h
        exfalso
        have := congrArg (fun s => s.Vulnerabilities.length) h
        simp at this
      · rw [if_neg hf]

theorem ScanSecurityLoop_eq (slice todo : List Dependency) (scan : SecurityScan) :
    ScanSecurityLoop slice todo scan = (todo.foldl ScanSecurityDep scan, slice) := by
  induction todo generalizing scan with
  | nil => rfl
  | cons d ds ih => rw [ScanSecurityLoop, ih, ScanSecurityBody_fst, List.foldl_cons]

theorem scanSecurityLoop_eq (slice todo : List Dependency) (scan : SecurityScan) :
    scanSecurityLoop slice todo scan = (todo.foldl scanSecurityDep scan, slice) := by
  induction todo generalizing scan with
  | nil => rfl
  | cons d ds ih => rw [scanSecurityLoop, ih, List.foldl_cons]

theorem ScanSecurityRun_eq (deps : List Dependency) :
    ScanSecurityRun deps = (ScanSecurity deps, deps) := by
  unfold ScanSecurityRun ScanSecurity
  simp only [ScanSecurityLoop_eq]

theorem scanSecurityRun_eq (deps : List Dependency) :
    scanSecurityRun deps = (scanSecurity deps, deps) := by
  unfold scanSecurityRun scanSecurity
  simp only [scanSecurityLoop_eq]

/-- A loop over the indices of the slice whose iterations leave the slice and
the table as they are and do to the scan what `g` does with the element: the
loop leaves the slice and the table as they are and folds `g` over the
elements. -/
theorem range_loop (f : ScanMemory → Nat → ScanMemory)
    (g : SecurityScan → Dependency → SecurityScan) (table : StrMap)
    (hf : ∀ (m : ScanMemory) (i : Nat) (element : Dependency),
      m.deps[i]? = some element → m.vulnerablePackages = table →
      (f m i).deps = m.deps ∧ (f m i).vulnerablePackages = table ∧
        (f m i).scan = g m.scan element)
    (m : ScanMemory) (ht : m.vulnerablePackages = table) (n : Nat) (hn : n ≤ m.deps.length) :
    ((List.range n).foldl f m).deps = m.deps ∧
      ((List.range n).foldl f m).vulnerablePackages = table ∧
      ((List.range n).foldl f m).scan = (m.deps.take n).foldl g m.scan := by
  induction n with
  | zero => exact ⟨rfl, ht, rfl⟩
  | succ n ih =>
    obtain ⟨h1, h2, h3⟩ := ih (by omega)
    have hlt : n < m.deps.length := by omega
    have hget : ((List.range n).foldl f m).deps[n]? = some (m.deps.get ⟨n, hlt⟩) := by
      rw [h1]
      exact List.getElem?_eq_getElem hlt
    obtain ⟨k1, k2, k3⟩ := hf _ n _ hget h2
    rw [List.range_succ, List.foldl_append, List.foldl_cons, List.foldl_nil]
    refine ⟨k1.trans h1, k2, ?_⟩
    rw [k3, h3, List.take_succ, List.foldl_append, List.getElem?_eq_getElem hlt]
    rfl

theorem ScanSecurityIteration_eq (m : ScanMemory) (i : Nat) (element : Dependency)
    (h : m.deps[i]? = some element) (ht : m.vulnerablePackages = vulnerablePackages) :
    (ScanSecurityIteration m i).deps = m.deps ∧
      (ScanSecurityIteration m i).vulnerablePackages = vulnerablePackages ∧
      (ScanSecurityIteration m i).scan = ScanSecurityDep m.scan element := by
  unfold ScanSecurityIteration ScanSecurityDep
  simp only [h, ht]
  cases hg : mapGet vulnerablePackages element.Name with
  | none => exact ⟨rfl, rfl, rfl⟩
  | some fixedVersion =>
    simp only
    split_ifs
    · exact ⟨rfl, rfl, rfl⟩
    · exact ⟨rfl, rfl, rfl⟩

theorem scanSecurityIteration_eq (m : ScanMemory) (i : Nat) (element : Dependency)
    (h : m.deps[i]? = some element) :
    (scanSecurityIteration m i).deps = m.deps ∧
      (scanSecurityIteration m i).vulnerablePackages = m.vulnerablePackages ∧
      (scanSecurityIteration m i).scan = scanSecurityDep m.scan element := by
  unfold scanSecurityIteration scanSecurityDep
  simp only [h]
  split_ifs
  · exact ⟨rfl, rfl, rfl⟩
  · exact ⟨rfl, rfl, rfl⟩

/-- What a call of `scanner.ScanSecurity` leaves in memory, whatever it found
there: the slice as it was, and in `scan` the scan of the slice. -/
theorem ScanSecurityCall_eq (m : ScanMemory) :
    (ScanSecurityCall m).deps = m.deps ∧ (ScanSecurityCall m).scan = ScanSecurity m.deps := by
  have h := range_loop ScanSecurityIteration ScanSecurityDep vulnerablePackages
    ScanSecurityIteration_eq
    { m with
      scan := { Critical := 0, High := 0, Medium := 0, Low := 0, Vulnerabilities := [],
                Status := "success" },
      vulnerablePackages := [("requests", "2.28.2"), ("urllib3", "1.26.0")] }
    rfl m.deps.length (le_refl _)
  simp only [List.take_length] at h
  obtain ⟨h1, -, h3⟩ := h
  unfold ScanSecurityCall ScanSecurity emptyScan
  simp only
  rw [← h3]
  split_ifs
  · exact ⟨h1, rfl⟩
  · exact ⟨h1, rfl⟩
  · exact ⟨h1, rfl⟩

/-- What a call of the validator's `scanSecurity` leaves in memory, whatever it
found there: the slice as it was, and in `scan` the scan of the slice. -/
theorem scanSecurityCall_eq (m : ScanMemory) :
    (scanSecurityCall m).deps = m.deps ∧ (scanSecurityCall m).scan = scanSecurity m.deps := by
  have h := range_loop scanSecurityIteration scanSecurityDep m.vulnerablePackages
    (fun m i element hget ht => by
      obtain ⟨k1, k2, k3⟩ := scanSecurityIteration_eq m i element hget
      exact ⟨k1, k2.trans ht, k3⟩)
    { m with
      scan := { Critical := 0, High := 0, Medium := 0, Low := 0, Vulnerabilities := [],
                Status := "success" } }
    rfl m.deps.length (le_refl _)
  simp only [List.take_length] at h
  obtain ⟨h1, -, h3⟩ := h
  unfold scanSecurityCall scanSecurity emptyScan
  simp only
  rw [← h3]
  split_ifs
  · exact ⟨h1, rfl⟩
  · exact ⟨h1, rfl⟩

/-- The memory model and the model that carries the slice next to the scan
agree on what a call of `scanner.ScanSecurity` returns and leaves in the slice. -/
theorem ScanSecurityCall_run (m : ScanMemory) :
    ((ScanSecurityCall m).scan, (ScanSecurityCall m).deps) = ScanSecurityRun m.deps := by
  rw [ScanSecurityRun_eq, (ScanSecurityCall_eq m).1, (ScanSecurityCall_eq m).2]

/-- The loop of `scanner.ScanSecurity` by itself continues the scan it finds:
run on a scan that counts 7, it counts 9.  The call is repeatable because it
allocates the scan before the loop. -/
theorem ScanSecurityIteration_continues :
    ((List.range 4).foldl ScanSecurityIteration
      { staleMemory with vulnerablePackages := vulnerablePackages }).scan.Medium = 9 := by
  decide

/-- C21: a call of scanner.ScanSecurity, on whatever the memory holds before
it, writes nothing to the caller's dependency list, and the SecurityScan it
returns is determined by that list alone: the content the cells `scan`,
`vulnerablePackages` and `dep` had before the call has no effect on it.  So a
second call, run on the memory the first call left (its scan with the records
emitted, its table, its loop variable with the status it wrote), returns the
same SecurityScan as the first: equal counts, equal status and equal
vulnerability lists in the same order.  The same holds for the validator's
scanSecurity. -/
theorem scanners_repeatable (m : ScanMemory) :
    ((ScanSecurityCall m).deps = m.deps ∧
      (∀ m' : ScanMemory, m'.deps = m.deps →
        (ScanSecurityCall m').scan = (ScanSecurityCall m).scan) ∧
      (ScanSecurityCall (ScanSecurityCall m)).scan = (ScanSecurityCall m).scan ∧
      ((ScanSecurityCall (ScanSecurityCall m)).scan.Critical = (ScanSecurityCall m).scan.Critical ∧
        (ScanSecurityCall (ScanSecurityCall m)).scan.High = (ScanSecurityCall m).scan.High ∧
        (ScanSecurityCall (ScanSecurityCall m)).scan.Medium = (ScanSecurityCall m).scan.Medium ∧
        (ScanSecurityCall (ScanSecurityCall m)).scan.Low = (ScanSecurityCall m).scan.Low ∧
        (ScanSecurityCall (ScanSecurityCall m)).scan.Status = (ScanSecurityCall m).scan.Status ∧
        (ScanSecurityCall (ScanSecurityCall m)).scan.Vulnerabilities
          = (ScanSecurityCall m).scan.Vulnerabilities) ∧
      (ScanSecurityCall m).scan = ScanSecurity m.deps) ∧
    ((scanSecurityCall m).deps = m.deps ∧
      (∀ m' : ScanMemory, m'.deps = m.deps →
        (scanSecurityCall m').scan = (scanSecurityCall m).scan) ∧
      (scanSecurityCall (scanSecurityCall m)).scan = (scanSecurityCall m).scan ∧
      (scanSecurityCall m).scan = scanSecurity m.deps) ∧
    (ScanSecurityCall (scanSecurityCall m)).scan = (ScanSecurityCall m).scan ∧
    (scanSecurityCall (ScanSecurityCall m)).scan = (scanSecurityCall m).scan := by
  have a1 := (ScanSecurityCall_eq m).1
  have b1 := (scanSecurityCall_eq m).1
  have a2 : ∀ m' : ScanMemory, m'.deps = m.deps →
      (ScanSecurityCall m').scan = (ScanSecurityCall m).scan := by
    intro m' h
    rw [(ScanSecurityCall_eq m').2, (ScanSecurityCall_eq m).2, h]
  have b2 : ∀ m' : ScanMemory, m'.deps = m.deps →
      (scanSecurityCall m').scan = (scanSecurityCall m).scan := by
    intro m' h
    rw [(scanSecurityCall_eq m').2, (scanSecurityCall_eq m).2, h]
  have a3 := a2 (ScanSecurityCall m) a1
  refine ⟨⟨a1, a2, a3, ?_, (ScanSecurityCall_eq m).2⟩,
    ⟨b1, b2, b2 (scanSecurityCall m) b1, (scanSecurityCall_eq m).2⟩,
    a2 (scanSecurityCall m) b1, b2 (ScanSecurityCall m) a1⟩
  rw [a3]
  exact ⟨rfl, rfl, rfl, rfl, rfl, rfl⟩

set_option maxRecDepth 100000 in
/-- C21 on a memory in which an earlier activity left a scan with counts and a
record, another table and a loop variable: the first call leaves the status
vulnerable in its loop variable and two records in its scan, and the second
call, run on that memory, returns the same scan. -/
theorem scanners_repeatable_witness :
    staleMemory.deps = [bareRequests, pinnedRequests, bareFlask, pinnedUrllib3] ∧
    (ScanSecurityCall staleMemory).dep.Status = "vulnerable" ∧
    (ScanSecurityCall staleMemory).scan.Vulnerabilities
      = [scannerRecord pinnedRequests, scannerRecord pinnedUrllib3] ∧
    (ScanSecurityCall staleMemory).scan.Medium = 2 ∧
    (ScanSecurityCall staleMemory).scan.Critical = 0 ∧
    (ScanSecurityCall staleMemory).scan.Status = "warning" ∧
    (ScanSecurityCall (ScanSecurityCall staleMemory)).scan
      = (ScanSecurityCall staleMemory).scan ∧
    (scanSecurityCall (scanSecurityCall staleMemory)).scan
      = (scanSecurityCall staleMemory).scan ∧
    (scanSecurityCall staleMemory).scan.Vulnerabilities = [validatorRecord bareRequests] :=
  ⟨rfl, by decide, by decide, by decide, by decide, by decide,
   (scanners_repeatable staleMemory).1.2.2.1, (scanners_repeatable staleMemory).2.1.2.2.1,
   by decide⟩

/-- C24 fails on the list holding requests ==2.28.2 with status outdated:
scanner.ScanSecurity emits a Vulnerability for it and sets the status of its
loop variable to vulnerable, but the loop variable is a copy, and the
dependency in the caller's list still has status outdated after the call. -/
theorem ScanSecurity_status_not_written :
    (ScanSecurityRun [pinnedRequests]).1.Vulnerabilities = [scannerRecord pinnedRequests] ∧
    (ScanSecurityBody emptyScan pinnedRequests).2.Status = "vulnerable" ∧
    (ScanSecurityRun [pinnedRequests]).2 = [pinnedRequests] ∧
    (ScanSecurityRun [pinnedRequests]).2.map (fun dep => dep.Status) = ["outdated"] ∧
    ¬ (∀ dep ∈ (ScanSecurityRun [pinnedRequests]).2, isFlagged dep = true →
        dep.Status = "vulnerable") := by
  refine ⟨by decide, by decide, by decide, by decide, ?_⟩
  intro h
  have := h pinnedRequests (by decide) (by decide)
  exact absurd this (by decide)

/-- What scanner.ScanSecurity leaves in the caller's list: the list as it was, for every
list. -/
theorem ScanSecurityRun_slice (deps : List Dependency) : (ScanSecurityRun deps).2 = deps := by
  rw [ScanSecurityRun_eq]

/-- C22: calculateScore changes only the Score and OverallStatus fields: the
environment info, the dependencies, the security scan, the performance record,
the issues, the suggestions, the duration and the report path are what they
were, and the Score and OverallStatus it stores do not depend on the Score and
OverallStatus the result held before. -/
theorem calculateScore_frame (r : ValidationResult) :
    (calculateScore r).VenvInfo = r.VenvInfo ∧
    (calculateScore r).Dependencies = r.Dependencies ∧
    (calculateScore r).Security = r.Security ∧
    (calculateScore r).Performance = r.Performance ∧
    (calculateScore r).Issues = r.Issues ∧
    (calculateScore r).Suggestions = r.Suggestions ∧
    (calculateScore r).Duration = r.Duration ∧
    (calculateScore r).ReportPath = r.ReportPath ∧
    (∀ (score : Int) (status : String),
      calculateScore { r with Score := score, OverallStatus := status } = calculateScore r) ∧
    (∀ r' : ValidationResult, r'.VenvInfo = r.VenvInfo → r'.Dependencies = r.Dependencies →
      r'.Security = r.Security → r'.Performance = r.Performance → r'.Issues = r.Issues →
      (calculateScore r').Score = (calculateScore r).Score ∧
      (calculateScore r').OverallStatus = (calculateScore r).OverallStatus) := by
  refine ⟨rfl, rfl, rfl, rfl, rfl, rfl, rfl, rfl, fun _ _ => rfl, ?_⟩
  intro r' h1 h2 h3 h4 h5
  have hraw : rawScore r' = rawScore r := by
    simp only [rawScore, h1, h2, h3, h4, h5]
  constructor
  · show clampScore (rawScore r') = clampScore (rawScore r)
    rw [hraw]
  · show overallStatus (clampScore (rawScore r')) = overallStatus (clampScore (rawScore r))
    rw [hraw]

/-- C22 on a result with one component of every kind that held Score 0 and an empty
status: the components are kept, and the Score stored is that of the same result holding
Score 77 and status error before. -/
theorem calculateScore_frame_witness :
    (calculateScore sampleResult).Dependencies = sampleResult.Dependencies ∧
    (calculateScore sampleResult).Security = sampleResult.Security ∧
    calculateScore { sampleResult with Score := 77, OverallStatus := "error" }
      = calculateScore sampleResult :=
  ⟨(calculateScore_frame sampleResult).2.1, (calculateScore_frame sampleResult).2.2.1,
   (calculateScore_frame sampleResult).2.2.2.2.2.2.2.2.1 77 "error"⟩

/-! ## The text report -/

theorem string_append_empty (s : String) : s ++ "" = s := String.append_empty s

theorem dependencyLine_eq (dep : Dependency) : dependencyLine dep = specLine dep := by
  unfold dependencyLine specLine specLineBase
  by_cases hv : dep.Version = ""
  · by_cases hl : dep.Latest ≠ "" ∧ dep.Latest ≠ dep.Version
    · rw [if_pos hl, if_pos hl]
      simp [hv, String.append_assoc]
    · rw [if_neg hl, if_neg hl]
      simp [hv, String.append_assoc]
  · by_cases hl : dep.Latest ≠ "" ∧ dep.Latest ≠ dep.Version
    · rw [if_pos hl, if_pos hl]
      simp [hv, String.append_assoc]
    · rw [if_neg hl, if_neg hl]
      simp [hv, String.append_assoc]

theorem foldl_lines (f : Dependency → String) (deps : List Dependency) (init : String) :
    deps.foldl (fun acc dep => acc ++ (f dep ++ "\n")) init
      = init ++ concatTexts (deps.map (fun dep => f dep ++ "\n")) := by
  induction deps generalizing init with
  | nil => simp [concatTexts]
  | cons d ds ih =>
    rw [List.foldl_cons, ih]
    simp only [List.map_cons, concatTexts, String.append_assoc]

theorem sectionStatusLoop_eq (deps : List Dependency) (s : String) :
    sectionStatusLoop s deps =
      if deps.any (fun dep => dep.Status = "vulnerable") then "error"
      else if deps.any (fun dep => dep.Status = "outdated") then "warning"
      else s := by
  induction deps generalizing s with
  | nil => simp [sectionStatusLoop]
  | cons d ds ih =>
    rw [sectionStatusLoop]
    by_cases hv : d.Status = "vulnerable"
    · simp [hv]
    · by_cases ho : d.Status = "outdated"
      · rw [if_neg hv, if_pos ho, ih]
        simp [hv, ho]
      · rw [if_neg hv, if_neg ho, ih]
        simp [hv, ho]

theorem sectionIcon_eq (deps : List Dependency) :
    getStatusIcon (sectionStatusLoop "success" deps) = specSectionIcon deps := by
  rw [sectionStatusLoop_eq]
  unfold specSectionIcon
  split_ifs <;> rfl

/-- The text of the dependencies section: the header, then the lines. -/
theorem formatDependenciesSection_eq (deps : List Dependency) :
    formatDependenciesSection deps
      = specHeader (specSectionIcon deps) deps.length ++
          concatTexts (deps.map (fun dep => specLine dep ++ "\n")) := by
  unfold formatDependenciesSection
  simp only [sectionIcon_eq]
  rw [foldl_lines dependencyLine]
  simp only [dependencyLine_eq]
  rfl

/-- C23: the text of the dependencies section is its header, which shows the
number of dependencies, followed by one line per dependency, in list order; a
dependency's line is its base followed by ` → latest: X` exactly when its
Latest field X is not empty and differs from its Version; and the base shows
the installed version behind the name exactly when the version is not
empty. -/
theorem formatDependenciesSection_lines (deps : List Dependency) :
    formatDependenciesSection deps
      = "[" ++ getStatusIcon (sectionStatusLoop "success" deps) ++ " PACKAGES] Dependencies (" ++
          toString deps.length ++ ")\n" ++
        concatTexts (deps.map (fun dep => specLine dep ++ "\n")) ∧
    (deps.map (fun dep => specLine dep ++ "\n")).length = deps.length ∧
    (∀ dep : Dependency, dependencyLine dep = specLine dep) ∧
    (∀ dep : Dependency,
      (dep.Latest ≠ "" ∧ dep.Latest ≠ dep.Version →
        specLine dep = specLineBase dep ++ (" → latest: " ++ dep.Latest)) ∧
      (¬ (dep.Latest ≠ "" ∧ dep.Latest ≠ dep.Version) → specLine dep = specLineBase dep)) ∧
    (∀ dep : Dependency,
      (dep.Version ≠ "" →
        specLineBase dep
          = "  " ++ getStatusIcon dep.Status ++ " " ++ dep.Name ++ (" " ++ dep.Version)) ∧
      (dep.Version = "" →
        specLineBase dep = "  " ++ getStatusIcon dep.Status ++ " " ++ dep.Name)) := by
  refine ⟨?_, by simp, dependencyLine_eq, ?_, ?_⟩
  · rw [formatDependenciesSection_eq, sectionIcon_eq]
    rfl
  · intro dep
    constructor
    · intro h
      unfold specLine
      rw [if_pos h]
    · intro h
      unfold specLine
      rw [if_neg h, String.append_empty]
  · intro dep
    constructor
    · intro h
      unfold specLineBase
      rw [if_neg h]
    · intro h
      unfold specLineBase
      rw [if_pos h, String.append_empty]

/-- C23 on four dependencies: the text of the section, line by line. -/
theorem formatDependenciesSection_lines_witness :
    formatDependenciesSection mixedDeps
      = "[❌ PACKAGES] Dependencies (4)\n" ++
        "  ✅ flask 2.3.3\n" ++
        "  ⚠️ requests ==2.28.2 → latest: 2.31.0\n" ++
        "  ❌ urllib3\n" ++
        "  ✅ numpy 1.24.3\n" ∧
    formatDependenciesSection mixedDeps
      = "[" ++ getStatusIcon (sectionStatusLoop "success" mixedDeps) ++
          " PACKAGES] Dependencies (" ++ toString mixedDeps.length ++ ")\n" ++
        concatTexts (mixedDeps.map (fun dep => specLine dep ++ "\n")) :=
  ⟨by decide, (formatDependenciesSection_lines mixedDeps).1⟩

/-- C27: the status icon in the header of the dependencies section is the
error icon exactly when some dependency of the list has status vulnerable,
wherever it stands in the list; it is the warning icon exactly when no
dependency is vulnerable and some dependency has status outdated; and it is
the success icon exactly when no dependency is vulnerable or outdated. -/
theorem formatDependenciesSection_icon (deps : List Dependency) :
    (∃ rest, formatDependenciesSection deps
      = "[" ++ getStatusIcon (sectionStatusLoop "success" deps) ++ rest) ∧
    (getStatusIcon (sectionStatusLoop "success" deps) = getStatusIcon "error" ↔
      ∃ dep ∈ deps, dep.Status = "vulnerable") ∧
    (getStatusIcon (sectionStatusLoop "success" deps) = getStatusIcon "warning" ↔
      (¬ ∃ dep ∈ deps, dep.Status = "vulnerable") ∧ ∃ dep ∈ deps, dep.Status = "outdated") ∧
    (getStatusIcon (sectionStatusLoop "success" deps) = getStatusIcon "success" ↔
      (¬ ∃ dep ∈ deps, dep.Status = "vulnerable") ∧ ¬ ∃ dep ∈ deps, dep.Status = "outdated") ∧
    (getStatusIcon "error" = "❌" ∧ getStatusIcon "warning" = "⚠️" ∧
      getStatusIcon "success" = "✅") := by
  have hany : ∀ (status : String), (deps.any (fun dep => decide (dep.Status = status)) = true ↔
      ∃ dep ∈ deps, dep.Status = status) := by
    intro status
    rw [List.any_eq_true]
    constructor
    · rintro ⟨d, hd, h⟩
      exact ⟨d, hd, by simpa using h⟩
    · rintro ⟨d, hd, h⟩
      exact ⟨d, hd, by simpa using h⟩
  have hew : getStatusIcon "error" ≠ getStatusIcon "warning" := by decide
  have hes : getStatusIcon "error" ≠ getStatusIcon "success" := by decide
  have hws : getStatusIcon "warning" ≠ getStatusIcon "success" := by decide
  have hicon : getStatusIcon (sectionStatusLoop "success" deps) =
      if deps.any (fun dep => decide (dep.Status = "vulnerable")) = true then
        getStatusIcon "error"
      else if deps.any (fun dep => decide (dep.Status = "outdated")) = true then
        getStatusIcon "warning"
      else getStatusIcon "success" := by
    rw [sectionStatusLoop_eq]
    split_ifs <;> rfl
  refine ⟨?_, ?_, ?_, ?_, by decide⟩
  · refine ⟨" PACKAGES] Dependencies (" ++ toString deps.length ++ ")\n" ++
      concatTexts (deps.map (fun dep => specLine dep ++ "\n")), ?_⟩
    rw [formatDependenciesSection_eq, sectionIcon_eq]
    simp only [specHeader, String.append_assoc]
  · rw [hicon, ← hany]
    split_ifs with h1 h2
    · exact ⟨fun _ => h1, fun _ => rfl⟩
    · exact ⟨fun h => absurd h.symm hew, fun h => absurd h h1⟩
    · exact ⟨fun h => absurd h.symm hes, fun h => absurd h h1⟩
  · rw [hicon, ← hany, ← hany]
    split_ifs with h1 h2
    · exact ⟨fun h => absurd h hew, fun h => absurd h1 h.1⟩
    · exact ⟨fun _ => ⟨h1, h2⟩, fun _ => rfl⟩
    · exact ⟨fun h => absurd h.symm hws, fun h => absurd h.2 h2⟩
  · rw [hicon, ← hany, ← hany]
    split_ifs with h1 h2
    · exact ⟨fun h => absurd h hes, fun h => absurd h1 h.1⟩
    · exact ⟨fun h => absurd h hws, fun h => absurd h2 h.2⟩
    · exact ⟨fun _ => ⟨h1, h2⟩, fun _ => rfl⟩

/-- C27 on a list whose vulnerable dependency stands behind an outdated one (error icon),
on a list with an outdated dependency only (warning icon) and on a list with neither
(success icon). -/
theorem formatDependenciesSection_icon_witness :
    getStatusIcon (sectionStatusLoop "success" mixedDeps) = "❌" ∧
    getStatusIcon (sectionStatusLoop "success" [bareFlask, pinnedRequests]) = "⚠️" ∧
    getStatusIcon (sectionStatusLoop "success" [bareFlask]) = "✅" ∧
    (getStatusIcon (sectionStatusLoop "success" mixedDeps) = getStatusIcon "error" ↔
      ∃ dep ∈ mixedDeps, dep.Status = "vulnerable") :=
  ⟨by decide, by decide, by decide, (formatDependenciesSection_icon mixedDeps).2.1⟩

/-! ## Packages to dependencies -/

theorem char_lt_iff (a b : Char) : a < b ↔ a.toNat < b.toNat := by
  rw [Char.lt_def]
  exact Iff.rfl

theorem lessChars_iff (s t : List Char) : lessChars s t = true ↔ List.lt s t := by
  induction s generalizing t with
  | nil =>
    cases t with
    | nil =>
      simp only [lessChars]
      constructor
      · intro h; exact absurd h (by decide)
      · intro h; cases h
    | cons b bs =>
      simp only [lessChars]
      exact ⟨fun _ => List.lt.nil b bs, fun _ => trivial⟩
  | cons a as ih =>
    cases t with
    | nil =>
      simp only [lessChars]
      constructor
      · intro h; exact absurd h (by decide)
      · intro h; cases h
    | cons b bs =>
      simp only [lessChars]
      by_cases hab : a.toNat < b.toNat
      · rw [if_pos hab]
        exact ⟨fun _ => List.lt.head as bs ((char_lt_iff a b).mpr hab), fun _ => rfl⟩
      · rw [if_neg hab]
        by_cases hba : b.toNat < a.toNat
        · rw [if_pos hba]
          constructor
          · intro h; exact absurd h (by decide)
          · intro h
            cases h with
            | head _ _ h1 => exact absurd ((char_lt_iff a b).mp h1) hab
            | tail _ h2 _ => exact absurd ((char_lt_iff b a).mpr hba) h2
        · rw [if_neg hba, ih]
          constructor
          · intro h
            exact List.lt.tail (fun h1 => hab ((char_lt_iff a b).mp h1))
              (fun h1 => hba ((char_lt_iff b a).mp h1)) h
          · intro h
            cases h with
            | head _ _ h1 => exact absurd ((char_lt_iff a b).mp h1) hab
            | tail _ _ h3 => exact h3

/-- The comparison `<` of the source on strings is the lexicographic order of the
texts. -/
theorem strLess_iff (s t : String) : strLess s t = true ↔ s < t := by
  rw [String.lt_iff_toList_lt]
  show lessChars s.data t.data = true ↔ List.Lex (· < ·) s.data t.data
  rw [← List.lt_iff_lex_lt]
  exact lessChars_iff s.data t.data

theorem convertPackagesToDependencies_eq (packages : StrMap) :
    convertPackagesToDependencies packages = packages.map specDependency := by
  unfold convertPackagesToDependencies
  have h : ∀ (l : StrMap) (init : List Dependency),
      l.foldl (fun deps entry =>
        let dep : Dependency :=
          { Name := entry.1, Version := entry.2, Latest := "", Status := "uptodate",
            RequiredBy := "" }
        let dep :=
          if entry.1 = "requests" ∧ strLess entry.2 "2.31.0" then
            { dep with Status := "outdated", Latest := "2.31.0" }
          else dep
        deps ++ [dep]) init = init ++ l.map specDependency := by
    intro l
    induction l with
    | nil => intro init; simp
    | cons e es ih =>
      intro init
      rw [List.foldl_cons, ih]
      simp only [List.map_cons, List.append_assoc, List.singleton_append]
      congr 2
      unfold specDependency
      by_cases hc : e.1 = "requests" ∧ strLess e.2 "2.31.0" = true
      · rw [if_pos hc, if_pos ⟨hc.1, (strLess_iff _ _).mp hc.2⟩]
      · rw [if_neg hc, if_neg (fun h => hc ⟨h.1, (strLess_iff _ _).mpr h.2⟩)]
  simpa using h packages []

theorem scanSecurity_records (deps : List Dependency) :
    (scanSecurity deps).Vulnerabilities
      = (deps.filter (fun dep =>
          decide (dep.Name = "requests" ∧ strLess dep.Version "2.31.0" = true))).map
            validatorRecord := by
  have h := scan_loop_records scanSecurityDep
    (fun dep => decide (dep.Name = "requests" ∧ strLess dep.Version "2.31.0" = true))
    validatorRecord (by intro scan dep; rw [scanSecurityDep_eq]; simp) deps emptyScan
  have h0 : emptyScan.Vulnerabilities = [] := rfl
  rw [h0, List.nil_append] at h
  unfold scanSecurity
  simp only
  split_ifs <;> exact h

theorem specDependency_outdated_iff (entry : String × String) :
    (specDependency entry).Status = "outdated" ↔
      ((specDependency entry).Name = "requests" ∧
        strLess (specDependency entry).Version "2.31.0" = true) := by
  unfold specDependency
  by_cases hc : entry.1 = "requests" ∧ entry.2 < "2.31.0"
  · rw [if_pos hc]
    exact ⟨fun _ => ⟨hc.1, (strLess_iff _ _).mpr hc.2⟩, fun _ => rfl⟩
  · rw [if_neg hc]
    have hne : "uptodate" ≠ "outdated" := by decide
    constructor
    · intro h
      exact absurd h hne
    · intro h
      exact absurd ⟨h.1, (strLess_iff _ _).mp h.2⟩ hc

/-- C26: convertPackagesToDependencies returns one dependency per package
entry, with the name and the version of the entry; the dependency is outdated
with Latest 2.31.0 exactly when the name is `requests` and the version is, as
a text compared character by character, smaller than `2.31.0`, and is up to
date with empty Latest otherwise; so requests 2.4.0 is up to date and requests
2.100.0 is outdated; and the validator's scanSecurity flags exactly the
outdated dependencies of the list. -/
theorem convertPackagesToDependencies_spec (packages : StrMap) :
    convertPackagesToDependencies packages = packages.map specDependency ∧
    (convertPackagesToDependencies packages).length = packages.length ∧
    (∀ entry : String × String,
      (specDependency entry).Name = entry.1 ∧ (specDependency entry).Version = entry.2 ∧
      (((specDependency entry).Status = "outdated" ∧ (specDependency entry).Latest = "2.31.0") ↔
        (entry.1 = "requests" ∧ entry.2 < "2.31.0")) ∧
      (¬ (entry.1 = "requests" ∧ entry.2 < "2.31.0") →
        (specDependency entry).Status = "uptodate" ∧ (specDependency entry).Latest = "")) ∧
    (∀ s t : String, strLess s t = true ↔ s < t) ∧
    ((specDependency ("requests", "2.4.0")).Status = "uptodate" ∧
      (specDependency ("requests", "2.100.0")).Status = "outdated" ∧
      (specDependency ("requests", "2.100.0")).Latest = "2.31.0") ∧
    (scanSecurity (convertPackagesToDependencies packages)).Vulnerabilities
      = ((convertPackagesToDependencies packages).filter
          (fun dep => dep.Status = "outdated")).map validatorRecord := by
  have hmap := convertPackagesToDependencies_eq packages
  refine ⟨hmap, by rw [hmap, List.length_map], ?_, strLess_iff, ?_, ?_⟩
  · intro entry
    unfold specDependency
    by_cases hc : entry.1 = "requests" ∧ entry.2 < "2.31.0"
    · rw [if_pos hc]
      exact ⟨rfl, rfl, ⟨fun _ => hc, fun _ => ⟨rfl, rfl⟩⟩, fun h => absurd hc h⟩
    · rw [if_neg hc]
      have hne : "uptodate" ≠ "outdated" := by decide
      exact ⟨rfl, rfl, ⟨fun h => absurd h.1 hne, fun h => absurd h hc⟩, fun _ => ⟨rfl, rfl⟩⟩
  · have h1 : ¬ ("2.4.0" < "2.31.0") := by
      rw [← strLess_iff]; decide
    have h2 : "2.100.0" < "2.31.0" := by
      rw [← strLess_iff]; decide
    unfold specDependency
    rw [if_neg (fun h => h1 h.2), if_pos ⟨rfl, h2⟩]
    exact ⟨rfl, rfl, rfl⟩
  · rw [scanSecurity_records]
    congr 1
    apply List.filter_congr
    intro dep hdep
    rw [hmap] at hdep
    obtain ⟨entry, -, rfl⟩ := List.mem_map.mp hdep
    have := specDependency_outdated_iff entry
    by_cases ho : (specDependency entry).Status = "outdated"
    · simp [ho, this.mp ho]
    · have hn := fun h => ho (this.mpr h)
      simp only [ho, decide_False]
      simpa using hn

/-- C26 on the mapping requests 2.4.0, flask 2.3.3 and on the mapping requests 2.100.0:
only the last entry is outdated, and only it is flagged. -/
theorem convertPackagesToDependencies_spec_witness :
    convertPackagesToDependencies [("requests", "2.4.0"), ("flask", "2.3.3")]
      = [{ Name := "requests", Version := "2.4.0", Latest := "", Status := "uptodate",
           RequiredBy := "" },
         { Name := "flask", Version := "2.3.3", Latest := "", Status := "uptodate",
           RequiredBy := "" }] ∧
    convertPackagesToDependencies [("requests", "2.100.0")]
      = [{ Name := "requests", Version := "2.100.0", Latest := "2.31.0", Status := "outdated",
           RequiredBy := "" }] ∧
    (scanSecurity (convertPackagesToDependencies [("requests", "2.100.0")])).Vulnerabilities
      = ((convertPackagesToDependencies [("requests", "2.100.0")]).filter
          (fun dep => dep.Status = "outdated")).map validatorRecord ∧
    (scanSecurity (convertPackagesToDependencies
      [("requests", "2.4.0"), ("flask", "2.3.3")])).Vulnerabilities = [] :=
  ⟨by decide, by decide,
   (convertPackagesToDependencies_spec [("requests", "2.100.0")]).2.2.2.2.2,
   by decide⟩

/-! ## Counting without a bound on the length, and the names of a listing -/

theorem countOutdated_loop_tight (deps : List Dependency) (acc : Int) (h0 : 0 ≤ acc)
    (h : acc + (outdatedNumber deps : Int) < 2 ^ 63) :
    deps.foldl (fun outdatedCount dep =>
      if dep.Status = "outdated" then i64 (outdatedCount + 1) else outdatedCount) acc
      = acc + (outdatedNumber deps : Int) := by
  induction deps generalizing acc with
  | nil => simp [outdatedNumber]
  | cons d ds ih =>
    rw [List.foldl_cons]
    by_cases hd : d.Status = "outdated"
    · have hk : outdatedNumber (d :: ds) = outdatedNumber ds + 1 := by
        simp [outdatedNumber, List.filter_cons, hd]
      rw [hk] at h ⊢
      push_cast at h ⊢
      have hn : (0 : Int) ≤ (outdatedNumber ds : Int) := Int.natCast_nonneg _
      rw [if_pos hd, i64_of_range _ (by omega) (by omega), ih _ (by omega) (by omega)]
      omega
    · have hk : outdatedNumber (d :: ds) = outdatedNumber ds := by
        simp [outdatedNumber, List.filter_cons, hd]
      rw [hk] at h ⊢
      rw [if_neg hd, ih _ h0 h]

theorem scoreOutdated_eq_tight (s : Int) (deps : List Dependency)
    (h1 : -(2 ^ 63) ≤ s - 3 * (outdatedNumber deps : Int)) (h2 : s < 2 ^ 63)
    (h3 : 3 * (outdatedNumber deps : Int) < 2 ^ 63) :
    scoreOutdated s deps = s - 3 * (outdatedNumber deps : Int) := by
  have hnn : (0 : Int) ≤ (outdatedNumber deps : Int) := Int.natCast_nonneg _
  unfold scoreOutdated countOutdated
  rw [countOutdated_loop_tight deps 0 (le_refl 0) (by omega)]
  rw [zero_add, i64_of_range (_ * 3) (by omega) (by omega), i64_of_range _ (by omega) (by omega)]
  omega

/-- The score before clamping is 100 minus the deductions when the counted deductions,
not the lengths of the lists, stay in the range of an int. -/
theorem rawScore_eq_tight (r : ValidationResult)
    (h : 145 + 3 * (outdatedNumber r.Dependencies : Int) + securityMagnitude r.Security
      + 20 * (r.Issues.length : Int) < 2 ^ 63) :
    rawScore r = 100 - specDeduction r := by
  have hv := specVenvDeduction_range r.VenvInfo
  have hp := specPerformanceDeduction_range r.Performance
  have hi := specIssues_sum_range r.Issues
  have hs := specSecurityDeduction_abs r.Security
  have hsn := securityMagnitude_nonneg r.Security
  have hfn : (0 : Int) ≤ (outdatedNumber r.Dependencies : Int) := Int.natCast_nonneg _
  have hin : (0 : Int) ≤ (r.Issues.length : Int) := Int.natCast_nonneg _
  have hk : ((r.Dependencies.filter (fun dep => dep.Status = "outdated")).length : Int)
      = (outdatedNumber r.Dependencies : Int) := rfl
  simp only [specDeduction, rawScore, hk]
  rw [scoreVenv_eq 100 _ (by norm_num) (by norm_num)]
  rw [scoreOutdated_eq_tight _ _ (by omega) (by omega) (by omega)]
  rw [scoreSecurity_eq _ _ (by omega) (by omega)]
  rw [scorePerformance_eq _ _ (by omega) (by omega)]
  rw [scoreIssues_eq _ _ (by omega) (by omega)]
  omega

theorem scan_loop_tight (f : SecurityScan → Dependency → SecurityScan)
    (sel : Dependency → Bool) (rec : Dependency → Vulnerability)
    (hf : ∀ scan dep, f scan dep =
      if sel dep = true then
        { scan with Medium := i64 (scan.Medium + 1),
                    Vulnerabilities := scan.Vulnerabilities ++ [rec dep] }
      else scan)
    (deps : List Dependency) (scan : SecurityScan) (vs : List Vulnerability)
    (h : emitted scan vs)
    (hlen : ((vs.length + (deps.filter sel).length : Nat) : Int) < 2 ^ 63) :
    emitted (deps.foldl f scan) (vs ++ (deps.filter sel).map rec) := by
  induction deps generalizing scan vs with
  | nil => simpa using h
  | cons d ds ih =>
    rw [List.foldl_cons, hf]
    by_cases hd : sel d = true
    · rw [if_pos hd]
      simp only [List.filter_cons, hd, if_true, List.length_cons] at hlen
      have hstep : emitted
          { scan with Medium := i64 (scan.Medium + 1),
                      Vulnerabilities := scan.Vulnerabilities ++ [rec d] }
          (vs ++ [rec d]) := by
        obtain ⟨h1, h2, h3, h4, h5, h6⟩ := h
        refine ⟨h1, h2, h3, h4, by simp [h5], ?_⟩
        simp only [h6, List.length_append, List.length_singleton]
        rw [i64_of_range _ (by omega) (by push_cast at hlen ⊢; omega)]
        push_cast
        rfl
      have := ih _ _ hstep (by
        simp only [List.length_append, List.length_singleton]
        push_cast at hlen ⊢; omega)
      simpa [List.filter_cons, hd] using this
    · rw [if_neg hd]
      simp only [List.filter_cons, hd, if_false] at hlen
      have := ih _ _ h (by simpa using hlen)
      simpa [List.filter_cons, hd] using this

theorem mapKeys_mapSet (m : StrMap) (k v : String) :
    mapKeys (mapSet m k v) = if k ∈ mapKeys m then mapKeys m else mapKeys m ++ [k] := by
  induction m with
  | nil => simp [mapSet, mapKeys]
  | cons e rest ih =>
    obtain ⟨a, b⟩ := e
    unfold mapKeys at ih ⊢
    by_cases hak : a = k
    · subst hak
      simp [mapSet]
    · have hka : ¬ k = a := fun h => hak h.symm
      simp only [mapSet, hak, if_false, List.map_cons, ih, List.mem_cons, hka, false_or]
      split_ifs <;> simp

theorem mapKeys_mapSet_nodup (m : StrMap) (k v : String) (h : (mapKeys m).Nodup) :
    (mapKeys (mapSet m k v)).Nodup := by
  rw [mapKeys_mapSet]
  split_ifs with hk
  · exact h
  · rw [List.nodup_append]
    refine ⟨h, List.nodup_singleton k, ?_⟩
    intro a ha hb
    simp only [List.mem_singleton] at hb
    subst hb
    exact hk ha

theorem freezeLine_nodup (m : StrMap) (line : String) (h : (mapKeys m).Nodup) :
    (mapKeys (freezeLine m line)).Nodup := by
  by_cases hocc : Occurs "==" line
  · obtain ⟨pre, post, hcut⟩ := firstAt_of_occurs "==" line hocc
    rw [freezeLine_entry m line pre post hcut]
    exact mapKeys_mapSet_nodup m _ _ h
  · rw [freezeLine_dropped m line hocc]
    exact h

/-- The mapping parsed from a package listing has every name once. -/
theorem parseFreeze_nodup (out : String) : (mapKeys (parseFreeze out)).Nodup := by
  rw [parseFreeze_eq]
  have key : ∀ (ls : List String) (m : StrMap), (mapKeys m).Nodup →
      (mapKeys (ls.foldl freezeLine m)).Nodup := by
    intro ls
    induction ls with
    | nil => intro m h; exact h
    | cons l ls ih =>
      intro m h
      rw [List.foldl_cons]
      exact ih _ (freezeLine_nodup m l h)
  exact key _ [] (by simp [mapKeys])

/-! ## The floor of the score -/

theorem filter_requests_absent (p : Dependency → Bool)
    (hp : ∀ e, p (specDependency e) = true → e.1 = "requests") (packages : StrMap)
    (h : "requests" ∉ mapKeys packages) :
    (packages.map specDependency).filter p = [] := by
  rw [List.filter_eq_nil_iff]
  intro dep hmem hpd
  rw [List.mem_map] at hmem
  obtain ⟨e, he, rfl⟩ := hmem
  apply h
  rw [← hp e hpd]
  exact List.mem_map_of_mem Prod.fst he

/-- Among the dependencies of a mapping with every name once, at most one is
selected by a test that only `requests` passes. -/
theorem filter_requests_le_one (p : Dependency → Bool)
    (hp : ∀ e, p (specDependency e) = true → e.1 = "requests") (packages : StrMap)
    (h : (mapKeys packages).Nodup) :
    ((packages.map specDependency).filter p).length ≤ 1 := by
  induction packages with
  | nil => simp
  | cons e es ih =>
    have hcons : mapKeys (e :: es) = e.1 :: mapKeys es := rfl
    rw [hcons, List.nodup_cons] at h
    rw [List.map_cons, List.filter_cons]
    by_cases hpe : p (specDependency e) = true
    · rw [if_pos hpe]
      have hn := hp e hpe
      rw [filter_requests_absent p hp es (by rw [← hn]; exact h.1)]
      simp
    · rw [if_neg hpe]
      exact ih h.2

theorem specDependency_flagged (e : String × String)
    (h : (specDependency e).Name = "requests" ∧
      strLess (specDependency e).Version "2.31.0" = true) : e.1 = "requests" := by
  have hn : (specDependency e).Name = e.1 := by
    unfold specDependency
    split_ifs <;> rfl
  rw [← hn]
  exact h.1

theorem outdatedNumber_le_one (packages : StrMap) (h : (mapKeys packages).Nodup) :
    outdatedNumber (convertPackagesToDependencies packages) ≤ 1 := by
  rw [convertPackagesToDependencies_eq]
  unfold outdatedNumber
  apply filter_requests_le_one _ _ packages h
  intro e hd
  exact specDependency_flagged e ((specDependency_outdated_iff e).mp (by simpa using hd))

theorem flaggedNumber_le_one (packages : StrMap) (h : (mapKeys packages).Nodup) :
    ((convertPackagesToDependencies packages).filter (fun dep =>
      decide (dep.Name = "requests" ∧ strLess dep.Version "2.31.0" = true))).length ≤ 1 := by
  rw [convertPackagesToDependencies_eq]
  apply filter_requests_le_one _ _ packages h
  intro e hd
  exact specDependency_flagged e (by simpa using hd)

/-- The validator's scan of a list with at most one flagged dependency counts
at most one medium vulnerability and nothing else. -/
theorem scanSecurity_counts (deps : List Dependency)
    (h : (deps.filter (fun dep =>
      decide (dep.Name = "requests" ∧ strLess dep.Version "2.31.0" = true))).length ≤ 1) :
    (scanSecurity deps).Critical = 0 ∧ (scanSecurity deps).High = 0 ∧
      (scanSecurity deps).Low = 0 ∧ 0 ≤ (scanSecurity deps).Medium ∧
      (scanSecurity deps).Medium ≤ 1 := by
  have hl := scan_loop_tight scanSecurityDep
    (fun dep => decide (dep.Name = "requests" ∧ strLess dep.Version "2.31.0" = true))
    validatorRecord (by intro scan dep; rw [scanSecurityDep_eq]; simp) deps emptyScan []
    emitted_emptyScan (by
      simp only [List.length_nil, zero_add]
      have : ((deps.filter (fun dep =>
        decide (dep.Name = "requests" ∧ strLess dep.Version "2.31.0" = true))).length : Int)
          ≤ 1 := by exact_mod_cast h
      omega)
  obtain ⟨h1, h2, h3, _, _, h6⟩ := hl
  simp only [List.nil_append, List.length_map] at h6
  have hm : ((deps.filter (fun dep =>
        decide (dep.Name = "requests" ∧ strLess dep.Version "2.31.0" = true))).length : Int)
          ≤ 1 := by exact_mod_cast h
  have hm0 : (0 : Int) ≤ ((deps.filter (fun dep =>
        decide (dep.Name = "requests" ∧ strLess dep.Version "2.31.0" = true))).length : Int) :=
    Int.natCast_nonneg _
  unfold scanSecurity
  simp only
  split_ifs
  · exact ⟨h1, h2, h3, by show 0 ≤ (deps.foldl scanSecurityDep emptyScan).Medium; omega,
      by show (deps.foldl scanSecurityDep emptyScan).Medium ≤ 1; omega⟩
  · exact ⟨h1, h2, h3, by omega, by omega⟩

/-- The environment record of a valid environment costs at most 20 points. -/
theorem specVenvDeduction_valid (sys : System) (venvPath : String)
    (h : IsValid sys venvPath = true) :
    specVenvDeduction (some (validateVenvStructure sys venvPath).1) ≤ 20 := by
  rw [validateVenvStructure_valid sys venvPath h]
  simp only [specVenvDeduction]
  by_cases ha : IsActivated sys venvPath = true
  · by_cases hp : probeOk (sys.pythonVersion venvPath) = true ∧
               probeOk (sys.pipVersion venvPath) = true
    · simp [ha, hp]
    · simp [ha, hp]
  · simp [ha]

/-- The score before clamping of a result whose environment costs at most 20
and whose scan counts medium vulnerabilities only, when the other deductions
come to at most 18. -/
theorem rawScore_floor (r : ValidationResult) (s : SecurityScan)
    (hv : specVenvDeduction r.VenvInfo ≤ 20)
    (hsec : r.Security = some s)
    (hc : s.Critical = 0) (hh : s.High = 0) (hl : s.Low = 0)
    (hm0 : 0 ≤ s.Medium)
    (hbound : 3 * (outdatedNumber r.Dependencies : Int) + 5 * s.Medium
      + specPerformanceDeduction r.Performance
      + (r.Issues.map specIssueDeduction).sum ≤ 18)
    (hlen : r.Issues.length ≤ 1) :
    62 ≤ rawScore r ∧ rawScore r ≤ 100 := by
  have hv0 := specVenvDeduction_range r.VenvInfo
  have hp := specPerformanceDeduction_range r.Performance
  have hi := specIssues_sum_range r.Issues
  have hfn : (0 : Int) ≤ (outdatedNumber r.Dependencies : Int) := Int.natCast_nonneg _
  have hil : ((r.Issues.length : Nat) : Int) ≤ 1 := by exact_mod_cast hlen
  have hmag : securityMagnitude r.Security = 5 * s.Medium := by
    rw [hsec]
    simp only [securityMagnitude, hc, hh, hl, abs_zero, mul_zero, add_zero, zero_add,
      abs_of_nonneg hm0]
  have hded : specSecurityDeduction r.Security = 5 * s.Medium := by
    rw [hsec]
    simp only [specSecurityDeduction, hc, hh, hl, mul_zero, add_zero, zero_add]
  have hk : ((r.Dependencies.filter (fun dep => dep.Status = "outdated")).length : Int)
      = (outdatedNumber r.Dependencies : Int) := rfl
  rw [rawScore_eq_tight r (by rw [hmag]; omega)]
  simp only [specDeduction, hded, hk]
  omega

theorem listedResult_floor (sys : System) (venvPath out : String)
    (hvalid : IsValid sys venvPath = true) :
    62 ≤ rawScore (listedResult sys venvPath out) ∧
      rawScore (listedResult sys venvPath out) ≤ 100 := by
  have hnd := parseFreeze_nodup out
  have ho := outdatedNumber_le_one (parseFreeze out) hnd
  have hs := scanSecurity_counts (convertPackagesToDependencies (parseFreeze out))
    (flaggedNumber_le_one (parseFreeze out) hnd)
  have hp := specPerformanceDeduction_range
    (some (analyzePerformance venvPath (convertPackagesToDependencies (parseFreeze out))))
  have hoi : ((outdatedNumber (convertPackagesToDependencies (parseFreeze out)) : Nat) : Int)
      ≤ 1 := by exact_mod_cast ho
  refine rawScore_floor (listedResult sys venvPath out)
    (scanSecurity (convertPackagesToDependencies (parseFreeze out)))
    (specVenvDeduction_valid sys venvPath hvalid) rfl hs.1 hs.2.1 hs.2.2.1 hs.2.2.2.1 ?_
    (by show ([] : List Issue).length ≤ 1; simp)
  show 3 * ((outdatedNumber (convertPackagesToDependencies (parseFreeze out)) : Nat) : Int)
    + 5 * (scanSecurity (convertPackagesToDependencies (parseFreeze out))).Medium
    + specPerformanceDeduction
        (some (analyzePerformance venvPath (convertPackagesToDependencies (parseFreeze out))))
    + (([] : List Issue).map specIssueDeduction).sum ≤ 18
  have := hs.2.2.2.2
  simp only [List.map_nil, List.sum_nil]
  omega

theorem unlistedResult_floor (sys : System) (venvPath err : String)
    (hvalid : IsValid sys venvPath = true) :
    62 ≤ rawScore (unlistedResult sys venvPath err) ∧
      rawScore (unlistedResult sys venvPath err) ≤ 100 := by
  refine rawScore_floor (unlistedResult sys venvPath err) emptyScan
    (specVenvDeduction_valid sys venvPath hvalid) rfl rfl rfl rfl (le_refl 0) ?_
    (by show ([_] : List Issue).length ≤ 1; simp)
  have h1 : ∀ m : String, specIssueDeduction
      { Type_ := "dependency", Severity := "warning", Message := m, Component := "",
        Line := 0 } = 10 := by
    intro m
    have hne : ¬ ("warning" = "error") := by decide
    unfold specIssueDeduction
    rw [if_neg hne, if_pos rfl]
  have h2 : (unlistedResult sys venvPath err).Issues.map specIssueDeduction = [10] := by
    show [specIssueDeduction _] = [10]
    rw [h1]
  have h3 : (unlistedResult sys venvPath err).Performance
      = some (analyzePerformance venvPath []) := rfl
  have h4 : (unlistedResult sys venvPath err).Dependencies = [] := rfl
  rw [h2, h3, h4, analyzePerformance_nil]
  decide

/-- A score between 62 and 100 is stored as it is, with the status success or
warning. -/
theorem calculateScore_floor (r : ValidationResult)
    (h : 62 ≤ rawScore r ∧ rawScore r ≤ 100) :
    62 ≤ (calculateScore r).Score ∧ (calculateScore r).Score ≤ 100 ∧
      ((calculateScore r).OverallStatus = "success" ∨
        (calculateScore r).OverallStatus = "warning") ∧
      (calculateScore r).OverallStatus ≠ "error" := by
  have hc : clampScore (rawScore r) = rawScore r := by
    rw [clampScore_eq]
    omega
  have hs : (calculateScore r).Score = rawScore r := hc
  have ho : (calculateScore r).OverallStatus = overallStatus (rawScore r) := by
    show overallStatus (clampScore (rawScore r)) = _
    rw [hc]
  rw [hs, ho]
  refine ⟨h.1, h.2, ?_⟩
  unfold overallStatus
  by_cases h80 : rawScore r ≥ 80
  · rw [if_pos h80]
    exact ⟨Or.inl rfl, by decide⟩
  · rw [if_neg h80, if_pos (by omega : rawScore r ≥ 50)]
    exact ⟨Or.inr rfl, by decide⟩

/-- C25: whenever ValidateEnvironment returns a result and not an error,
whatever the version probes, the activation check and the package enumeration
gave (the names of a parsed listing are unique), the Score is at least 62 and
at most 100 and the OverallStatus is success or warning, never error. -/
theorem ValidateEnvironment_score_floor (sys : System) (venvPath : String)
    (result : ValidationResult) (h : ValidateEnvironment sys venvPath = .ok result) :
    62 ≤ result.Score ∧ result.Score ≤ 100 ∧
      (result.OverallStatus = "success" ∨ result.OverallStatus = "warning") ∧
      result.OverallStatus ≠ "error" := by
  cases hvalid : IsValid sys venvPath with
  | false =>
    exfalso
    unfold ValidateEnvironment at h
    rw [validateVenvStructure_invalid sys venvPath hvalid] at h
    simp at h
  | true =>
    cases hlist : sys.pipList venvPath with
    | error err =>
      rw [ValidateEnvironment_unlisted sys venvPath err hvalid hlist] at h
      injection h with h
      subst h
      exact calculateScore_floor _ (unlistedResult_floor sys venvPath err hvalid)
    | ok out =>
      rw [ValidateEnvironment_listed sys venvPath out hvalid hlist] at h
      injection h with h
      subst h
      exact calculateScore_floor _ (listedResult_floor sys venvPath out hvalid)

theorem worstSystem_score :
    (calculateScore (listedResult worstSystem "venv"
      "requests==2.28.2\ntensorflow==2.13.0")).Score = 62 := by
  have hded : specDeduction (listedResult worstSystem "venv"
      "requests==2.28.2\ntensorflow==2.13.0") = 38 := by decide
  have hmag : 145 + 3 * (outdatedNumber (listedResult worstSystem "venv"
      "requests==2.28.2\ntensorflow==2.13.0").Dependencies : Int)
      + securityMagnitude (listedResult worstSystem "venv"
          "requests==2.28.2\ntensorflow==2.13.0").Security
      + 20 * ((listedResult worstSystem "venv"
          "requests==2.28.2\ntensorflow==2.13.0").Issues.length : Int) = 153 := by decide
  show clampScore (rawScore (listedResult worstSystem "venv"
      "requests==2.28.2\ntensorflow==2.13.0")) = 62
  rw [rawScore_eq_tight _ (by rw [hmag]; norm_num), hded]
  decide

/-- C25 on the machine `worstSystem`, where every deduction a returned result
can meet applies: 15 and 5 for the environment, 3 for the outdated `requests`,
5 for its vulnerability and 10 for the large `tensorflow`; the score is 62 and
the status warning. -/
theorem ValidateEnvironment_score_floor_witness :
    ∃ result, ValidateEnvironment worstSystem "venv" = .ok result ∧
      result.Score = 62 ∧
      (62 ≤ result.Score ∧ result.Score ≤ 100 ∧
        (result.OverallStatus = "success" ∨ result.OverallStatus = "warning") ∧
        result.OverallStatus ≠ "error") :=
  ⟨_, ValidateEnvironment_listed worstSystem "venv" "requests==2.28.2\ntensorflow==2.13.0"
      (by decide) rfl,
    worstSystem_score,
    ValidateEnvironment_score_floor worstSystem "venv" _
      (ValidateEnvironment_listed worstSystem "venv" "requests==2.28.2\ntensorflow==2.13.0"
        (by decide) rfl)⟩

end Enva
